import Mathlib

/-!
# Unscented Kalman filter (`src/ukf.cpp`): embedding and verified properties

The filter of `src/ukf.cpp` is embedded over the real numbers: every `double`
is a real, `VectorXd` / `MatrixXd` of a fixed size are functions on `Fin n`,
and the object state of `class UKF` is the record `UKF` that each member
function takes and returns.

Two Eigen library routines are called by the source and are not part of it:

* `P_aug.llt().matrixL()` (Cholesky factor) is a parameter `llt` of every
  function that reaches `Prediction`; theorems state what they assume of it;
* `S.inverse()` is the matrix inverse of Mathlib, which is the true inverse
  whenever the determinant is not zero; where `S` is singular the source divides
  by zero, and a statement then speaks of the value of the embedding only.

`atan2(y, x)` is the argument of the complex number `x + y i`, which has the
same range `(-π, π]` and the same value at the origin. Division is the division
of the reals, with `x / 0 = 0` where the source would produce an infinity or a
NaN (the range rate of a sigma point at the origin, the weights when
`lambda_ + n_aug_ = 0`).
-/

open Matrix

/-! ## Data model -/

/-- State dimension, `n_x_ = 5` in the constructor. Vectors and matrices of
that size are indexed by `Fin 5`. -/
abbrev n_x_ : ℕ := 5

/-- Augmented state dimension, `n_aug_ = 7` in the constructor. Vectors and
matrices of that size are indexed by `Fin 7`, and the `2 * n_aug_ + 1` sigma
points by `Fin 15`. -/
abbrev n_aug_ : ℕ := 7

/-- The tag `MeasurementPackage::SensorType`. -/
inductive SensorType where
  | LASER
  | RADAR
  deriving DecidableEq, Repr

/-- A measurement record: time stamp in microseconds, sensor tag and raw values
(a laser record carries two values, in slots 0 and 1; a radar record three). -/
structure MeasurementPackage where
  timestamp_ : ℤ
  sensor_type_ : SensorType
  raw_measurements_ : Fin 3 → ℝ

/-- The member variables of `class UKF`. -/
structure UKF where
  is_initialized_ : Bool
  use_laser_ : Bool
  use_radar_ : Bool
  x_ : Fin 5 → ℝ
  P_ : Matrix (Fin 5) (Fin 5) ℝ
  Xsig_pred_ : Matrix (Fin 5) (Fin 15) ℝ
  previousTimestamp : ℤ
  std_a_ : ℝ
  std_yawdd_ : ℝ
  std_laspx_ : ℝ
  std_laspy_ : ℝ
  std_radr_ : ℝ
  std_radphi_ : ℝ
  std_radrd_ : ℝ
  weights_ : Fin 15 → ℝ
  lambda_ : ℝ

/-- The Cholesky routine of the linear algebra library, as a function on
augmented covariance matrices. -/
abbrev CholeskyRoutine : Type :=
  Matrix (Fin 7) (Fin 7) ℝ → Matrix (Fin 7) (Fin 7) ℝ

noncomputable section

/-- The constructor `UKF::UKF()`. It allocates `x_`, `P_`, `Xsig_pred_` and
`weights_` without writing them and does not write `previousTimestamp`; their
contents are the arguments. -/
def UKF.ctor (x0 : Fin 5 → ℝ) (P0 : Matrix (Fin 5) (Fin 5) ℝ)
    (X0 : Matrix (Fin 5) (Fin 15) ℝ) (w0 : Fin 15 → ℝ)
    (t0 : ℤ) : UKF where
  use_laser_ := true
  use_radar_ := true
  x_ := x0
  P_ := P0
  std_a_ := 3.0
  std_yawdd_ := 1.0
  std_laspx_ := 0.15
  std_laspy_ := 0.15
  std_radr_ := 0.3
  std_radphi_ := 0.03
  std_radrd_ := 0.3
  is_initialized_ := false
  Xsig_pred_ := X0
  weights_ := w0
  lambda_ := 3 - (n_aug_ : ℝ)
  previousTimestamp := t0

/-! ## Loops -/

/-- The loop `for (int i = 0; i < n; ++i) acc = acc + f(i);` run from `acc = 0`. -/
def accumulate {M : Type} [AddCommMonoid M] (n : ℕ) (f : Fin n → M) : M :=
  (List.finRange n).foldl (fun acc i => acc + f i) 0

/-- The loop `while (d > bound) d -= 2.*M_PI;`. -/
def whileAbove (bound d : ℝ) : ℝ :=
  if bound < d then whileAbove bound (d - 2 * Real.pi) else d
termination_by Int.toNat ⌈(d - bound) / (2 * Real.pi)⌉
decreasing_by
  have hpi : (0 : ℝ) < 2 * Real.pi := by positivity
  have hpos : 0 < (d - bound) / (2 * Real.pi) := div_pos (by linarith) hpi
  have hstep : (d - 2 * Real.pi - bound) / (2 * Real.pi) = (d - bound) / (2 * Real.pi) - 1 := by
    field_simp
    ring
  rw [hstep, Int.ceil_sub_one]
  have hc : 0 < ⌈(d - bound) / (2 * Real.pi)⌉ := Int.ceil_pos.mpr hpos
  omega

/-- The loop `while (d < bound) d += 2.*M_PI;`. -/
def whileBelow (bound d : ℝ) : ℝ :=
  if d < bound then whileBelow bound (d + 2 * Real.pi) else d
termination_by Int.toNat ⌈(bound - d) / (2 * Real.pi)⌉
decreasing_by
  have hpi : (0 : ℝ) < 2 * Real.pi := by positivity
  have hpos : 0 < (bound - d) / (2 * Real.pi) := div_pos (by linarith) hpi
  have hstep : (bound - (d + 2 * Real.pi)) / (2 * Real.pi) = (bound - d) / (2 * Real.pi) - 1 := by
    field_simp
    ring
  rw [hstep, Int.ceil_sub_one]
  have hc : 0 < ⌈(bound - d) / (2 * Real.pi)⌉ := Int.ceil_pos.mpr hpos
  omega

/-- The yaw normalization of `Prediction` (lines 211-212) and of `UpdateRadar`
(lines 321-322): `while (d > M_PI) d -= 2.*M_PI; while (d < -M_PI) d += 2.*M_PI;`. -/
def normalizeYaw (d : ℝ) : ℝ :=
  whileBelow (-Real.pi) (whileAbove Real.pi d)

/-- The bearing normalization of `UpdateRadar` (lines 295-296, 315-316, 330-331):
`while (d > M_PI) d -= 2.*M_PI; while (d < M_PI) d += 2.*M_PI;`. -/
def normalizeBearing (d : ℝ) : ℝ :=
  whileBelow Real.pi (whileAbove Real.pi d)

/-! ## Prediction -/

/-- Lines 126-132 of `Prediction`: `x_aug.head(n_x_) = x_; x_aug(5) = 0; x_aug(6) = 0;`. -/
def x_aug (s : UKF) : Fin 7 → ℝ :=
  fun i => if h : i.val < 5 then s.x_ ⟨i.val, h⟩ else 0

/-- Lines 134-137 of `Prediction`: `P_aug` is filled with zero, its top left
corner is `P_`, and its last two diagonal entries are the process noise variances. -/
def P_aug (s : UKF) : Matrix (Fin 7) (Fin 7) ℝ :=
  fun i j =>
    if h : i.val < 5 ∧ j.val < 5 then s.P_ ⟨i.val, h.1⟩ ⟨j.val, h.2⟩
    else if i.val = 5 ∧ j.val = 5 then s.std_a_ * s.std_a_
    else if i.val = 5 + 1 ∧ j.val = 5 + 1 then s.std_yawdd_ * s.std_yawdd_
    else 0

/-- Lines 141-147 of `Prediction`: column 0 is `x_aug`, column `i+1` is
`x_aug + sqrt(lambda_ + n_aug_) * L.col(i)` and column `i+1+n_aug_` is
`x_aug - sqrt(lambda_ + n_aug_) * L.col(i)`, for `i = 0 .. n_aug_ - 1`. -/
def Xsig_aug (s : UKF) (L : Matrix (Fin 7) (Fin 7) ℝ) :
    Matrix (Fin 7) (Fin 15) ℝ :=
  fun r c =>
    if c.val = 0 then x_aug s r
    else if h : c.val - 1 < 7 then
      x_aug s r + Real.sqrt (s.lambda_ + (n_aug_ : ℝ)) * L r ⟨c.val - 1, h⟩
    else
      x_aug s r - Real.sqrt (s.lambda_ + (n_aug_ : ℝ)) *
        L r ⟨c.val - 1 - 7, by have hc : c.val < 15 := c.isLt; omega⟩

/-- Lines 153-193 of `Prediction`: the motion model applied to one augmented
sigma point `p`. -/
def predictSigmaPoint (delta_t : ℝ) (p : Fin 7 → ℝ) : Fin 5 → ℝ :=
  let p_x := p 0
  let p_y := p 1
  let v := p 2
  let yaw := p 3
  let yawd := p 4
  let nu_a := p 5
  let nu_yawdd := p 6
  let px_p :=
    if |yawd| > 0.001 then p_x + v / yawd * (Real.sin (yaw + yawd * delta_t) - Real.sin yaw)
    else p_x + v * delta_t * Real.cos yaw
  let py_p :=
    if |yawd| > 0.001 then p_y + v / yawd * (Real.cos yaw - Real.cos (yaw + yawd * delta_t))
    else p_y + v * delta_t * Real.sin yaw
  let v_p := v
  let yaw_p := yaw + yawd * delta_t
  let yawd_p := yawd
  ![px_p + 0.5 * nu_a * delta_t * delta_t * Real.cos yaw,
    py_p + 0.5 * nu_a * delta_t * delta_t * Real.sin yaw,
    v_p + nu_a * delta_t,
    yaw_p + 0.5 * nu_yawdd * delta_t * delta_t,
    yawd_p + nu_yawdd * delta_t]

/-- Lines 209-212 (and 319-322): `x_diff = Xsig_pred_.col(i) - x_` with its
yaw component (index 3) normalized. -/
def x_diff (Xsig_pred : Matrix (Fin 5) (Fin 15) ℝ) (x : Fin 5 → ℝ)
    (i : Fin 15) : Fin 5 → ℝ :=
  Function.update (fun r => Xsig_pred r i - x r) 3 (normalizeYaw (Xsig_pred 3 i - x 3))

/-- The member function `UKF::Prediction(double delta_t)`. -/
def UKF.Prediction (llt : CholeskyRoutine) (s : UKF) (delta_t : ℝ) : UKF :=
  let L := llt (P_aug s)
  let Xsig_pred : Matrix (Fin 5) (Fin 15) ℝ :=
    fun r i => predictSigmaPoint delta_t (fun k => Xsig_aug s L k i) r
  let x : Fin 5 → ℝ :=
    accumulate 15 (fun i => s.weights_ i • (fun r => Xsig_pred r i))
  let P : Matrix (Fin 5) (Fin 5) ℝ :=
    accumulate 15
      (fun i => s.weights_ i • vecMulVec (x_diff Xsig_pred x i) (x_diff Xsig_pred x i))
  { s with x_ := x, P_ := P, Xsig_pred_ := Xsig_pred }

/-! ## Updates -/

/-- The measurement matrix `H` of `UpdateLidar`. -/
def lidarH : Matrix (Fin 2) (Fin 5) ℝ :=
  !![1, 0, 0, 0, 0;
     0, 1, 0, 0, 0]

/-- The lidar measurement covariance `R` of `UpdateLidar`. -/
def lidarR (s : UKF) : Matrix (Fin 2) (Fin 2) ℝ :=
  !![s.std_laspx_ * s.std_laspx_, 0;
     0, s.std_laspy_ * s.std_laspy_]

/-- The innovation covariance `S = H*P_*Ht + R` of `UpdateLidar`. -/
def lidarS (s : UKF) : Matrix (Fin 2) (Fin 2) ℝ :=
  lidarH * s.P_ * lidarHᵀ + lidarR s

/-- The gain `K = P_*Ht*Si` of `UpdateLidar`. -/
def lidarK (s : UKF) : Matrix (Fin 5) (Fin 2) ℝ :=
  s.P_ * lidarHᵀ * (lidarS s)⁻¹

/-- The member function `UKF::UpdateLidar(MeasurementPackage meas_package)`
(the NIS it computes is a local that is not stored). -/
def UKF.UpdateLidar (s : UKF) (meas_package : MeasurementPackage) : UKF :=
  let z : Fin 2 → ℝ := ![meas_package.raw_measurements_ 0, meas_package.raw_measurements_ 1]
  let z_pred : Fin 2 → ℝ := lidarH *ᵥ s.x_
  let y : Fin 2 → ℝ := z - z_pred
  let K := lidarK s
  { s with
    x_ := s.x_ + K *ᵥ y
    P_ := (1 - K * lidarH) * s.P_ }

/-- Lines 266-280 of `UpdateRadar`: the sigma points in measurement space. -/
def Zsig (s : UKF) : Matrix (Fin 3) (Fin 15) ℝ :=
  fun r i =>
    let p_x := s.Xsig_pred_ 0 i
    let p_y := s.Xsig_pred_ 1 i
    let v := s.Xsig_pred_ 2 i
    let yaw := s.Xsig_pred_ 3 i
    let v1 := v * Real.cos yaw
    let v2 := v * Real.sin yaw
    ![Real.sqrt (p_x * p_x + p_y * p_y),
      Complex.arg ⟨p_x, p_y⟩,
      (p_x * v1 + p_y * v2) / Real.sqrt (p_x * p_x + p_y * p_y)] r

/-- Lines 283-287 of `UpdateRadar`: the mean predicted measurement. -/
def z_pred (s : UKF) : Fin 3 → ℝ :=
  accumulate 15 (fun i => s.weights_ i • (fun r => Zsig s r i))

/-- Lines 293-296 and 313-316 of `UpdateRadar`: `z_diff = Zsig.col(i) - z_pred`
with its bearing component (index 1) passed through the two loops. -/
def z_diff (s : UKF) (i : Fin 15) : Fin 3 → ℝ :=
  Function.update (fun r => Zsig s r i - z_pred s r) 1 (normalizeBearing (Zsig s 1 i - z_pred s 1))

/-- The radar measurement noise covariance `R` of `UpdateRadar`. -/
def radarR (s : UKF) : Matrix (Fin 3) (Fin 3) ℝ :=
  !![s.std_radr_ * s.std_radr_, 0, 0;
     0, s.std_radphi_ * s.std_radphi_, 0;
     0, 0, s.std_radrd_ * s.std_radrd_]

/-- Lines 290-305 of `UpdateRadar`: the innovation covariance `S`. -/
def radarS (s : UKF) : Matrix (Fin 3) (Fin 3) ℝ :=
  accumulate 15 (fun i => s.weights_ i • vecMulVec (z_diff s i) (z_diff s i))
    + radarR s

/-- Lines 308-324 of `UpdateRadar`: the cross correlation `Tc`. -/
def radarTc (s : UKF) : Matrix (Fin 5) (Fin 3) ℝ :=
  accumulate 15
    (fun i => s.weights_ i • vecMulVec (x_diff s.Xsig_pred_ s.x_ i) (z_diff s i))

/-- Line 326 of `UpdateRadar`: the gain `K = Tc * S.inverse()`. -/
def radarK (s : UKF) : Matrix (Fin 5) (Fin 3) ℝ :=
  radarTc s * (radarS s)⁻¹

/-- Lines 328-331 of `UpdateRadar`: the residual `z - z_pred` with its bearing
component passed through the two loops. -/
def radarResidual (s : UKF) (meas_package : MeasurementPackage) : Fin 3 → ℝ :=
  Function.update (fun r => meas_package.raw_measurements_ r - z_pred s r) 1
    (normalizeBearing (meas_package.raw_measurements_ 1 - z_pred s 1))

/-- The member function `UKF::UpdateRadar(MeasurementPackage meas_package)`
(the NIS it computes is a local that is not stored). -/
def UKF.UpdateRadar (s : UKF) (meas_package : MeasurementPackage) : UKF :=
  let S := radarS s
  let K := radarK s
  { s with
    x_ := s.x_ + K *ᵥ radarResidual s meas_package
    P_ := s.P_ - K * S * Kᵀ }

/-- The member function `UKF::ComputeNIS`. -/
def UKF.ComputeNIS {n : ℕ} (z_pred z_meas : Fin n → ℝ) (S : Matrix (Fin n) (Fin n) ℝ) : ℝ :=
  let z_diff := z_meas - z_pred
  z_diff ⬝ᵥ (S⁻¹ *ᵥ z_diff)

/-! ## Measurement processing -/

/-- Lines 102-109 of `ProcessMeasurement`: the sigma point weights. -/
def setWeights (s : UKF) : Fin 15 → ℝ :=
  fun i =>
    if i.val = 0 then s.lambda_ / (s.lambda_ + (n_aug_ : ℝ))
    else 0.5 / ((n_aug_ : ℝ) + s.lambda_)

/-- Lines 102-112 of `ProcessMeasurement`: the weights are set, the elapsed time
is taken in seconds, the time stamp is stored and `Prediction` runs. -/
def UKF.predictStep (llt : CholeskyRoutine) (s : UKF) (meas_package : MeasurementPackage) : UKF :=
  let s1 : UKF := { s with weights_ := setWeights s }
  let dt : ℝ := ((meas_package.timestamp_ - s1.previousTimestamp : ℤ) : ℝ) / 1000000.0
  let s2 : UKF := { s1 with previousTimestamp := meas_package.timestamp_ }
  UKF.Prediction llt s2 dt

/-- The member function `UKF::ProcessMeasurement(MeasurementPackage meas_package)`. -/
def UKF.ProcessMeasurement (llt : CholeskyRoutine) (s : UKF) (meas_package : MeasurementPackage) :
    UKF :=
  if !s.is_initialized_ then
    if meas_package.sensor_type_ = SensorType.RADAR ∧ s.use_radar_ = true then
      let rho := meas_package.raw_measurements_ 0
      let phi := meas_package.raw_measurements_ 1
      let rho_dot := meas_package.raw_measurements_ 2
      let px := rho * Real.cos phi
      let py := rho * Real.sin phi
      let v := Real.sqrt (rho_dot * Real.sin phi * rho_dot * Real.sin phi
        + rho_dot * Real.cos phi * rho_dot * Real.cos phi)
      { s with
        x_ := ![px, py, v, 0, 0]
        P_ := !![1, 0, 0, 0, 0;
                 0, 1, 0, 0, 0;
                 0, 0, 1, 0, 0;
                 0, 0, 0, 1, 0;
                 0, 0, 0, 0, 1]
        previousTimestamp := meas_package.timestamp_
        is_initialized_ := true }
    else if meas_package.sensor_type_ = SensorType.LASER ∧ s.use_laser_ = true then
      let px := meas_package.raw_measurements_ 0
      let py := meas_package.raw_measurements_ 1
      { s with
        x_ := ![px, py, 0, 0, 0]
        P_ := !![s.std_laspx_ * s.std_laspx_, 0, 0, 0, 0;
                 0, s.std_laspy_ * s.std_laspy_, 0, 0, 0;
                 0, 0, 5, 0, 0;
                 0, 0, 0, 1, 0;
                 0, 0, 0, 0, 1]
        previousTimestamp := meas_package.timestamp_
        is_initialized_ := true }
    else s
  else
    let s3 := UKF.predictStep llt s meas_package
    if s3.use_laser_ = true ∧ meas_package.sensor_type_ = SensorType.LASER then
      UKF.UpdateLidar s3 meas_package
    else if s3.use_radar_ = true ∧ meas_package.sensor_type_ = SensorType.RADAR then
      UKF.UpdateRadar s3 meas_package
    else s3

/-! ## Predicates used in the statements -/

/-- A measurement whose sensor modality is switched off in `s`. -/
def sensorDisabled (s : UKF) (m : MeasurementPackage) : Prop :=
  (m.sensor_type_ = SensorType.LASER ∧ s.use_laser_ = false) ∨
    (m.sensor_type_ = SensorType.RADAR ∧ s.use_radar_ = false)

/-- A measurement whose sensor modality is switched on in `s`. -/
def sensorEnabled (s : UKF) (m : MeasurementPackage) : Prop :=
  (m.sensor_type_ = SensorType.LASER ∧ s.use_laser_ = true) ∨
    (m.sensor_type_ = SensorType.RADAR ∧ s.use_radar_ = true)

/-- What the source relies on from `A.llt().matrixL()`: a lower triangular matrix
with non-negative diagonal whose product with its transpose is `A`. -/
def IsCholeskyFactor {n : ℕ} (L A : Matrix (Fin n) (Fin n) ℝ) : Prop :=
  (∀ i j, i < j → L i j = 0) ∧ (∀ i, 0 ≤ L i i) ∧ L * Lᵀ = A

/-- Two filters with the same configuration: enable flags and noise parameters. -/
def sameConfiguration (s t : UKF) : Prop :=
  s.use_laser_ = t.use_laser_ ∧ s.use_radar_ = t.use_radar_ ∧
    s.std_a_ = t.std_a_ ∧ s.std_yawdd_ = t.std_yawdd_ ∧
    s.std_laspx_ = t.std_laspx_ ∧ s.std_laspy_ = t.std_laspy_ ∧
    s.std_radr_ = t.std_radr_ ∧ s.std_radphi_ = t.std_radphi_ ∧
    s.std_radrd_ = t.std_radrd_

/-! ## Concrete records and tables used in the statements -/

/-- A laser record (a laser record carries two values; the third slot is not
read on any laser path). -/
def laserRecord (t : ℤ) (px py : ℝ) : MeasurementPackage :=
  ⟨t, SensorType.LASER, ![px, py, 0]⟩

/-- A radar record `(rho, phi, rho_dot)`. -/
def radarRecord (t : ℤ) (rho phi rho_dot : ℝ) : MeasurementPackage :=
  ⟨t, SensorType.RADAR, ![rho, phi, rho_dot]⟩

/-- The predicted sigma points of a state `[px, py, 0, 0, 0]` whose augmented
covariance has the diagonal Cholesky factor `diag ℓ`, after `dt` seconds, with
the spread `sqrt(lambda_ + n_aug_) = sqrt 3`. -/
def sigmaTableAtRest (px py dt : ℝ) (ℓ : Fin 7 → ℝ) : Matrix (Fin 5) (Fin 15) ℝ :=
  !![px, px + Real.sqrt 3 * ℓ 0, px, px + Real.sqrt 3 * ℓ 2 * dt, px, px,
      px + 0.5 * (Real.sqrt 3 * ℓ 5) * dt * dt, px,
      px - Real.sqrt 3 * ℓ 0, px, px - Real.sqrt 3 * ℓ 2 * dt, px, px,
      px - 0.5 * (Real.sqrt 3 * ℓ 5) * dt * dt, px;
     py, py, py + Real.sqrt 3 * ℓ 1, py, py, py, py, py,
      py, py - Real.sqrt 3 * ℓ 1, py, py, py, py, py;
     0, 0, 0, Real.sqrt 3 * ℓ 2, 0, 0, Real.sqrt 3 * ℓ 5 * dt, 0,
      0, 0, -(Real.sqrt 3 * ℓ 2), 0, 0, -(Real.sqrt 3 * ℓ 5 * dt), 0;
     0, 0, 0, 0, Real.sqrt 3 * ℓ 3, Real.sqrt 3 * ℓ 4 * dt, 0, 0.5 * (Real.sqrt 3 * ℓ 6) * dt * dt,
      0, 0, 0, -(Real.sqrt 3 * ℓ 3), -(Real.sqrt 3 * ℓ 4 * dt), 0,
      -(0.5 * (Real.sqrt 3 * ℓ 6) * dt * dt);
     0, 0, 0, 0, 0, Real.sqrt 3 * ℓ 4, 0, Real.sqrt 3 * ℓ 6 * dt,
      0, 0, 0, 0, -(Real.sqrt 3 * ℓ 4), 0, -(Real.sqrt 3 * ℓ 6 * dt)]

/-- The Cholesky factor on diagonal matrices: the diagonal matrix of the square
roots of the diagonal. -/
def cholDiag : CholeskyRoutine :=
  fun A => Matrix.diagonal (fun i => Real.sqrt (A i i))

/-- A filter with the laser switched off, seeded by the radar record `(1, 0, 0)`. -/
def radarOnlySeeded : UKF :=
  UKF.ProcessMeasurement cholDiag { UKF.ctor 0 0 0 0 0 with use_laser_ := false }
    (radarRecord 0 1 0 0)

/-- A lower triangular factor with a yaw row that puts four pairs of sigma
points at yaw `±π`. -/
def cexL : Matrix (Fin 7) (Fin 7) ℝ :=
  !![(1 / 2) / Real.sqrt 3, 0, 0, 0, 0, 0, 0;
     0, (1 / 2) / Real.sqrt 3, 0, 0, 0, 0, 0;
     0, 0, (1 / 2) / Real.sqrt 3, 0, 0, 0, 0;
     Real.pi / Real.sqrt 3, Real.pi / Real.sqrt 3, Real.pi / Real.sqrt 3, Real.pi / Real.sqrt 3,
       0, 0, 0;
     0, 0, 0, 0, (1 / 2000) / Real.sqrt 3, 0, 0;
     0, 0, 0, 0, 0, 3, 0;
     0, 0, 0, 0, 0, 0, 1]

/-- The state covariance whose augmented Cholesky factor is `cexL`. -/
def cexP : Matrix (Fin 5) (Fin 5) ℝ :=
  !![1 / 12, 0, 0, Real.pi / 6, 0;
     0, 1 / 12, 0, Real.pi / 6, 0;
     0, 0, 1 / 12, Real.pi / 6, 0;
     Real.pi / 6, Real.pi / 6, Real.pi / 6, 4 * Real.pi ^ 2 / 3, 0;
     0, 0, 0, 0, 1 / 12000000]

/-- An initialized filter with the constructor's configuration, speed 1.17 and
covariance `cexP`. -/
def cexState : UKF :=
  { UKF.ctor 0 0 0 0 0 with
    x_ := ![0, 0, 117 / 100, 0, 0]
    P_ := cexP
    previousTimestamp := 0
    is_initialized_ := true }

/-- The predicted `px` of the fifteen sigma points of a state `[0, 0, v0, 0, 0]`
with the factor `cexL`, after one second. -/
def cexRow0 (v0 : ℝ) : Fin 15 → ℝ :=
  ![v0, 1 / 2 - v0, -v0, -(v0 + 1 / 2), -v0, v0, v0 + 0.5 * (Real.sqrt 3 * 3), v0,
    -(1 / 2) - v0, -v0, -(v0 - 1 / 2), -v0, v0, v0 - 0.5 * (Real.sqrt 3 * 3), v0]

/-- The predicted `py` of the same sigma points. -/
def cexRow1 : Fin 15 → ℝ :=
  ![0, 0, 1 / 2, 0, 0, 0, 0, 0, 0, -(1 / 2), 0, 0, 0, 0, 0]

/-- The constructed filter seeded by the laser record `(1, 0)` at time 0. -/
def radarScenarioSeed : UKF :=
  UKF.ProcessMeasurement cholDiag (UKF.ctor 0 0 0 0 0) (laserRecord 0 1 0)

/-- The state after the prediction step of the radar record `(1, 0, 0)` at time 0
on `radarScenarioSeed`: the state on which `UpdateRadar` then runs. -/
def radarScenarioPredicted : UKF :=
  UKF.predictStep cholDiag radarScenarioSeed (radarRecord 0 1 0 0)


/-! ## The weights and the motion model branches as functions of their inputs -/

/-- Lines 102-109 of `ProcessMeasurement` with the members `n_aug_` and `lambda_` as
arguments: `weights_` has `2*n_aug_+1` entries, entry 0 is `lambda_/(lambda_ + n_aug_)`
and each other entry is `0.5/(n_aug_ + lambda_)`. -/
def weightsFor (n_aug : ℕ) (lambda : ℝ) : Fin (2 * n_aug + 1) → ℝ :=
  fun i => if i.val = 0 then lambda / (lambda + (n_aug : ℝ)) else 0.5 / ((n_aug : ℝ) + lambda)

/-- Line 166 of `Prediction`: `px_p` in the branch `fabs(yawd) > 0.001`. -/
def px_p_turning (p_x v yaw yawd delta_t : ℝ) : ℝ :=
  p_x + v / yawd * (Real.sin (yaw + yawd * delta_t) - Real.sin yaw)

/-- Line 167 of `Prediction`: `py_p` in the branch `fabs(yawd) > 0.001`. -/
def py_p_turning (p_y v yaw yawd delta_t : ℝ) : ℝ :=
  p_y + v / yawd * (Real.cos yaw - Real.cos (yaw + yawd * delta_t))

/-- Line 171 of `Prediction`: `px_p` in the other branch. -/
def px_p_straight (p_x v yaw delta_t : ℝ) : ℝ :=
  p_x + v * delta_t * Real.cos yaw

/-- Line 172 of `Prediction`: `py_p` in the other branch. -/
def py_p_straight (p_y v yaw delta_t : ℝ) : ℝ :=
  p_y + v * delta_t * Real.sin yaw

/-- A filter with the constructor's noise parameters, `lambda_ = 0` in place of the
constructor's `3 - n_aug_`, state `[1, 10, 0, 0, 0]` and `P_ = I`. -/
def nonnegWeightState : UKF :=
  { UKF.ctor ![1, 10, 0, 0, 0] 1 0 0 0 with lambda_ := 0 }

end

/-! ## Basic lemmas -/

theorem accumulate_eq_sum {M : Type} [AddCommMonoid M] (n : ℕ) (f : Fin n → M) :
    accumulate n f = ∑ i, f i := by
  unfold accumulate
  rw [Fin.sum_univ_def, List.sum_eq_foldl, List.foldl_map]

theorem identity_literal :
    (!![1, 0, 0, 0, 0;
        0, 1, 0, 0, 0;
        0, 0, 1, 0, 0;
        0, 0, 0, 1, 0;
        0, 0, 0, 0, 1] : Matrix (Fin 5) (Fin 5) ℝ) = 1 := by
  ext i j
  fin_cases i <;> fin_cases j <;> simp [Matrix.one_apply, vecHead, vecTail]

theorem laser_seed_covariance (a b : ℝ) :
    (!![a * a, 0, 0, 0, 0;
        0, b * b, 0, 0, 0;
        0, 0, 5, 0, 0;
        0, 0, 0, 1, 0;
        0, 0, 0, 0, 1] : Matrix (Fin 5) (Fin 5) ℝ)
      = Matrix.diagonal ![a ^ 2, b ^ 2, 5, 1, 1] := by
  ext i j
  fin_cases i <;> fin_cases j <;> simp [Matrix.diagonal_apply, vecHead, vecTail, sq]

theorem radar_speed_seed (rho_dot phi : ℝ) :
    Real.sqrt (rho_dot * Real.sin phi * rho_dot * Real.sin phi
        + rho_dot * Real.cos phi * rho_dot * Real.cos phi) = |rho_dot| := by
  have h : rho_dot * Real.sin phi * rho_dot * Real.sin phi
      + rho_dot * Real.cos phi * rho_dot * Real.cos phi = rho_dot ^ 2 := by
    have := Real.sin_sq_add_cos_sq phi
    linear_combination rho_dot ^ 2 * this
  rw [h, Real.sqrt_sq_eq_abs]

/-! ## Symmetry of the covariance -/

theorem isSymm_weighted_outer {n : ℕ} (w : Fin 15 → ℝ) (d : Fin 15 → Fin n → ℝ) :
    (accumulate 15 (fun i => w i • vecMulVec (d i) (d i))).IsSymm := by
  rw [accumulate_eq_sum]
  unfold Matrix.IsSymm
  rw [Matrix.transpose_sum]
  refine Finset.sum_congr rfl (fun i _ => ?_)
  ext a b
  simp [vecMulVec_apply, mul_comm]

theorem Prediction_P_isSymm (llt : CholeskyRoutine) (s : UKF) (delta_t : ℝ) :
    (UKF.Prediction llt s delta_t).P_.IsSymm := by
  unfold UKF.Prediction
  exact isSymm_weighted_outer _ _

theorem lidarR_isSymm (s : UKF) : (lidarR s).IsSymm := by
  unfold Matrix.IsSymm
  ext i j
  fin_cases i <;> fin_cases j <;> simp [lidarR, vecHead, vecTail]

theorem radarR_isSymm (s : UKF) : (radarR s).IsSymm := by
  unfold Matrix.IsSymm
  ext i j
  fin_cases i <;> fin_cases j <;> simp [radarR, vecHead, vecTail]

theorem lidarS_isSymm (s : UKF) (hP : s.P_.IsSymm) : (lidarS s).IsSymm := by
  unfold Matrix.IsSymm lidarS
  rw [Matrix.transpose_add, Matrix.transpose_mul, Matrix.transpose_mul, Matrix.transpose_transpose,
    hP.eq, (lidarR_isSymm s).eq, Matrix.mul_assoc]

theorem radarS_isSymm (s : UKF) : (radarS s).IsSymm := by
  unfold radarS
  exact (isSymm_weighted_outer _ _).add (radarR_isSymm s)

theorem UpdateLidar_P_isSymm (s : UKF) (m : MeasurementPackage) (hP : s.P_.IsSymm) :
    (UKF.UpdateLidar s m).P_.IsSymm := by
  have hS := lidarS_isSymm s hP
  have hSi : ((lidarS s)⁻¹)ᵀ = (lidarS s)⁻¹ := by
    rw [Matrix.transpose_nonsing_inv, hS.eq]
  have hexp : (UKF.UpdateLidar s m).P_ =
      s.P_ - s.P_ * lidarHᵀ * (lidarS s)⁻¹ * lidarH * s.P_ := by
    simp only [UKF.UpdateLidar, lidarK]
    rw [Matrix.sub_mul, Matrix.one_mul]
  rw [hexp]
  unfold Matrix.IsSymm
  rw [Matrix.transpose_sub, Matrix.transpose_mul, Matrix.transpose_mul, Matrix.transpose_mul,
    Matrix.transpose_mul, Matrix.transpose_transpose, hSi, hP.eq]
  simp only [Matrix.mul_assoc]

theorem lidarR_eq_diagonal (s : UKF) :
    lidarR s = Matrix.diagonal ![s.std_laspx_ * s.std_laspx_, s.std_laspy_ * s.std_laspy_] := by
  ext i j
  fin_cases i <;> fin_cases j <;> simp [lidarR, Matrix.diagonal_apply, vecHead, vecTail]

theorem lidarR_posDef (s : UKF) (hx : 0 < s.std_laspx_) (hy : 0 < s.std_laspy_) :
    (lidarR s).PosDef := by
  rw [lidarR_eq_diagonal, Matrix.posDef_diagonal_iff]
  intro i
  fin_cases i
  · exact mul_pos hx hx
  · exact mul_pos hy hy

theorem lidarS_posDef (s : UKF) (hP : s.P_.PosSemidef) (hx : 0 < s.std_laspx_)
    (hy : 0 < s.std_laspy_) : (lidarS s).PosDef := by
  unfold lidarS
  have h1 : (lidarH * s.P_ * lidarHᵀ).PosSemidef := by
    have := hP.mul_mul_conjTranspose_same lidarH
    rwa [Matrix.conjTranspose_eq_transpose_of_trivial] at this
  exact Matrix.PosDef.posSemidef_add h1 (lidarR_posDef s hx hy)

/-- Joseph form of the lidar covariance update: when `S` is invertible,
`(I - K H) P = (I - K H) P (I - K H)ᵀ + K R Kᵀ`. -/
theorem lidar_joseph (s : UKF) (hS : IsUnit (lidarS s).det) :
    (1 - lidarK s * lidarH) * s.P_ =
      (1 - lidarK s * lidarH) * s.P_ * (1 - lidarK s * lidarH)ᵀ
        + lidarK s * lidarR s * (lidarK s)ᵀ := by
  have hKS : lidarK s * lidarS s = s.P_ * lidarHᵀ := by
    unfold lidarK
    rw [Matrix.nonsing_inv_mul_cancel_right _ _ hS]
  have hHPH : lidarH * s.P_ * lidarHᵀ = lidarS s - lidarR s := by
    unfold lidarS
    abel
  have hAPH : (1 - lidarK s * lidarH) * s.P_ * lidarHᵀ = lidarK s * lidarR s := by
    rw [Matrix.sub_mul, Matrix.sub_mul, Matrix.one_mul, Matrix.mul_assoc (lidarK s),
      Matrix.mul_assoc (lidarK s), hHPH, Matrix.mul_sub, hKS]
    abel
  rw [Matrix.transpose_sub, Matrix.transpose_one, Matrix.transpose_mul, Matrix.mul_sub,
    Matrix.mul_one, ← Matrix.mul_assoc _ lidarHᵀ, hAPH]
  abel

theorem UpdateLidar_posSemidef_of_posSemidef (s : UKF) (m : MeasurementPackage)
    (hP : s.P_.PosSemidef) (hx : 0 < s.std_laspx_) (hy : 0 < s.std_laspy_) :
    (UKF.UpdateLidar s m).P_.PosSemidef := by
  have hS := lidarS_posDef s hP hx hy
  have hU : IsUnit (lidarS s).det := (Matrix.isUnit_iff_isUnit_det _).mp hS.isUnit
  show ((1 - lidarK s * lidarH) * s.P_).PosSemidef
  rw [lidar_joseph s hU]
  have h1 := hP.mul_mul_conjTranspose_same (1 - lidarK s * lidarH)
  have h2 := (lidarR_posDef s hx hy).posSemidef.mul_mul_conjTranspose_same (lidarK s)
  rw [Matrix.conjTranspose_eq_transpose_of_trivial] at h1 h2
  exact h1.add h2

/-! ## Loops -/

theorem whileAbove_of_le {bound d : ℝ} (h : d ≤ bound) : whileAbove bound d = d := by
  rw [whileAbove, if_neg (not_lt.mpr h)]

theorem whileAbove_of_gt {bound d : ℝ} (h : bound < d) :
    whileAbove bound d = whileAbove bound (d - 2 * Real.pi) := by
  rw [whileAbove, if_pos h]

theorem whileBelow_of_ge {bound d : ℝ} (h : bound ≤ d) : whileBelow bound d = d := by
  rw [whileBelow, if_neg (not_lt.mpr h)]

theorem whileBelow_of_lt {bound d : ℝ} (h : d < bound) :
    whileBelow bound d = whileBelow bound (d + 2 * Real.pi) := by
  rw [whileBelow, if_pos h]

theorem normalizeYaw_of_mem {d : ℝ} (h1 : -Real.pi ≤ d) (h2 : d ≤ Real.pi) :
    normalizeYaw d = d := by
  rw [normalizeYaw, whileAbove_of_le h2, whileBelow_of_ge h1]

theorem normalizeBearing_of_mem {d : ℝ} (h1 : -Real.pi ≤ d) (h2 : d < Real.pi) :
    normalizeBearing d = d + 2 * Real.pi := by
  rw [normalizeBearing, whileAbove_of_le h2.le, whileBelow_of_lt h2,
    whileBelow_of_ge (by linarith)]

theorem whileAbove_le (bound d : ℝ) : whileAbove bound d ≤ bound := by
  induction d using whileAbove.induct bound with
  | case1 d h ih => rw [whileAbove_of_gt h]; exact ih
  | case2 d h => rw [whileAbove_of_le (not_lt.mp h)]; exact not_lt.mp h

theorem whileBelow_mem (bound d : ℝ) (h : d ≤ bound) :
    bound ≤ whileBelow bound d ∧ whileBelow bound d < bound + 2 * Real.pi := by
  induction d using whileBelow.induct bound with
  | case1 d hlt ih =>
    rw [whileBelow_of_lt hlt]
    by_cases hb : d + 2 * Real.pi ≤ bound
    · exact ih hb
    · rw [whileBelow_of_ge (not_le.mp hb).le]
      exact ⟨(not_le.mp hb).le, by linarith⟩
  | case2 d hge =>
    rw [whileBelow_of_ge (not_lt.mp hge)]
    exact ⟨not_lt.mp hge, by have := Real.pi_pos; linarith⟩

theorem normalizeBearing_mem (d : ℝ) :
    Real.pi ≤ normalizeBearing d ∧ normalizeBearing d < 3 * Real.pi := by
  have := whileBelow_mem Real.pi (whileAbove Real.pi d) (whileAbove_le _ _)
  refine ⟨this.1, ?_⟩
  have h2 := this.2
  unfold normalizeBearing
  linarith

/-! ## Sums over the fifteen sigma points and literal vectors -/

theorem sum_univ_fifteen {M : Type} [AddCommMonoid M] (f : Fin 15 → M) :
    ∑ i, f i = f 0 + f 1 + f 2 + f 3 + f 4 + f 5 + f 6 + f 7 + f 8 + f 9 + f 10 + f 11 + f 12
      + f 13 + f 14 := by
  rw [Fin.sum_univ_castSucc, Fin.sum_univ_castSucc, Fin.sum_univ_castSucc, Fin.sum_univ_castSucc,
    Fin.sum_univ_castSucc, Fin.sum_univ_castSucc, Fin.sum_univ_castSucc, Fin.sum_univ_eight]
  rfl

section vecLiterals
variable {α : Type} (a0 a1 a2 a3 a4 a5 a6 a7 a8 a9 a10 a11 a12 a13 a14 : α)

theorem vec7_val_five : ![a0, a1, a2, a3, a4, a5, a6] 5 = a5 := rfl

theorem vec7_val_six : ![a0, a1, a2, a3, a4, a5, a6] 6 = a6 := rfl

theorem vec15_val_five :
    ![a0, a1, a2, a3, a4, a5, a6, a7, a8, a9, a10, a11, a12, a13, a14] 5 = a5 := rfl

theorem vec15_val_six :
    ![a0, a1, a2, a3, a4, a5, a6, a7, a8, a9, a10, a11, a12, a13, a14] 6 = a6 := rfl

theorem vec15_val_seven :
    ![a0, a1, a2, a3, a4, a5, a6, a7, a8, a9, a10, a11, a12, a13, a14] 7 = a7 := rfl

theorem vec15_val_eight :
    ![a0, a1, a2, a3, a4, a5, a6, a7, a8, a9, a10, a11, a12, a13, a14] 8 = a8 := rfl

theorem vec15_val_nine :
    ![a0, a1, a2, a3, a4, a5, a6, a7, a8, a9, a10, a11, a12, a13, a14] 9 = a9 := rfl

theorem vec15_val_ten :
    ![a0, a1, a2, a3, a4, a5, a6, a7, a8, a9, a10, a11, a12, a13, a14] 10 = a10 := rfl

theorem vec15_val_eleven :
    ![a0, a1, a2, a3, a4, a5, a6, a7, a8, a9, a10, a11, a12, a13, a14] 11 = a11 := rfl

theorem vec15_val_twelve :
    ![a0, a1, a2, a3, a4, a5, a6, a7, a8, a9, a10, a11, a12, a13, a14] 12 = a12 := rfl

theorem vec15_val_thirteen :
    ![a0, a1, a2, a3, a4, a5, a6, a7, a8, a9, a10, a11, a12, a13, a14] 13 = a13 := rfl

theorem vec15_val_fourteen :
    ![a0, a1, a2, a3, a4, a5, a6, a7, a8, a9, a10, a11, a12, a13, a14] 14 = a14 := rfl

end vecLiterals

/-! ## The Cholesky factor of a diagonal matrix -/

theorem cholesky_diagonal_column {n : ℕ} (L : Matrix (Fin n) (Fin n) ℝ) (d : Fin n → ℝ)
    (hd : ∀ i, 0 < d i) (hL : IsCholeskyFactor L (Matrix.diagonal d)) :
    ∀ (k : ℕ) (j : Fin n), j.val = k →
      (∀ i, i ≠ j → L i j = 0) ∧ L j j = Real.sqrt (d j) := by
  obtain ⟨htri, hnn, hmul⟩ := hL
  intro k
  induction k using Nat.strong_induction_on with
  | _ k ih =>
    intro j hj
    have hrow : ∀ c, c ≠ j → L j c = 0 := by
      intro c hc
      rcases lt_or_gt_of_ne hc with h | h
      · exact (ih c.val (by rw [← hj]; exact h) c rfl).1 j (Ne.symm hc)
      · exact htri j c h
    have hentry : ∀ i, L i j * L j j = Matrix.diagonal d i j := by
      intro i
      rw [← hmul, Matrix.mul_apply]
      rw [Finset.sum_eq_single j]
      · simp [Matrix.transpose_apply]
      · intro c _ hc
        simp [Matrix.transpose_apply, hrow c hc]
      · intro h
        exact absurd (Finset.mem_univ j) h
    have hjj : L j j * L j j = d j := by
      have := hentry j
      rwa [Matrix.diagonal_apply_eq] at this
    have hsq : L j j = Real.sqrt (d j) := by
      rw [← hjj, Real.sqrt_mul_self (hnn j)]
    have hpos : 0 < L j j := by
      rw [hsq]
      exact Real.sqrt_pos.mpr (hd j)
    refine ⟨?_, hsq⟩
    intro i hi
    have := hentry i
    rw [Matrix.diagonal_apply_ne _ hi] at this
    rcases mul_eq_zero.mp this with h | h
    · exact h
    · exact absurd h (ne_of_gt hpos)

/-- The Cholesky factor of a diagonal matrix with positive entries is the
diagonal matrix of their square roots. -/
theorem cholesky_diagonal {n : ℕ} (L : Matrix (Fin n) (Fin n) ℝ) (d : Fin n → ℝ)
    (hd : ∀ i, 0 < d i) (hL : IsCholeskyFactor L (Matrix.diagonal d)) :
    L = Matrix.diagonal (fun i => Real.sqrt (d i)) := by
  ext i j
  by_cases h : i = j
  · subst h
    rw [Matrix.diagonal_apply_eq]
    exact (cholesky_diagonal_column L d hd hL i.val i rfl).2
  · rw [Matrix.diagonal_apply_ne _ h]
    exact (cholesky_diagonal_column L d hd hL j.val j rfl).1 i h

/-! ## Entries of the augmented quantities -/

theorem x_aug_val (s : UKF) :
    x_aug s 0 = s.x_ 0 ∧ x_aug s 1 = s.x_ 1 ∧ x_aug s 2 = s.x_ 2 ∧ x_aug s 3 = s.x_ 3 ∧
    x_aug s 4 = s.x_ 4 ∧ x_aug s 5 = 0 ∧ x_aug s 6 = 0 :=
  ⟨rfl, rfl, rfl, rfl, rfl, rfl, rfl⟩

theorem P_aug_eq (s : UKF) :
    P_aug s =
      !![s.P_ 0 0, s.P_ 0 1, s.P_ 0 2, s.P_ 0 3, s.P_ 0 4, 0, 0;
         s.P_ 1 0, s.P_ 1 1, s.P_ 1 2, s.P_ 1 3, s.P_ 1 4, 0, 0;
         s.P_ 2 0, s.P_ 2 1, s.P_ 2 2, s.P_ 2 3, s.P_ 2 4, 0, 0;
         s.P_ 3 0, s.P_ 3 1, s.P_ 3 2, s.P_ 3 3, s.P_ 3 4, 0, 0;
         s.P_ 4 0, s.P_ 4 1, s.P_ 4 2, s.P_ 4 3, s.P_ 4 4, 0, 0;
         0, 0, 0, 0, 0, s.std_a_ * s.std_a_, 0;
         0, 0, 0, 0, 0, 0, s.std_yawdd_ * s.std_yawdd_] := by
  ext i j
  fin_cases i <;> fin_cases j <;> rfl

theorem Xsig_aug_col (s : UKF) (L : Matrix (Fin 7) (Fin 7) ℝ) (r : Fin 7) :
    Xsig_aug s L r 0 = x_aug s r ∧
    Xsig_aug s L r 1 = x_aug s r + Real.sqrt (s.lambda_ + (n_aug_ : ℝ)) * L r 0 ∧
    Xsig_aug s L r 2 = x_aug s r + Real.sqrt (s.lambda_ + (n_aug_ : ℝ)) * L r 1 ∧
    Xsig_aug s L r 3 = x_aug s r + Real.sqrt (s.lambda_ + (n_aug_ : ℝ)) * L r 2 ∧
    Xsig_aug s L r 4 = x_aug s r + Real.sqrt (s.lambda_ + (n_aug_ : ℝ)) * L r 3 ∧
    Xsig_aug s L r 5 = x_aug s r + Real.sqrt (s.lambda_ + (n_aug_ : ℝ)) * L r 4 ∧
    Xsig_aug s L r 6 = x_aug s r + Real.sqrt (s.lambda_ + (n_aug_ : ℝ)) * L r 5 ∧
    Xsig_aug s L r 7 = x_aug s r + Real.sqrt (s.lambda_ + (n_aug_ : ℝ)) * L r 6 ∧
    Xsig_aug s L r 8 = x_aug s r - Real.sqrt (s.lambda_ + (n_aug_ : ℝ)) * L r 0 ∧
    Xsig_aug s L r 9 = x_aug s r - Real.sqrt (s.lambda_ + (n_aug_ : ℝ)) * L r 1 ∧
    Xsig_aug s L r 10 = x_aug s r - Real.sqrt (s.lambda_ + (n_aug_ : ℝ)) * L r 2 ∧
    Xsig_aug s L r 11 = x_aug s r - Real.sqrt (s.lambda_ + (n_aug_ : ℝ)) * L r 3 ∧
    Xsig_aug s L r 12 = x_aug s r - Real.sqrt (s.lambda_ + (n_aug_ : ℝ)) * L r 4 ∧
    Xsig_aug s L r 13 = x_aug s r - Real.sqrt (s.lambda_ + (n_aug_ : ℝ)) * L r 5 ∧
    Xsig_aug s L r 14 = x_aug s r - Real.sqrt (s.lambda_ + (n_aug_ : ℝ)) * L r 6 :=
  ⟨rfl, rfl, rfl, rfl, rfl, rfl, rfl, rfl, rfl, rfl, rfl, rfl, rfl, rfl, rfl⟩

theorem setWeights_eq (s : UKF) (h : s.lambda_ = -4) :
    setWeights s = ![-4/3, 1/6, 1/6, 1/6, 1/6, 1/6, 1/6, 1/6, 1/6, 1/6, 1/6, 1/6, 1/6, 1/6, 1/6] := by
  have h0 : s.lambda_ / (s.lambda_ + (n_aug_ : ℝ)) = -4/3 := by rw [h]; norm_num
  have h1 : 0.5 / ((n_aug_ : ℝ) + s.lambda_) = 1/6 := by rw [h]; norm_num
  funext i
  fin_cases i
  · exact h0
  all_goals exact h1

theorem sqrt_spread (s : UKF) (h : s.lambda_ = -4) :
    Real.sqrt (s.lambda_ + (n_aug_ : ℝ)) = Real.sqrt 3 := by
  rw [h]; norm_num

theorem predictSigmaPoint_val (delta_t : ℝ) (p : Fin 7 → ℝ) :
    predictSigmaPoint delta_t p 0 =
      (if |p 4| > 0.001 then p 0 + p 2 / p 4 * (Real.sin (p 3 + p 4 * delta_t) - Real.sin (p 3))
        else p 0 + p 2 * delta_t * Real.cos (p 3))
        + 0.5 * p 5 * delta_t * delta_t * Real.cos (p 3) ∧
    predictSigmaPoint delta_t p 1 =
      (if |p 4| > 0.001 then p 1 + p 2 / p 4 * (Real.cos (p 3) - Real.cos (p 3 + p 4 * delta_t))
        else p 1 + p 2 * delta_t * Real.sin (p 3))
        + 0.5 * p 5 * delta_t * delta_t * Real.sin (p 3) ∧
    predictSigmaPoint delta_t p 2 = p 2 + p 5 * delta_t ∧
    predictSigmaPoint delta_t p 3 = p 3 + p 4 * delta_t + 0.5 * p 6 * delta_t * delta_t ∧
    predictSigmaPoint delta_t p 4 = p 4 + p 6 * delta_t :=
  ⟨rfl, rfl, rfl, rfl, rfl⟩

theorem Prediction_Xsig_pred_apply (llt : CholeskyRoutine) (s : UKF) (delta_t : ℝ) (r : Fin 5)
    (i : Fin 15) :
    (UKF.Prediction llt s delta_t).Xsig_pred_ r i =
      predictSigmaPoint delta_t (fun k => Xsig_aug s (llt (P_aug s)) k i) r := rfl

theorem Prediction_x_apply (llt : CholeskyRoutine) (s : UKF) (dt : ℝ) (r : Fin 5) :
    (UKF.Prediction llt s dt).x_ r =
      ∑ i, s.weights_ i * (UKF.Prediction llt s dt).Xsig_pred_ r i := by
  simp only [UKF.Prediction, accumulate_eq_sum, Finset.sum_apply, Pi.smul_apply, smul_eq_mul]

theorem Prediction_P_apply (llt : CholeskyRoutine) (s : UKF) (dt : ℝ) (a b : Fin 5) :
    (UKF.Prediction llt s dt).P_ a b =
      ∑ i, s.weights_ i *
        (x_diff (UKF.Prediction llt s dt).Xsig_pred_ (UKF.Prediction llt s dt).x_ i a *
          x_diff (UKF.Prediction llt s dt).Xsig_pred_ (UKF.Prediction llt s dt).x_ i b) := by
  simp only [UKF.Prediction, accumulate_eq_sum, Matrix.sum_apply, Matrix.smul_apply,
    vecMulVec_apply, smul_eq_mul]

theorem x_diff_apply_ne (X : Matrix (Fin 5) (Fin 15) ℝ) (x : Fin 5 → ℝ) (i : Fin 15) (r : Fin 5)
    (h : r ≠ 3) : x_diff X x i r = X r i - x r := by
  simp [x_diff, Function.update_noteq h]

theorem x_diff_apply_yaw (X : Matrix (Fin 5) (Fin 15) ℝ) (x : Fin 5 → ℝ) (i : Fin 15) :
    x_diff X x i 3 = normalizeYaw (X 3 i - x 3) := by
  simp [x_diff]

/-! ## Prediction from a state at rest with a diagonal Cholesky factor -/

set_option maxHeartbeats 1600000 in
theorem Prediction_Xsig_pred_at_rest (llt : CholeskyRoutine) (s : UKF) (px py dt : ℝ)
    (ℓ : Fin 7 → ℝ) (hx : s.x_ = ![px, py, 0, 0, 0]) (hl : s.lambda_ = -4)
    (hL : llt (P_aug s) = Matrix.diagonal ℓ) :
    (UKF.Prediction llt s dt).Xsig_pred_ = sigmaTableAtRest px py dt ℓ := by
  have hc := sqrt_spread s hl
  have hz : ¬ ((0 : ℝ) > 0.001) := by norm_num
  ext r i
  fin_cases r <;> fin_cases i <;>
    simp only [sigmaTableAtRest, Prediction_Xsig_pred_apply, predictSigmaPoint_val, Xsig_aug_col,
      x_aug_val, hx, hc,
      hL, Matrix.diagonal_apply, Matrix.cons_val_zero,
      Matrix.cons_val_one, Matrix.cons_val_two, Matrix.cons_val_three, Matrix.cons_val_four,
      Matrix.head_cons, Matrix.tail_cons, Matrix.of_apply, vec15_val_five, vec15_val_six,
      vec15_val_seven, vec15_val_eight, vec15_val_nine, vec15_val_ten, vec15_val_eleven,
      vec15_val_twelve, vec15_val_thirteen, vec15_val_fourteen, Fin.isValue, Fin.reduceEq,
      if_true, if_false, ite_true, ite_false, Fin.zero_eta, Fin.mk_one, Fin.reduceFinMk,
      mul_zero, add_zero, zero_add, zero_mul, mul_one, zero_div, abs_zero, hz, Real.sin_zero,
      Real.cos_zero, sub_self, ite_self, sub_zero, zero_sub]
  all_goals (try ring_nf)

theorem Prediction_x_at_rest (llt : CholeskyRoutine) (s : UKF) (px py dt : ℝ)
    (ℓ : Fin 7 → ℝ) (hx : s.x_ = ![px, py, 0, 0, 0]) (hl : s.lambda_ = -4)
    (hL : llt (P_aug s) = Matrix.diagonal ℓ) (hw : s.weights_ = setWeights s) :
    (UKF.Prediction llt s dt).x_ = ![px, py, 0, 0, 0] := by
  funext r
  rw [Prediction_x_apply, Prediction_Xsig_pred_at_rest llt s px py dt ℓ hx hl hL, hw,
    setWeights_eq s hl, sum_univ_fifteen]
  fin_cases r <;>
    simp only [sigmaTableAtRest, Matrix.cons_val_zero,
      Matrix.cons_val_one, Matrix.cons_val_two, Matrix.cons_val_three, Matrix.cons_val_four,
      Matrix.head_cons, Matrix.tail_cons, Matrix.of_apply, vec15_val_five, vec15_val_six,
      vec15_val_seven, vec15_val_eight, vec15_val_nine, vec15_val_ten, vec15_val_eleven,
      vec15_val_twelve, vec15_val_thirteen, vec15_val_fourteen, Fin.isValue, Fin.zero_eta,
      Fin.mk_one, Fin.reduceFinMk] <;> ring

/-! ## Predicted covariance at rest and the lidar update -/

theorem Prediction_P_at_rest (llt : CholeskyRoutine) (s : UKF) (px py dt : ℝ)
    (ℓ : Fin 7 → ℝ) (hx : s.x_ = ![px, py, 0, 0, 0]) (hl : s.lambda_ = -4)
    (hL : llt (P_aug s) = Matrix.diagonal ℓ) (hw : s.weights_ = setWeights s) :
    (UKF.Prediction llt s dt).P_ 0 0 = ℓ 0 ^ 2 + ℓ 2 ^ 2 * dt ^ 2 + 0.25 * ℓ 5 ^ 2 * dt ^ 4 ∧
    (UKF.Prediction llt s dt).P_ 0 1 = 0 ∧
    (UKF.Prediction llt s dt).P_ 1 0 = 0 ∧
    (UKF.Prediction llt s dt).P_ 1 1 = ℓ 1 ^ 2 ∧
    (UKF.Prediction llt s dt).P_ 2 2 = ℓ 2 ^ 2 + ℓ 5 ^ 2 * dt ^ 2 := by
  have h3 : Real.sqrt 3 ^ 2 = 3 := Real.sq_sqrt (by norm_num)
  have hX := Prediction_Xsig_pred_at_rest llt s px py dt ℓ hx hl hL
  have hm := Prediction_x_at_rest llt s px py dt ℓ hx hl hL hw
  have e0 : (0 : Fin 5) ≠ 3 := by decide
  have e1 : (1 : Fin 5) ≠ 3 := by decide
  have e2 : (2 : Fin 5) ≠ 3 := by decide
  refine ⟨?_, ?_, ?_, ?_, ?_⟩ <;>
    simp only [Prediction_P_apply, x_diff_apply_ne _ _ _ _ e0, x_diff_apply_ne _ _ _ _ e1,
      x_diff_apply_ne _ _ _ _ e2, hX, hm, hw,
      setWeights_eq s hl, sum_univ_fifteen, sigmaTableAtRest, Matrix.cons_val_zero,
      Matrix.cons_val_one, Matrix.cons_val_two, Matrix.cons_val_three, Matrix.cons_val_four,
      Matrix.head_cons, Matrix.tail_cons, Matrix.of_apply, vec15_val_five, vec15_val_six,
      vec15_val_seven, vec15_val_eight, vec15_val_nine, vec15_val_ten, vec15_val_eleven,
      vec15_val_twelve, vec15_val_thirteen, vec15_val_fourteen, Fin.isValue, Fin.zero_eta,
      Fin.mk_one, Fin.reduceFinMk]
  · linear_combination ((ℓ 0 ^ 2 + ℓ 2 ^ 2 * dt ^ 2 + 0.25 * ℓ 5 ^ 2 * dt ^ 4) / 3) * h3
  · ring
  · ring
  · linear_combination (ℓ 1 ^ 2 / 3) * h3
  · linear_combination ((ℓ 2 ^ 2 + ℓ 5 ^ 2 * dt ^ 2) / 3) * h3


theorem lidarH_apply :
    lidarH 0 0 = 1 ∧ lidarH 0 1 = 0 ∧ lidarH 0 2 = 0 ∧ lidarH 0 3 = 0 ∧ lidarH 0 4 = 0 ∧
    lidarH 1 0 = 0 ∧ lidarH 1 1 = 1 ∧ lidarH 1 2 = 0 ∧ lidarH 1 3 = 0 ∧ lidarH 1 4 = 0 :=
  ⟨rfl, rfl, rfl, rfl, rfl, rfl, rfl, rfl, rfl, rfl⟩

theorem lidarR_apply (s : UKF) :
    lidarR s 0 0 = s.std_laspx_ * s.std_laspx_ ∧ lidarR s 0 1 = 0 ∧ lidarR s 1 0 = 0 ∧
      lidarR s 1 1 = s.std_laspy_ * s.std_laspy_ :=
  ⟨rfl, rfl, rfl, rfl⟩

theorem mul_lidarH_transpose (P : Matrix (Fin 5) (Fin 5) ℝ) (a : Fin 5) :
    (P * lidarHᵀ) a 0 = P a 0 ∧ (P * lidarHᵀ) a 1 = P a 1 := by
  constructor <;>
    simp [Matrix.mul_apply, lidarH_apply, Fin.sum_univ_five, Matrix.transpose_apply]

theorem lidarS_eq (s : UKF) :
    lidarS s = !![s.P_ 0 0 + s.std_laspx_ * s.std_laspx_, s.P_ 0 1;
                  s.P_ 1 0, s.P_ 1 1 + s.std_laspy_ * s.std_laspy_] := by
  ext i j
  fin_cases i <;> fin_cases j <;>
    simp [lidarS, lidarR_apply, Matrix.mul_apply, lidarH_apply, Fin.sum_univ_five,
      Matrix.transpose_apply]

theorem inv_diagonal_two (a b : ℝ) (ha : a ≠ 0) (hb : b ≠ 0) :
    (!![a, 0; 0, b] : Matrix (Fin 2) (Fin 2) ℝ)⁻¹ = !![a⁻¹, 0; 0, b⁻¹] := by
  apply Matrix.inv_eq_right_inv
  ext i j
  fin_cases i <;> fin_cases j <;> simp [Matrix.mul_apply, Fin.sum_univ_two, ha, hb]

/-- The lidar update of the first state component when the predicted
covariance does not couple `px` and `py`. -/
theorem UpdateLidar_x0_of_decoupled (s : UKF) (m : MeasurementPackage)
    (h01 : s.P_ 0 1 = 0) (h10 : s.P_ 1 0 = 0)
    (hS0 : s.P_ 0 0 + s.std_laspx_ * s.std_laspx_ ≠ 0)
    (hS1 : s.P_ 1 1 + s.std_laspy_ * s.std_laspy_ ≠ 0) :
    (UKF.UpdateLidar s m).x_ 0 =
      s.x_ 0 + s.P_ 0 0 / (s.P_ 0 0 + s.std_laspx_ * s.std_laspx_)
        * (m.raw_measurements_ 0 - s.x_ 0) := by
  have hSi : (lidarS s)⁻¹ = !![(s.P_ 0 0 + s.std_laspx_ * s.std_laspx_)⁻¹, 0;
                  0, (s.P_ 1 1 + s.std_laspy_ * s.std_laspy_)⁻¹] := by
    rw [lidarS_eq, h01, h10]
    exact inv_diagonal_two _ _ hS0 hS1
  have hK0 : lidarK s 0 0 = s.P_ 0 0 / (s.P_ 0 0 + s.std_laspx_ * s.std_laspx_) := by
    unfold lidarK
    rw [Matrix.mul_apply, Fin.sum_univ_two, (mul_lidarH_transpose s.P_ 0).1,
      (mul_lidarH_transpose s.P_ 0).2, hSi]
    simp [div_eq_mul_inv]
  have hK1 : lidarK s 0 1 = 0 := by
    unfold lidarK
    rw [Matrix.mul_apply, Fin.sum_univ_two, (mul_lidarH_transpose s.P_ 0).1,
      (mul_lidarH_transpose s.P_ 0).2, hSi, h01]
    simp
  simp only [UKF.UpdateLidar, Pi.add_apply, Matrix.mulVec, Matrix.dotProduct, Fin.sum_univ_two,
    hK0, hK1, Pi.sub_apply, lidarH_apply, Fin.sum_univ_five]
  simp

/-! ## The state seeded by a laser record -/

theorem P_aug_of_diagonal (s : UKF) (p : Fin 5 → ℝ) (h : s.P_ = Matrix.diagonal p) :
    P_aug s = Matrix.diagonal
      ![p 0, p 1, p 2, p 3, p 4, s.std_a_ * s.std_a_, s.std_yawdd_ * s.std_yawdd_] := by
  rw [P_aug_eq, h]
  ext i j
  fin_cases i <;> fin_cases j <;> rfl

theorem laserSeed_fields (llt : CholeskyRoutine) (x0 : Fin 5 → ℝ) (P0 : Matrix (Fin 5) (Fin 5) ℝ)
    (X0 : Matrix (Fin 5) (Fin 15) ℝ) (w0 : Fin 15 → ℝ) (t0 t : ℤ) (px py : ℝ) :
    UKF.ProcessMeasurement llt (UKF.ctor x0 P0 X0 w0 t0) (laserRecord t px py) =
      { UKF.ctor x0 P0 X0 w0 t0 with
        x_ := ![px, py, 0, 0, 0]
        P_ := Matrix.diagonal ![(0.15 : ℝ) ^ 2, (0.15 : ℝ) ^ 2, 5, 1, 1]
        previousTimestamp := t
        is_initialized_ := true } := by
  have h := laser_seed_covariance 0.15 0.15
  simp only [UKF.ProcessMeasurement, UKF.ctor, laserRecord]
  simp [h]

theorem P_aug_laserSeed (llt : CholeskyRoutine) (x0 : Fin 5 → ℝ) (P0 : Matrix (Fin 5) (Fin 5) ℝ)
    (X0 : Matrix (Fin 5) (Fin 15) ℝ) (w0 : Fin 15 → ℝ) (t0 t : ℤ) (px py : ℝ) :
    P_aug (UKF.ProcessMeasurement llt (UKF.ctor x0 P0 X0 w0 t0) (laserRecord t px py)) =
      Matrix.diagonal ![(0.15 : ℝ) ^ 2, (0.15 : ℝ) ^ 2, 5, 1, 1, 3.0 * 3.0, 1.0 * 1.0] := by
  rw [laserSeed_fields]
  exact P_aug_of_diagonal _ ![(0.15 : ℝ) ^ 2, (0.15 : ℝ) ^ 2, 5, 1, 1] rfl

theorem llt_laserSeed (llt : CholeskyRoutine) (x0 : Fin 5 → ℝ) (P0 : Matrix (Fin 5) (Fin 5) ℝ)
    (X0 : Matrix (Fin 5) (Fin 15) ℝ) (w0 : Fin 15 → ℝ) (t0 t : ℤ) (px py : ℝ)
    (hllt : IsCholeskyFactor
      (llt (P_aug (UKF.ProcessMeasurement llt (UKF.ctor x0 P0 X0 w0 t0) (laserRecord t px py))))
      (P_aug (UKF.ProcessMeasurement llt (UKF.ctor x0 P0 X0 w0 t0) (laserRecord t px py)))) :
    llt (P_aug (UKF.ProcessMeasurement llt (UKF.ctor x0 P0 X0 w0 t0) (laserRecord t px py))) =
      Matrix.diagonal ![0.15, 0.15, Real.sqrt 5, 1, 1, 3, 1] := by
  rw [P_aug_laserSeed] at hllt ⊢
  have hd : ∀ i, 0 < (![(0.15 : ℝ) ^ 2, (0.15 : ℝ) ^ 2, 5, 1, 1, 3.0 * 3.0, 1.0 * 1.0] : Fin 7 → ℝ) i := by
    intro i
    fin_cases i <;> simp [vec7_val_five, vec7_val_six] <;> norm_num
  rw [cholesky_diagonal _ _ hd hllt]
  have hv : (fun i => Real.sqrt
      ((![(0.15 : ℝ) ^ 2, (0.15 : ℝ) ^ 2, 5, 1, 1, 3.0 * 3.0, 1.0 * 1.0] : Fin 7 → ℝ) i)) =
      ![0.15, 0.15, Real.sqrt 5, 1, 1, 3, 1] := by
    funext i
    fin_cases i
    · show Real.sqrt ((0.15 : ℝ) ^ 2) = 0.15
      rw [Real.sqrt_sq (by norm_num)]
    · show Real.sqrt ((0.15 : ℝ) ^ 2) = 0.15
      rw [Real.sqrt_sq (by norm_num)]
    · rfl
    · show Real.sqrt 1 = 1
      exact Real.sqrt_one
    · show Real.sqrt 1 = 1
      exact Real.sqrt_one
    · show Real.sqrt (3.0 * 3.0) = 3
      rw [show (3.0 : ℝ) * 3.0 = 3 ^ 2 by norm_num, Real.sqrt_sq (by norm_num)]
    · show Real.sqrt (1.0 * 1.0) = 1
      rw [show (1.0 : ℝ) * 1.0 = 1 by norm_num, Real.sqrt_one]
  rw [hv]

/-! ## Dispatch after initialization and the concrete states -/

theorem cholDiag_isCholeskyFactor (d : Fin 7 → ℝ) (hd : ∀ i, 0 ≤ d i) :
    IsCholeskyFactor (cholDiag (Matrix.diagonal d)) (Matrix.diagonal d) := by
  refine ⟨?_, ?_, ?_⟩
  · intro i j hij
    exact Matrix.diagonal_apply_ne _ (ne_of_lt hij)
  · intro i
    simp only [cholDiag, Matrix.diagonal_apply_eq]
    exact Real.sqrt_nonneg _
  · simp only [cholDiag, Matrix.diagonal_transpose, Matrix.diagonal_mul_diagonal,
      Matrix.diagonal_apply_eq]
    exact congrArg Matrix.diagonal (funext fun i => Real.mul_self_sqrt (hd i))

theorem predictStep_eq (llt : CholeskyRoutine) (s : UKF) (m : MeasurementPackage) :
    UKF.predictStep llt s m =
      UKF.Prediction llt
        { s with weights_ := setWeights s, previousTimestamp := m.timestamp_ }
        (((m.timestamp_ - s.previousTimestamp : ℤ) : ℝ) / 1000000.0) := rfl

theorem ProcessMeasurement_disabled_initialized (llt : CholeskyRoutine) (s : UKF)
    (m : MeasurementPackage) (hi : s.is_initialized_ = true) (hd : sensorDisabled s m) :
    UKF.ProcessMeasurement llt s m = UKF.predictStep llt s m := by
  have hl : (UKF.predictStep llt s m).use_laser_ = s.use_laser_ := rfl
  have hr : (UKF.predictStep llt s m).use_radar_ = s.use_radar_ := rfl
  rcases hd with ⟨hm, hu⟩ | ⟨hm, hu⟩ <;>
    simp [UKF.ProcessMeasurement, hi, hm, hl, hr, hu]

theorem ProcessMeasurement_laser_initialized (llt : CholeskyRoutine) (s : UKF)
    (m : MeasurementPackage) (hi : s.is_initialized_ = true) (hl : s.use_laser_ = true)
    (hm : m.sensor_type_ = SensorType.LASER) :
    UKF.ProcessMeasurement llt s m = UKF.UpdateLidar (UKF.predictStep llt s m) m := by
  have h : (UKF.predictStep llt s m).use_laser_ = true := hl
  simp [UKF.ProcessMeasurement, hi, hm, h]

theorem radarOnlySeeded_fields :
    radarOnlySeeded =
      { UKF.ctor 0 0 0 0 0 with
        use_laser_ := false
        x_ := ![1, 0, 0, 0, 0]
        P_ := Matrix.diagonal ![1, 1, 1, 1, 1]
        previousTimestamp := 0
        is_initialized_ := true } := by
  have hP : (!![1, 0, 0, 0, 0;
        0, 1, 0, 0, 0;
        0, 0, 1, 0, 0;
        0, 0, 0, 1, 0;
        0, 0, 0, 0, 1] : Matrix (Fin 5) (Fin 5) ℝ) = Matrix.diagonal ![1, 1, 1, 1, 1] := by
    ext i j
    fin_cases i <;> fin_cases j <;> simp [Matrix.diagonal_apply, vecHead, vecTail]
  simp only [radarOnlySeeded, UKF.ProcessMeasurement, UKF.ctor, radarRecord]
  simp [hP]

/-! ## Non-negative weights keep the covariance positive semi-definite -/

theorem posSemidef_smul_outer {ι : Type} [Fintype ι] (w : ℝ) (hw : 0 ≤ w) (d : ι → ℝ) :
    (w • vecMulVec d d).PosSemidef := by
  refine ⟨?_, fun x => ?_⟩
  · ext a b
    simp [Matrix.conjTranspose_apply, vecMulVec_apply, mul_comm]
  · have h : star x ⬝ᵥ ((w • vecMulVec d d) *ᵥ x) = w * (d ⬝ᵥ x) ^ 2 := by
      simp only [Matrix.dotProduct, Matrix.mulVec, Matrix.smul_apply, vecMulVec_apply,
        smul_eq_mul, star_trivial, Finset.mul_sum, sq, Finset.sum_mul]
      rw [Finset.sum_comm]
      refine Finset.sum_congr rfl (fun a _ => Finset.sum_congr rfl (fun b _ => ?_))
      ring
    rw [h]
    exact mul_nonneg hw (sq_nonneg _)

theorem posSemidef_weighted_outer {ι : Type} [Fintype ι] (w : Fin 15 → ℝ) (hw : ∀ i, 0 ≤ w i)
    (d : Fin 15 → ι → ℝ) :
    (accumulate 15 (fun i => w i • vecMulVec (d i) (d i))).PosSemidef := by
  rw [accumulate_eq_sum]
  refine Finset.sum_induction _ Matrix.PosSemidef (fun _ _ ha hb => ha.add hb)
    Matrix.PosSemidef.zero (fun i _ => posSemidef_smul_outer (w i) (hw i) (d i))

theorem Prediction_P_eq (llt : CholeskyRoutine) (s : UKF) (dt : ℝ) :
    (UKF.Prediction llt s dt).P_ =
      accumulate 15 (fun i => (UKF.Prediction llt s dt).weights_ i •
        vecMulVec (x_diff (UKF.Prediction llt s dt).Xsig_pred_ (UKF.Prediction llt s dt).x_ i)
          (x_diff (UKF.Prediction llt s dt).Xsig_pred_ (UKF.Prediction llt s dt).x_ i)) := rfl

theorem radarR_posDef (s : UKF) (h1 : 0 < s.std_radr_) (h2 : 0 < s.std_radphi_)
    (h3 : 0 < s.std_radrd_) : (radarR s).PosDef := by
  have h : radarR s = Matrix.diagonal
      ![s.std_radr_ * s.std_radr_, s.std_radphi_ * s.std_radphi_, s.std_radrd_ * s.std_radrd_] := by
    ext i j
    fin_cases i <;> fin_cases j <;> simp [radarR, Matrix.diagonal_apply, vecHead, vecTail]
  rw [h, Matrix.posDef_diagonal_iff]
  intro i
  fin_cases i
  · exact mul_pos h1 h1
  · exact mul_pos h2 h2
  · exact mul_pos h3 h3

/-- The joint covariance of state and radar measurement deviations, in blocks. -/
theorem radar_joint_eq (s : UKF)
    (hP : s.P_ = accumulate 15 (fun i => s.weights_ i •
      vecMulVec (x_diff s.Xsig_pred_ s.x_ i) (x_diff s.Xsig_pred_ s.x_ i))) :
    Matrix.fromBlocks s.P_ (radarTc s) (radarTc s)ᴴ (radarS s) =
      accumulate 15 (fun i => s.weights_ i •
        vecMulVec (Sum.elim (x_diff s.Xsig_pred_ s.x_ i) (z_diff s i))
          (Sum.elim (x_diff s.Xsig_pred_ s.x_ i) (z_diff s i)))
        + Matrix.fromBlocks 0 0 0 (radarR s) := by
  rw [hP]
  simp only [radarTc, radarS, accumulate_eq_sum]
  ext a b
  rcases a with a | a <;> rcases b with b | b <;>
    simp [Matrix.sum_apply, Matrix.add_apply, vecMulVec_apply, Matrix.conjTranspose_apply,
      mul_comm]

theorem UpdateRadar_P_posSemidef_of_nonneg (s : UKF) (m : MeasurementPackage)
    (hw : ∀ i, 0 ≤ s.weights_ i)
    (hP : s.P_ = accumulate 15 (fun i => s.weights_ i •
      vecMulVec (x_diff s.Xsig_pred_ s.x_ i) (x_diff s.Xsig_pred_ s.x_ i)))
    (h1 : 0 < s.std_radr_) (h2 : 0 < s.std_radphi_) (h3 : 0 < s.std_radrd_) :
    (UKF.UpdateRadar s m).P_.PosSemidef := by
  have hR := radarR_posDef s h1 h2 h3
  have hS : (radarS s).PosDef := by
    unfold radarS
    exact Matrix.PosDef.posSemidef_add (posSemidef_weighted_outer _ hw _) hR
  have hU : IsUnit (radarS s).det := (Matrix.isUnit_iff_isUnit_det _).mp hS.isUnit
  haveI : Invertible (radarS s) := Matrix.invertibleOfIsUnitDet _ hU
  have hJ : (Matrix.fromBlocks s.P_ (radarTc s) (radarTc s)ᴴ (radarS s)).PosSemidef := by
    rw [radar_joint_eq s hP]
    refine (posSemidef_weighted_outer _ hw _).add ?_
    haveI : Invertible (radarR s) :=
      Matrix.invertibleOfIsUnitDet _ ((Matrix.isUnit_iff_isUnit_det _).mp hR.isUnit)
    have h0 := (Matrix.PosSemidef.fromBlocks₂₂ (0 : Matrix (Fin 5) (Fin 5) ℝ)
      (0 : Matrix (Fin 5) (Fin 3) ℝ) hR).mpr
      (by simpa using (Matrix.PosSemidef.zero : (0 : Matrix (Fin 5) (Fin 5) ℝ).PosSemidef))
    simpa using h0
  have hschur := (Matrix.PosSemidef.fromBlocks₂₂ s.P_ (radarTc s) hS).mp hJ
  have hsym : (radarS s)⁻¹ᵀ = (radarS s)⁻¹ := by
    rw [Matrix.transpose_nonsing_inv, (radarS_isSymm s).eq]
  have hK : radarK s * radarS s * (radarK s)ᵀ = radarTc s * (radarS s)⁻¹ * (radarTc s)ᴴ := by
    unfold radarK
    rw [Matrix.nonsing_inv_mul_cancel_right _ _ hU, Matrix.transpose_mul, hsym,
      Matrix.conjTranspose_eq_transpose_of_trivial, Matrix.mul_assoc]
  simp only [UKF.UpdateRadar]
  rw [hK]
  exact hschur

/-! ## A prediction whose covariance is not positive semi-definite -/

set_option maxHeartbeats 1600000 in
theorem Prediction_rows_cex (llt : CholeskyRoutine) (s : UKF) (v0 : ℝ)
    (hx : s.x_ = ![0, 0, v0, 0, 0]) (hl : s.lambda_ = -4) (hL : llt (P_aug s) = cexL) :
    (∀ i, (UKF.Prediction llt s 1).Xsig_pred_ 0 i = cexRow0 v0 i) ∧
      ∀ i, (UKF.Prediction llt s 1).Xsig_pred_ 1 i = cexRow1 i := by
  have hc := sqrt_spread s hl
  have hz : ¬ ((0 : ℝ) > 0.001) := by norm_num
  have he : ¬ (|(1 / 2000 : ℝ)| > 0.001) := by
    rw [abs_of_pos (by norm_num)]; norm_num
  have h3 : Real.sqrt 3 ≠ 0 := by
    have : (0 : ℝ) < Real.sqrt 3 := Real.sqrt_pos.mpr (by norm_num)
    exact ne_of_gt this
  have hk : ∀ x : ℝ, Real.sqrt 3 * (x / Real.sqrt 3) = x := fun x => by field_simp
  constructor <;> intro i <;> fin_cases i <;>
    simp only [cexRow0, cexRow1, cexL, Prediction_Xsig_pred_apply, predictSigmaPoint_val,
      Xsig_aug_col, x_aug_val, hx, hc, hL, hk, Matrix.cons_val_zero,
      Matrix.cons_val_one, Matrix.cons_val_two, Matrix.cons_val_three, Matrix.cons_val_four,
      Matrix.head_cons, Matrix.tail_cons, Matrix.of_apply, vec7_val_five, vec7_val_six,
      vec15_val_five, vec15_val_six,
      vec15_val_seven, vec15_val_eight, vec15_val_nine, vec15_val_ten, vec15_val_eleven,
      vec15_val_twelve, vec15_val_thirteen, vec15_val_fourteen, Fin.isValue,
      if_false, ite_false, Fin.zero_eta, Fin.mk_one, Fin.reduceFinMk,
      mul_zero, add_zero, zero_add, zero_mul, mul_one, zero_div, abs_zero, abs_neg, hz, he,
      Real.sin_zero, Real.cos_zero, Real.sin_pi, Real.cos_pi, Real.sin_neg, Real.cos_neg,
      sub_self, sub_zero, zero_sub, neg_zero]
  all_goals (try ring_nf)

theorem Prediction_mean_cex (llt : CholeskyRoutine) (s : UKF) (v0 : ℝ)
    (hx : s.x_ = ![0, 0, v0, 0, 0]) (hl : s.lambda_ = -4) (hL : llt (P_aug s) = cexL)
    (hw : s.weights_ = setWeights s) :
    (UKF.Prediction llt s 1).x_ 0 = -(5 / 3) * v0 ∧ (UKF.Prediction llt s 1).x_ 1 = 0 := by
  obtain ⟨h0, h1⟩ := Prediction_rows_cex llt s v0 hx hl hL
  constructor
  · simp only [Prediction_x_apply, h0, hw, setWeights_eq s hl, sum_univ_fifteen, cexRow0,
      Matrix.cons_val_zero,
      Matrix.cons_val_one, Matrix.cons_val_two, Matrix.cons_val_three, Matrix.cons_val_four,
      Matrix.head_cons, Matrix.tail_cons, vec15_val_five, vec15_val_six,
      vec15_val_seven, vec15_val_eight, vec15_val_nine, vec15_val_ten, vec15_val_eleven,
      vec15_val_twelve, vec15_val_thirteen, vec15_val_fourteen]
    ring
  · simp only [Prediction_x_apply, h1, hw, setWeights_eq s hl, sum_univ_fifteen, cexRow1,
      Matrix.cons_val_zero,
      Matrix.cons_val_one, Matrix.cons_val_two, Matrix.cons_val_three, Matrix.cons_val_four,
      Matrix.head_cons, Matrix.tail_cons, vec15_val_five, vec15_val_six,
      vec15_val_seven, vec15_val_eight, vec15_val_nine, vec15_val_ten, vec15_val_eleven,
      vec15_val_twelve, vec15_val_thirteen, vec15_val_fourteen]
    ring

theorem Prediction_P_cex (llt : CholeskyRoutine) (s : UKF) (v0 : ℝ)
    (hx : s.x_ = ![0, 0, v0, 0, 0]) (hl : s.lambda_ = -4) (hL : llt (P_aug s) = cexL)
    (hw : s.weights_ = setWeights s) :
    (UKF.Prediction llt s 1).P_ 0 0 = -(16 / 9) * v0 ^ 2 + 1 / 6 + 9 / 4 ∧
    (UKF.Prediction llt s 1).P_ 0 1 = 0 ∧
    (UKF.Prediction llt s 1).P_ 1 0 = 0 ∧
    (UKF.Prediction llt s 1).P_ 1 1 = 1 / 12 := by
  have h3 : Real.sqrt 3 ^ 2 = 3 := Real.sq_sqrt (by norm_num)
  obtain ⟨h0, h1⟩ := Prediction_rows_cex llt s v0 hx hl hL
  obtain ⟨m0, m1⟩ := Prediction_mean_cex llt s v0 hx hl hL hw
  have e0 : (0 : Fin 5) ≠ 3 := by decide
  have e1 : (1 : Fin 5) ≠ 3 := by decide
  refine ⟨?_, ?_, ?_, ?_⟩ <;>
    simp only [Prediction_P_apply, x_diff_apply_ne _ _ _ _ e0, x_diff_apply_ne _ _ _ _ e1,
      h0, h1, m0, m1, hw, setWeights_eq s hl, sum_univ_fifteen, cexRow0, cexRow1,
      Matrix.cons_val_zero,
      Matrix.cons_val_one, Matrix.cons_val_two, Matrix.cons_val_three, Matrix.cons_val_four,
      Matrix.head_cons, Matrix.tail_cons, vec15_val_five, vec15_val_six,
      vec15_val_seven, vec15_val_eight, vec15_val_nine, vec15_val_ten, vec15_val_eleven,
      vec15_val_twelve, vec15_val_thirteen, vec15_val_fourteen]
  · linear_combination (3 / 4 : ℝ) * h3
  · ring
  · ring
  · ring

/-- The lidar update of the `px` variance when the predicted covariance does
not couple `px` and `py`. -/
theorem UpdateLidar_P00_of_decoupled (s : UKF) (m : MeasurementPackage)
    (h01 : s.P_ 0 1 = 0) (h10 : s.P_ 1 0 = 0)
    (hS0 : s.P_ 0 0 + s.std_laspx_ * s.std_laspx_ ≠ 0)
    (hS1 : s.P_ 1 1 + s.std_laspy_ * s.std_laspy_ ≠ 0) :
    (UKF.UpdateLidar s m).P_ 0 0 =
      s.P_ 0 0 - s.P_ 0 0 / (s.P_ 0 0 + s.std_laspx_ * s.std_laspx_) * s.P_ 0 0 := by
  have hSi : (lidarS s)⁻¹ = !![(s.P_ 0 0 + s.std_laspx_ * s.std_laspx_)⁻¹, 0;
                  0, (s.P_ 1 1 + s.std_laspy_ * s.std_laspy_)⁻¹] := by
    rw [lidarS_eq, h01, h10]
    exact inv_diagonal_two _ _ hS0 hS1
  have hK0 : lidarK s 0 0 = s.P_ 0 0 / (s.P_ 0 0 + s.std_laspx_ * s.std_laspx_) := by
    unfold lidarK
    rw [Matrix.mul_apply, Fin.sum_univ_two, (mul_lidarH_transpose s.P_ 0).1,
      (mul_lidarH_transpose s.P_ 0).2, hSi]
    simp [div_eq_mul_inv]
  have hK1 : lidarK s 0 1 = 0 := by
    unfold lidarK
    rw [Matrix.mul_apply, Fin.sum_univ_two, (mul_lidarH_transpose s.P_ 0).1,
      (mul_lidarH_transpose s.P_ 0).2, hSi, h01]
    simp
  simp only [UKF.UpdateLidar, Matrix.mul_apply, Matrix.sub_apply, Fin.sum_univ_five,
    Fin.sum_univ_two, Matrix.one_apply, hK0, hK1, lidarH_apply, h10]
  simp
  ring

theorem cexL_mul_transpose : cexL * cexLᵀ = P_aug cexState := by
  have hs : Real.sqrt 3 * Real.sqrt 3 = 3 := Real.mul_self_sqrt (by norm_num)
  have ha : (1 / 2 / Real.sqrt 3) * (1 / 2 / Real.sqrt 3) = 1 / 12 := by
    rw [div_mul_div_comm, hs]; norm_num
  have hb : (1 / 2 / Real.sqrt 3) * (Real.pi / Real.sqrt 3) = Real.pi / 6 := by
    rw [div_mul_div_comm, hs]; ring
  have hb2 : (Real.pi / Real.sqrt 3) * (1 / 2 / Real.sqrt 3) = Real.pi / 6 := by
    rw [mul_comm]; exact hb
  have hc : (Real.pi / Real.sqrt 3) * (Real.pi / Real.sqrt 3) = Real.pi ^ 2 / 3 := by
    rw [div_mul_div_comm, hs]; ring
  have hd : (1 / 2000 / Real.sqrt 3) * (1 / 2000 / Real.sqrt 3) = 1 / 12000000 := by
    rw [div_mul_div_comm, hs]; norm_num
  rw [P_aug_eq]
  ext i j
  fin_cases i <;> fin_cases j <;>
    simp only [Matrix.mul_apply, Fin.sum_univ_seven, Matrix.transpose_apply, cexL, cexState,
      cexP, UKF.ctor, Matrix.cons_val_zero,
      Matrix.cons_val_one, Matrix.cons_val_two, Matrix.cons_val_three, Matrix.cons_val_four,
      Matrix.head_cons, Matrix.tail_cons, Matrix.of_apply, vec7_val_five, vec7_val_six,
      Fin.isValue, Fin.zero_eta, Fin.mk_one, Fin.reduceFinMk, mul_zero, zero_mul, add_zero,
      zero_add, ha, hb, hb2, hc, hd]
  all_goals (try norm_num)
  all_goals (try ring)

theorem setWeights_nonneg (s : UKF) (h : 0 ≤ s.lambda_) (i : Fin 15) : 0 ≤ setWeights s i := by
  have h7 : (0 : ℝ) < s.lambda_ + (n_aug_ : ℝ) := by
    have : ((n_aug_ : ℕ) : ℝ) = 7 := by norm_num
    rw [this]; linarith
  unfold setWeights
  split
  · exact div_nonneg h h7.le
  · exact div_nonneg (by norm_num) (by linarith)

theorem cexState_P_posSemidef : cexState.P_.PosSemidef := by
  have h : cexState.P_ = (cexL * cexLᵀ).submatrix (Fin.castLE (by norm_num : 5 ≤ 7))
      (Fin.castLE (by norm_num : 5 ≤ 7)) := by
    rw [cexL_mul_transpose]
    ext i j
    fin_cases i <;> fin_cases j <;> rfl
  rw [h]
  have := Matrix.posSemidef_self_mul_conjTranspose cexL
  rw [Matrix.conjTranspose_eq_transpose_of_trivial] at this
  exact this.submatrix _

theorem cexL_isCholeskyFactor : IsCholeskyFactor cexL (P_aug cexState) := by
  refine ⟨?_, ?_, cexL_mul_transpose⟩
  · intro i j hij
    fin_cases i <;> fin_cases j <;> first | rfl | exact absurd hij (by decide)
  · intro i
    have h3 : (0 : ℝ) < Real.sqrt 3 := Real.sqrt_pos.mpr (by norm_num)
    have hp := Real.pi_pos
    fin_cases i
    · show (0 : ℝ) ≤ 1 / 2 / Real.sqrt 3
      positivity
    · show (0 : ℝ) ≤ 1 / 2 / Real.sqrt 3
      positivity
    · show (0 : ℝ) ≤ 1 / 2 / Real.sqrt 3
      positivity
    · show (0 : ℝ) ≤ Real.pi / Real.sqrt 3
      positivity
    · show (0 : ℝ) ≤ 1 / 2000 / Real.sqrt 3
      positivity
    · show (0 : ℝ) ≤ 3
      norm_num
    · show (0 : ℝ) ≤ 1
      norm_num

theorem not_posSemidef_of_neg_diag {n : ℕ} (M : Matrix (Fin n) (Fin n) ℝ) (i : Fin n)
    (h : M i i < 0) : ¬ M.PosSemidef := by
  intro hM
  have := hM.2 (Pi.single i 1)
  simp at this
  linarith

theorem exists_neg_eigenvalue_of_neg_diag {n : ℕ} (M : Matrix (Fin n) (Fin n) ℝ)
    (hM : M.IsHermitian) (i : Fin n) (h : M i i < 0) : ∃ j, hM.eigenvalues j < 0 := by
  by_contra hne
  push_neg at hne
  have hpsd : M.PosSemidef := hM.posSemidef_of_eigenvalues_nonneg hne
  have := hpsd.2 (Pi.single i 1)
  simp at this
  linarith

/-! ## The radar update right after a laser seed -/

theorem z_pred_apply (s : UKF) (r : Fin 3) :
    z_pred s r = ∑ i, s.weights_ i * Zsig s r i := by
  simp only [z_pred, accumulate_eq_sum, Finset.sum_apply, Pi.smul_apply, smul_eq_mul]

theorem z_diff_apply_ne (s : UKF) (i : Fin 15) (r : Fin 3) (h : r ≠ 1) :
    z_diff s i r = Zsig s r i - z_pred s r := by
  simp [z_diff, Function.update_noteq h]

theorem z_diff_apply_bearing (s : UKF) (i : Fin 15) :
    z_diff s i 1 = normalizeBearing (Zsig s 1 i - z_pred s 1) := by
  simp [z_diff]

theorem radarR_apply (s : UKF) :
    radarR s 0 0 = s.std_radr_ * s.std_radr_ ∧ radarR s 0 1 = 0 ∧ radarR s 0 2 = 0 ∧
    radarR s 1 0 = 0 ∧ radarR s 1 1 = s.std_radphi_ * s.std_radphi_ ∧ radarR s 1 2 = 0 ∧
    radarR s 2 0 = 0 ∧ radarR s 2 1 = 0 ∧ radarR s 2 2 = s.std_radrd_ * s.std_radrd_ :=
  ⟨rfl, rfl, rfl, rfl, rfl, rfl, rfl, rfl, rfl⟩

theorem radarS_apply (s : UKF) (a b : Fin 3) :
    radarS s a b = ∑ i, s.weights_ i * (z_diff s i a * z_diff s i b) + radarR s a b := by
  simp only [radarS, accumulate_eq_sum, Matrix.add_apply, Matrix.sum_apply, Matrix.smul_apply,
    vecMulVec_apply, smul_eq_mul]

theorem radarTc_apply (s : UKF) (a : Fin 5) (b : Fin 3) :
    radarTc s a b = ∑ i, s.weights_ i * (x_diff s.Xsig_pred_ s.x_ i a * z_diff s i b) := by
  simp only [radarTc, accumulate_eq_sum, Matrix.sum_apply, Matrix.smul_apply,
    vecMulVec_apply, smul_eq_mul]

theorem Zsig_val (s : UKF) (i : Fin 15) :
    Zsig s 0 i = Real.sqrt (s.Xsig_pred_ 0 i * s.Xsig_pred_ 0 i
      + s.Xsig_pred_ 1 i * s.Xsig_pred_ 1 i) ∧
    Zsig s 1 i = Complex.arg ⟨s.Xsig_pred_ 0 i, s.Xsig_pred_ 1 i⟩ ∧
    Zsig s 2 i = (s.Xsig_pred_ 0 i * (s.Xsig_pred_ 2 i * Real.cos (s.Xsig_pred_ 3 i))
      + s.Xsig_pred_ 1 i * (s.Xsig_pred_ 2 i * Real.sin (s.Xsig_pred_ 3 i)))
      / Real.sqrt (s.Xsig_pred_ 0 i * s.Xsig_pred_ 0 i + s.Xsig_pred_ 1 i * s.Xsig_pred_ 1 i) :=
  ⟨rfl, rfl, rfl⟩

theorem inv_diagonal_three (a b c : ℝ) (ha : a ≠ 0) (hb : b ≠ 0) (hc : c ≠ 0) :
    (!![a, 0, 0; 0, b, 0; 0, 0, c] : Matrix (Fin 3) (Fin 3) ℝ)⁻¹
      = !![a⁻¹, 0, 0; 0, b⁻¹, 0; 0, 0, c⁻¹] := by
  apply Matrix.inv_eq_right_inv
  ext i j
  fin_cases i <;> fin_cases j <;>
    simp [Matrix.mul_apply, Fin.sum_univ_three, ha, hb, hc, vecHead, vecTail]

/-- The state predicted at elapsed time 0 from the laser seed `(1, 0)`. -/
theorem radar_scenario_rows (s : UKF)
    (hX : s.Xsig_pred_ = sigmaTableAtRest 1 0 0 ![0.15, 0.15, Real.sqrt 5, 1, 1, 3, 1]) :
    (fun i => s.Xsig_pred_ 0 i) =
        ![1, 1 + Real.sqrt 3 * 0.15, 1, 1, 1, 1, 1, 1, 1 - Real.sqrt 3 * 0.15, 1, 1, 1, 1, 1, 1] ∧
      (fun i => s.Xsig_pred_ 1 i) =
        ![0, 0, Real.sqrt 3 * 0.15, 0, 0, 0, 0, 0, 0, -(Real.sqrt 3 * 0.15), 0, 0, 0, 0, 0] ∧
      (fun i => s.Xsig_pred_ 2 i) =
        ![0, 0, 0, Real.sqrt 3 * Real.sqrt 5, 0, 0, 0, 0, 0, 0, -(Real.sqrt 3 * Real.sqrt 5),
          0, 0, 0, 0] ∧
      (fun i => s.Xsig_pred_ 3 i) =
        ![0, 0, 0, 0, Real.sqrt 3, 0, 0, 0, 0, 0, 0, -Real.sqrt 3, 0, 0, 0] := by
  rw [hX]
  refine ⟨?_, ?_, ?_, ?_⟩ <;> funext i <;> fin_cases i <;>
    simp only [sigmaTableAtRest, Matrix.cons_val_zero,
      Matrix.cons_val_one, Matrix.cons_val_two, Matrix.cons_val_three, Matrix.cons_val_four,
      Matrix.head_cons, Matrix.tail_cons, Matrix.of_apply, vec7_val_five, vec7_val_six,
      vec15_val_five, vec15_val_six,
      vec15_val_seven, vec15_val_eight, vec15_val_nine, vec15_val_ten, vec15_val_eleven,
      vec15_val_twelve, vec15_val_thirteen, vec15_val_fourteen, Fin.isValue, Fin.zero_eta,
      Fin.mk_one, Fin.reduceFinMk, mul_zero, add_zero, zero_add, sub_zero, zero_sub, mul_one,
      neg_zero]

theorem radar_scenario_Zsig (s : UKF)
    (hX : s.Xsig_pred_ = sigmaTableAtRest 1 0 0 ![0.15, 0.15, Real.sqrt 5, 1, 1, 3, 1]) :
    (fun i => Zsig s 0 i) =
        ![1, 1 + Real.sqrt 3 * 0.15, Real.sqrt (1 + (Real.sqrt 3 * 0.15) ^ 2), 1, 1, 1, 1, 1,
          1 - Real.sqrt 3 * 0.15, Real.sqrt (1 + (Real.sqrt 3 * 0.15) ^ 2), 1, 1, 1, 1, 1] ∧
      (fun i => Zsig s 1 i) =
        ![0, 0, Complex.arg ⟨1, Real.sqrt 3 * 0.15⟩, 0, 0, 0, 0, 0,
          0, -Complex.arg ⟨1, Real.sqrt 3 * 0.15⟩, 0, 0, 0, 0, 0] ∧
      (fun i => Zsig s 2 i) =
        ![0, 0, 0, Real.sqrt 3 * Real.sqrt 5, 0, 0, 0, 0, 0, 0, -(Real.sqrt 3 * Real.sqrt 5),
          0, 0, 0, 0] := by
  obtain ⟨r0, r1, r2, r3⟩ := radar_scenario_rows s hX
  have e0 : ∀ i, s.Xsig_pred_ 0 i = _ := fun i => congrFun r0 i
  have e1 : ∀ i, s.Xsig_pred_ 1 i = _ := fun i => congrFun r1 i
  have e2 : ∀ i, s.Xsig_pred_ 2 i = _ := fun i => congrFun r2 i
  have e3 : ∀ i, s.Xsig_pred_ 3 i = _ := fun i => congrFun r3 i
  have ha0 : (0 : ℝ) ≤ Real.sqrt 3 * 0.15 := by positivity
  have ha1 : Real.sqrt 3 * 0.15 ≤ 1 := by
    have : Real.sqrt 3 ≤ 2 := by
      rw [show (2 : ℝ) = Real.sqrt 4 by
        rw [show (4 : ℝ) = 2 ^ 2 by norm_num, Real.sqrt_sq (by norm_num)]]
      exact Real.sqrt_le_sqrt (by norm_num)
    nlinarith
  have hq1 : Real.sqrt (1 * 1 + 0 * 0) = 1 := by norm_num
  have hqa : Real.sqrt ((1 + Real.sqrt 3 * 0.15) * (1 + Real.sqrt 3 * 0.15))
      = 1 + Real.sqrt 3 * 0.15 := by
    rw [Real.sqrt_mul_self (by linarith)]
  have hqb : Real.sqrt ((1 - Real.sqrt 3 * 0.15) * (1 - Real.sqrt 3 * 0.15))
      = 1 - Real.sqrt 3 * 0.15 := by
    rw [Real.sqrt_mul_self (by linarith)]
  have hqc : Real.sqrt (1 + Real.sqrt 3 * 0.15 * (Real.sqrt 3 * 0.15))
      = Real.sqrt (1 + (Real.sqrt 3 * 0.15) ^ 2) := by
    congr 1; ring
  have hqd : Real.sqrt (1 + -(-(Real.sqrt 3 * 0.15) * (Real.sqrt 3 * 0.15)))
      = Real.sqrt (1 + (Real.sqrt 3 * 0.15) ^ 2) := by
    congr 1; ring
  have hg1 : Complex.arg ⟨1, 0⟩ = 0 := by
    rw [Complex.arg_eq_zero_iff]; exact ⟨by norm_num, rfl⟩
  have hga : Complex.arg ⟨1 + Real.sqrt 3 * 0.15, 0⟩ = 0 := by
    rw [Complex.arg_eq_zero_iff]; exact ⟨by show (0 : ℝ) ≤ 1 + Real.sqrt 3 * 0.15; linarith, rfl⟩
  have hgb : Complex.arg ⟨1 - Real.sqrt 3 * 0.15, 0⟩ = 0 := by
    rw [Complex.arg_eq_zero_iff]; exact ⟨by show (0 : ℝ) ≤ 1 - Real.sqrt 3 * 0.15; linarith, rfl⟩
  have hgn : Complex.arg ⟨1, -(Real.sqrt 3 * 0.15)⟩ = -Complex.arg ⟨1, Real.sqrt 3 * 0.15⟩ := by
    have hne : Complex.arg ⟨1, Real.sqrt 3 * 0.15⟩ ≠ Real.pi := by
      intro h
      have := (Complex.arg_eq_pi_iff.mp h).1
      norm_num at this
    have := Complex.arg_conj ⟨1, Real.sqrt 3 * 0.15⟩
    rw [if_neg hne] at this
    exact this
  refine ⟨?_, ?_, ?_⟩ <;> funext i <;> fin_cases i <;>
    simp only [Zsig_val, e0, e1, e2, e3, Matrix.cons_val_zero,
      Matrix.cons_val_one, Matrix.cons_val_two, Matrix.cons_val_three, Matrix.cons_val_four,
      Matrix.head_cons, Matrix.tail_cons, vec15_val_five, vec15_val_six,
      vec15_val_seven, vec15_val_eight, vec15_val_nine, vec15_val_ten, vec15_val_eleven,
      vec15_val_twelve, vec15_val_thirteen, vec15_val_fourteen, Fin.isValue, Fin.zero_eta,
      Fin.mk_one, Fin.reduceFinMk, hq1, hqa, hqb, hqc, hqd, hg1, hga, hgb, hgn, Real.sqrt_one,
      mul_zero, zero_mul, add_zero, zero_add, zero_div, Real.cos_zero, Real.sin_zero, mul_one,
      one_mul, div_one, mul_neg, neg_zero]

theorem radar_scenario_z_pred (s : UKF)
    (hX : s.Xsig_pred_ = sigmaTableAtRest 1 0 0 ![0.15, 0.15, Real.sqrt 5, 1, 1, 3, 1])
    (hw : s.weights_ =
      ![-4/3, 1/6, 1/6, 1/6, 1/6, 1/6, 1/6, 1/6, 1/6, 1/6, 1/6, 1/6, 1/6, 1/6, 1/6]) :
    z_pred s 0 = 2 / 3 + Real.sqrt (1 + (Real.sqrt 3 * 0.15) ^ 2) / 3 ∧
      z_pred s 1 = 0 ∧ z_pred s 2 = 0 := by
  obtain ⟨z0, z1, z2⟩ := radar_scenario_Zsig s hX
  have e0 : ∀ i, Zsig s 0 i = _ := fun i => congrFun z0 i
  have e1 : ∀ i, Zsig s 1 i = _ := fun i => congrFun z1 i
  have e2 : ∀ i, Zsig s 2 i = _ := fun i => congrFun z2 i
  refine ⟨?_, ?_, ?_⟩ <;>
    simp only [z_pred_apply, e0, e1, e2, hw, sum_univ_fifteen, Matrix.cons_val_zero,
      Matrix.cons_val_one, Matrix.cons_val_two, Matrix.cons_val_three, Matrix.cons_val_four,
      Matrix.head_cons, Matrix.tail_cons, vec15_val_five, vec15_val_six,
      vec15_val_seven, vec15_val_eight, vec15_val_nine, vec15_val_ten, vec15_val_eleven,
      vec15_val_twelve, vec15_val_thirteen, vec15_val_fourteen] <;> ring

theorem radar_scenario_arg_mem :
    0 < Complex.arg ⟨1, Real.sqrt 3 * 0.15⟩ ∧ Complex.arg ⟨1, Real.sqrt 3 * 0.15⟩ < Real.pi := by
  have h3 : (0 : ℝ) < Real.sqrt 3 := Real.sqrt_pos.mpr (by norm_num)
  have him : (0 : ℝ) < Real.sqrt 3 * 0.15 := by positivity
  constructor
  · have h0 : 0 ≤ Complex.arg ⟨1, Real.sqrt 3 * 0.15⟩ := Complex.arg_nonneg_iff.mpr him.le
    have hne : Complex.arg ⟨1, Real.sqrt 3 * 0.15⟩ ≠ 0 := by
      intro h
      have := (Complex.arg_eq_zero_iff.mp h).2
      exact absurd this (ne_of_gt him)
    exact lt_of_le_of_ne h0 (Ne.symm hne)
  · exact Complex.arg_lt_pi_iff.mpr (Or.inl (by norm_num))

theorem radar_scenario_z_diff (s : UKF)
    (hX : s.Xsig_pred_ = sigmaTableAtRest 1 0 0 ![0.15, 0.15, Real.sqrt 5, 1, 1, 3, 1])
    (hw : s.weights_ =
      ![-4/3, 1/6, 1/6, 1/6, 1/6, 1/6, 1/6, 1/6, 1/6, 1/6, 1/6, 1/6, 1/6, 1/6, 1/6]) :
    (fun i => z_diff s i 0) =
        ![1 - (2 / 3 + Real.sqrt (1 + (Real.sqrt 3 * 0.15) ^ 2) / 3),
          1 + Real.sqrt 3 * 0.15 - (2 / 3 + Real.sqrt (1 + (Real.sqrt 3 * 0.15) ^ 2) / 3),
          Real.sqrt (1 + (Real.sqrt 3 * 0.15) ^ 2)
            - (2 / 3 + Real.sqrt (1 + (Real.sqrt 3 * 0.15) ^ 2) / 3),
          1 - (2 / 3 + Real.sqrt (1 + (Real.sqrt 3 * 0.15) ^ 2) / 3),
          1 - (2 / 3 + Real.sqrt (1 + (Real.sqrt 3 * 0.15) ^ 2) / 3),
          1 - (2 / 3 + Real.sqrt (1 + (Real.sqrt 3 * 0.15) ^ 2) / 3),
          1 - (2 / 3 + Real.sqrt (1 + (Real.sqrt 3 * 0.15) ^ 2) / 3),
          1 - (2 / 3 + Real.sqrt (1 + (Real.sqrt 3 * 0.15) ^ 2) / 3),
          1 - Real.sqrt 3 * 0.15 - (2 / 3 + Real.sqrt (1 + (Real.sqrt 3 * 0.15) ^ 2) / 3),
          Real.sqrt (1 + (Real.sqrt 3 * 0.15) ^ 2)
            - (2 / 3 + Real.sqrt (1 + (Real.sqrt 3 * 0.15) ^ 2) / 3),
          1 - (2 / 3 + Real.sqrt (1 + (Real.sqrt 3 * 0.15) ^ 2) / 3),
          1 - (2 / 3 + Real.sqrt (1 + (Real.sqrt 3 * 0.15) ^ 2) / 3),
          1 - (2 / 3 + Real.sqrt (1 + (Real.sqrt 3 * 0.15) ^ 2) / 3),
          1 - (2 / 3 + Real.sqrt (1 + (Real.sqrt 3 * 0.15) ^ 2) / 3),
          1 - (2 / 3 + Real.sqrt (1 + (Real.sqrt 3 * 0.15) ^ 2) / 3)] ∧
      (fun i => z_diff s i 1) =
        ![2 * Real.pi, 2 * Real.pi, Complex.arg ⟨1, Real.sqrt 3 * 0.15⟩ + 2 * Real.pi,
          2 * Real.pi, 2 * Real.pi, 2 * Real.pi, 2 * Real.pi, 2 * Real.pi, 2 * Real.pi,
          -Complex.arg ⟨1, Real.sqrt 3 * 0.15⟩ + 2 * Real.pi,
          2 * Real.pi, 2 * Real.pi, 2 * Real.pi, 2 * Real.pi, 2 * Real.pi] ∧
      (fun i => z_diff s i 2) =
        ![0, 0, 0, Real.sqrt 3 * Real.sqrt 5, 0, 0, 0, 0, 0, 0, -(Real.sqrt 3 * Real.sqrt 5),
          0, 0, 0, 0] := by
  obtain ⟨z0, z1, z2⟩ := radar_scenario_Zsig s hX
  obtain ⟨p0, p1, p2⟩ := radar_scenario_z_pred s hX hw
  obtain ⟨ht0, ht1⟩ := radar_scenario_arg_mem
  have hpi := Real.pi_pos
  have e0 : ∀ i, Zsig s 0 i = _ := fun i => congrFun z0 i
  have e1 : ∀ i, Zsig s 1 i = _ := fun i => congrFun z1 i
  have e2 : ∀ i, Zsig s 2 i = _ := fun i => congrFun z2 i
  have n0 : normalizeBearing 0 = 2 * Real.pi := by
    rw [normalizeBearing_of_mem (by linarith) hpi, zero_add]
  have n1 : normalizeBearing (Complex.arg ⟨1, Real.sqrt 3 * 0.15⟩)
      = Complex.arg ⟨1, Real.sqrt 3 * 0.15⟩ + 2 * Real.pi :=
    normalizeBearing_of_mem (by linarith) ht1
  have n2 : normalizeBearing (-Complex.arg ⟨1, Real.sqrt 3 * 0.15⟩)
      = -Complex.arg ⟨1, Real.sqrt 3 * 0.15⟩ + 2 * Real.pi :=
    normalizeBearing_of_mem (by linarith) (by linarith)
  have d0 : (0 : Fin 3) ≠ 1 := by decide
  have d2 : (2 : Fin 3) ≠ 1 := by decide
  refine ⟨?_, ?_, ?_⟩ <;> funext i <;> fin_cases i <;>
    simp only [z_diff_apply_ne _ _ _ d0, z_diff_apply_ne _ _ _ d2, z_diff_apply_bearing,
      e0, e1, e2, p0, p1, p2, Matrix.cons_val_zero,
      Matrix.cons_val_one, Matrix.cons_val_two, Matrix.cons_val_three, Matrix.cons_val_four,
      Matrix.head_cons, Matrix.tail_cons, vec15_val_five, vec15_val_six,
      vec15_val_seven, vec15_val_eight, vec15_val_nine, vec15_val_ten, vec15_val_eleven,
      vec15_val_twelve, vec15_val_thirteen, vec15_val_fourteen, Fin.isValue, Fin.zero_eta,
      Fin.mk_one, Fin.reduceFinMk, sub_zero, n0, n1, n2]

theorem radar_scenario_S (s : UKF)
    (hX : s.Xsig_pred_ = sigmaTableAtRest 1 0 0 ![0.15, 0.15, Real.sqrt 5, 1, 1, 3, 1])
    (hw : s.weights_ =
      ![-4/3, 1/6, 1/6, 1/6, 1/6, 1/6, 1/6, 1/6, 1/6, 1/6, 1/6, 1/6, 1/6, 1/6, 1/6])
    (h1 : s.std_radr_ = 0.3) (h2 : s.std_radphi_ = 0.03) (h3 : s.std_radrd_ = 0.3) :
    radarS s =
      !![2 / 9 * (Real.sqrt (1 + (Real.sqrt 3 * 0.15) ^ 2) - 1) ^ 2
            + (Real.sqrt 3 * 0.15) ^ 2 / 3 + 0.09, 0, 0;
         0, 4 * Real.pi ^ 2 + Complex.arg ⟨1, Real.sqrt 3 * 0.15⟩ ^ 2 / 3 + 0.0009, 0;
         0, 0, (Real.sqrt 3 * Real.sqrt 5) ^ 2 / 3 + 0.09] := by
  obtain ⟨z0, z1, z2⟩ := radar_scenario_z_diff s hX hw
  have e0 : ∀ i, z_diff s i 0 = _ := fun i => congrFun z0 i
  have e1 : ∀ i, z_diff s i 1 = _ := fun i => congrFun z1 i
  have e2 : ∀ i, z_diff s i 2 = _ := fun i => congrFun z2 i
  ext a b
  fin_cases a <;> fin_cases b <;>
    simp only [radarS_apply, radarR_apply, e0, e1, e2, hw, h1, h2, h3, sum_univ_fifteen,
      Matrix.cons_val_zero,
      Matrix.cons_val_one, Matrix.cons_val_two, Matrix.cons_val_three, Matrix.cons_val_four,
      Matrix.head_cons, Matrix.tail_cons, Matrix.of_apply, vec15_val_five, vec15_val_six,
      vec15_val_seven, vec15_val_eight, vec15_val_nine, vec15_val_ten, vec15_val_eleven,
      vec15_val_twelve, vec15_val_thirteen, vec15_val_fourteen, Fin.isValue, Fin.zero_eta,
      Fin.mk_one, Fin.reduceFinMk] <;> ring

theorem radar_scenario_Tc (s : UKF)
    (hX : s.Xsig_pred_ = sigmaTableAtRest 1 0 0 ![0.15, 0.15, Real.sqrt 5, 1, 1, 3, 1])
    (hw : s.weights_ =
      ![-4/3, 1/6, 1/6, 1/6, 1/6, 1/6, 1/6, 1/6, 1/6, 1/6, 1/6, 1/6, 1/6, 1/6, 1/6])
    (hx : s.x_ = ![1, 0, 0, 0, 0]) :
    radarTc s 1 0 = 0 ∧
      radarTc s 1 1 = Real.sqrt 3 * 0.15 * Complex.arg ⟨1, Real.sqrt 3 * 0.15⟩ / 3 ∧
      radarTc s 1 2 = 0 := by
  obtain ⟨z0, z1, z2⟩ := radar_scenario_z_diff s hX hw
  obtain ⟨-, r1, -, -⟩ := radar_scenario_rows s hX
  have e0 : ∀ i, z_diff s i 0 = _ := fun i => congrFun z0 i
  have e1 : ∀ i, z_diff s i 1 = _ := fun i => congrFun z1 i
  have e2 : ∀ i, z_diff s i 2 = _ := fun i => congrFun z2 i
  have f1 : ∀ i, s.Xsig_pred_ 1 i = _ := fun i => congrFun r1 i
  have d1 : (1 : Fin 5) ≠ 3 := by decide
  refine ⟨?_, ?_, ?_⟩ <;>
    simp only [radarTc_apply, x_diff_apply_ne _ _ _ _ d1, f1, hx, e0, e1, e2, hw,
      sum_univ_fifteen, Matrix.cons_val_zero,
      Matrix.cons_val_one, Matrix.cons_val_two, Matrix.cons_val_three, Matrix.cons_val_four,
      Matrix.head_cons, Matrix.tail_cons, vec15_val_five, vec15_val_six,
      vec15_val_seven, vec15_val_eight, vec15_val_nine, vec15_val_ten, vec15_val_eleven,
      vec15_val_twelve, vec15_val_thirteen, vec15_val_fourteen] <;> ring

theorem radar_scenario_K (s : UKF)
    (hX : s.Xsig_pred_ = sigmaTableAtRest 1 0 0 ![0.15, 0.15, Real.sqrt 5, 1, 1, 3, 1])
    (hw : s.weights_ =
      ![-4/3, 1/6, 1/6, 1/6, 1/6, 1/6, 1/6, 1/6, 1/6, 1/6, 1/6, 1/6, 1/6, 1/6, 1/6])
    (hx : s.x_ = ![1, 0, 0, 0, 0])
    (h1 : s.std_radr_ = 0.3) (h2 : s.std_radphi_ = 0.03) (h3 : s.std_radrd_ = 0.3) :
    radarK s 1 0 = 0 ∧ 0 < radarK s 1 1 ∧ radarK s 1 2 = 0 := by
  obtain ⟨t0, t1, t2⟩ := radar_scenario_Tc s hX hw hx
  obtain ⟨ht0, -⟩ := radar_scenario_arg_mem
  have hS := radar_scenario_S s hX hw h1 h2 h3
  have hr3 : (0 : ℝ) < Real.sqrt 3 := Real.sqrt_pos.mpr (by norm_num)
  have p0 : (0 : ℝ) < 2 / 9 * (Real.sqrt (1 + (Real.sqrt 3 * 0.15) ^ 2) - 1) ^ 2
            + (Real.sqrt 3 * 0.15) ^ 2 / 3 + 0.09 := by positivity
  have p1 : (0 : ℝ) < 4 * Real.pi ^ 2 + Complex.arg ⟨1, Real.sqrt 3 * 0.15⟩ ^ 2 / 3 + 0.0009 := by
    positivity
  have p2 : (0 : ℝ) < (Real.sqrt 3 * Real.sqrt 5) ^ 2 / 3 + 0.09 := by positivity
  have hSi := inv_diagonal_three _ _ _ (ne_of_gt p0) (ne_of_gt p1) (ne_of_gt p2)
  rw [← hS] at hSi
  have hK : ∀ j, radarK s 1 j = radarTc s 1 0 * (radarS s)⁻¹ 0 j
      + radarTc s 1 1 * (radarS s)⁻¹ 1 j + radarTc s 1 2 * (radarS s)⁻¹ 2 j := by
    intro j
    simp only [radarK, Matrix.mul_apply, Fin.sum_univ_three]
  refine ⟨?_, ?_, ?_⟩
  · rw [hK, t0, t2, hSi]
    simp
  · rw [hK, t0, t2, t1, hSi]
    simp only [Matrix.of_apply, Matrix.cons_val_one, Matrix.head_cons, zero_mul, zero_add,
      add_zero]
    positivity
  · rw [hK, t0, t2, hSi]
    simp

theorem ProcessMeasurement_radar_initialized (llt : CholeskyRoutine) (s : UKF)
    (m : MeasurementPackage) (hi : s.is_initialized_ = true) (hr : s.use_radar_ = true)
    (hm : m.sensor_type_ = SensorType.RADAR) :
    UKF.ProcessMeasurement llt s m = UKF.UpdateRadar (UKF.predictStep llt s m) m := by
  have h : (UKF.predictStep llt s m).use_radar_ = true := hr
  simp [UKF.ProcessMeasurement, hi, hm, h]

theorem radarScenarioPredicted_fields :
    radarScenarioPredicted.Xsig_pred_ =
        sigmaTableAtRest 1 0 0 ![0.15, 0.15, Real.sqrt 5, 1, 1, 3, 1] ∧
      radarScenarioPredicted.weights_ =
        ![-4/3, 1/6, 1/6, 1/6, 1/6, 1/6, 1/6, 1/6, 1/6, 1/6, 1/6, 1/6, 1/6, 1/6, 1/6] ∧
      radarScenarioPredicted.x_ = ![1, 0, 0, 0, 0] ∧
      radarScenarioPredicted.std_radr_ = 0.3 ∧ radarScenarioPredicted.std_radphi_ = 0.03 ∧
      radarScenarioPredicted.std_radrd_ = 0.3 := by
  have hseed := laserSeed_fields cholDiag 0 0 0 0 0 0 1 0
  have hllt : IsCholeskyFactor
      (cholDiag (P_aug (UKF.ProcessMeasurement cholDiag (UKF.ctor 0 0 0 0 0) (laserRecord 0 1 0))))
      (P_aug (UKF.ProcessMeasurement cholDiag (UKF.ctor 0 0 0 0 0) (laserRecord 0 1 0))) := by
    rw [P_aug_laserSeed]
    refine cholDiag_isCholeskyFactor _ (fun i => ?_)
    fin_cases i <;> simp [vec7_val_five, vec7_val_six] <;> norm_num
  have hL := llt_laserSeed cholDiag 0 0 0 0 0 0 1 0 hllt
  have hx1 : radarScenarioSeed.x_ = ![1, 0, 0, 0, 0] := by
    unfold radarScenarioSeed; rw [hseed]
  have hlam : radarScenarioSeed.lambda_ = -4 := by
    unfold radarScenarioSeed; rw [hseed]; norm_num [UKF.ctor]
  have hprev : radarScenarioSeed.previousTimestamp = 0 := by
    unfold radarScenarioSeed; rw [hseed]
  have hdt : (((radarRecord 0 1 0 0).timestamp_ - radarScenarioSeed.previousTimestamp : ℤ) : ℝ)
      / 1000000.0 = 0 := by
    rw [hprev]; norm_num [radarRecord]
  have hps : radarScenarioPredicted = _ :=
    predictStep_eq cholDiag radarScenarioSeed (radarRecord 0 1 0 0)
  rw [hdt] at hps
  have hX := Prediction_Xsig_pred_at_rest cholDiag
    { radarScenarioSeed with
      weights_ := setWeights radarScenarioSeed
      previousTimestamp := (radarRecord 0 1 0 0).timestamp_ }
    1 0 0 _ hx1 hlam hL
  have hm := Prediction_x_at_rest cholDiag
    { radarScenarioSeed with
      weights_ := setWeights radarScenarioSeed
      previousTimestamp := (radarRecord 0 1 0 0).timestamp_ }
    1 0 0 _ hx1 hlam hL rfl
  rw [← hps] at hX hm
  refine ⟨hX, ?_, hm, ?_, ?_, ?_⟩
  · have : radarScenarioPredicted.weights_ = setWeights radarScenarioSeed := rfl
    rw [this, setWeights_eq _ hlam]
  · show radarScenarioSeed.std_radr_ = 0.3
    unfold radarScenarioSeed; rw [hseed]; rfl
  · show radarScenarioSeed.std_radphi_ = 0.03
    unfold radarScenarioSeed; rw [hseed]; rfl
  · show radarScenarioSeed.std_radrd_ = 0.3
    unfold radarScenarioSeed; rw [hseed]; rfl

/-! ## The wrap-around loops: range and congruence -/

theorem whileAbove_eq_sub (bound d : ℝ) :
    ∃ n : ℕ, whileAbove bound d = d - n * (2 * Real.pi) := by
  induction d using whileAbove.induct bound with
  | case1 d h ih =>
    obtain ⟨n, hn⟩ := ih
    refine ⟨n + 1, ?_⟩
    rw [whileAbove_of_gt h, hn]
    push_cast
    ring
  | case2 d h =>
    exact ⟨0, by rw [whileAbove_of_le (not_lt.mp h)]; simp⟩

theorem whileBelow_eq_add (bound d : ℝ) :
    ∃ n : ℕ, whileBelow bound d = d + n * (2 * Real.pi) := by
  induction d using whileBelow.induct bound with
  | case1 d h ih =>
    obtain ⟨n, hn⟩ := ih
    refine ⟨n + 1, ?_⟩
    rw [whileBelow_of_lt h, hn]
    push_cast
    ring
  | case2 d h =>
    exact ⟨0, by rw [whileBelow_of_ge (not_lt.mp h)]; simp⟩

theorem whileAbove_gt (bound d : ℝ) (h : bound < d) :
    bound - 2 * Real.pi < whileAbove bound d := by
  induction d using whileAbove.induct bound with
  | case1 d hlt ih =>
    rw [whileAbove_of_gt hlt]
    by_cases hb : bound < d - 2 * Real.pi
    · exact ih hb
    · rw [whileAbove_of_le (not_lt.mp hb)]
      linarith
  | case2 d hge => exact absurd h hge

theorem normalizeYaw_mem (d : ℝ) :
    -Real.pi ≤ normalizeYaw d ∧ normalizeYaw d ≤ Real.pi := by
  have hle := whileAbove_le Real.pi d
  unfold normalizeYaw
  by_cases h : -Real.pi ≤ whileAbove Real.pi d
  · rw [whileBelow_of_ge h]
    exact ⟨h, hle⟩
  · have := whileBelow_mem (-Real.pi) (whileAbove Real.pi d) (not_le.mp h).le
    exact ⟨this.1, by linarith [this.2]⟩

theorem normalizeYaw_congr (d : ℝ) :
    ∃ k : ℤ, normalizeYaw d = d + 2 * Real.pi * k := by
  obtain ⟨n, hn⟩ := whileAbove_eq_sub Real.pi d
  obtain ⟨m, hm⟩ := whileBelow_eq_add (-Real.pi) (whileAbove Real.pi d)
  refine ⟨(m : ℤ) - n, ?_⟩
  rw [normalizeYaw, hm, hn]
  push_cast
  ring

theorem normalizeBearing_congr (d : ℝ) :
    ∃ k : ℤ, normalizeBearing d = d + 2 * Real.pi * k := by
  obtain ⟨n, hn⟩ := whileAbove_eq_sub Real.pi d
  obtain ⟨m, hm⟩ := whileBelow_eq_add Real.pi (whileAbove Real.pi d)
  refine ⟨(m : ℤ) - n, ?_⟩
  rw [normalizeBearing, hm, hn]
  push_cast
  ring

theorem normalizeYaw_idem (d : ℝ) : normalizeYaw (normalizeYaw d) = normalizeYaw d :=
  normalizeYaw_of_mem (normalizeYaw_mem d).1 (normalizeYaw_mem d).2

/-- Two reals strictly inside `(-π, π)` that differ by a multiple of `2π` are equal. -/
theorem eq_of_mem_Ioo_of_congr {a b : ℝ} (ha1 : -Real.pi < a) (ha2 : a < Real.pi)
    (hb1 : -Real.pi < b) (hb2 : b < Real.pi) (j : ℤ) (h : a = b + 2 * Real.pi * j) :
    a = b := by
  have hpi := Real.pi_pos
  have h1 : (j : ℝ) < 1 := by
    by_contra hc
    have : (1 : ℝ) ≤ j := not_lt.mp hc
    nlinarith
  have h2 : (-1 : ℝ) < j := by
    by_contra hc
    have : (j : ℝ) ≤ -1 := not_lt.mp hc
    nlinarith
  have hj : j = 0 := by
    have h1' : j < 1 := by exact_mod_cast h1
    have h2' : -1 < j := by exact_mod_cast h2
    omega
  rw [h, hj]; simp

/-- A yaw difference which is not an odd multiple of `π` is normalized into the
open interval. -/
theorem normalizeYaw_mem_Ioo (d : ℝ) (hd : ∀ j : ℤ, d ≠ (2 * j + 1) * Real.pi) :
    -Real.pi < normalizeYaw d ∧ normalizeYaw d < Real.pi := by
  obtain ⟨k, hk⟩ := normalizeYaw_congr d
  have hm := normalizeYaw_mem d
  constructor
  · refine lt_of_le_of_ne hm.1 (fun he => hd (-k - 1) ?_)
    push_cast
    linarith
  · refine lt_of_le_of_ne hm.2 (fun he => hd (-k) ?_)
    push_cast
    linarith

theorem normalizeYaw_add_of_not_odd (d : ℝ) (k : ℤ) (hd : ∀ j : ℤ, d ≠ (2 * j + 1) * Real.pi) :
    normalizeYaw (d + 2 * Real.pi * k) = normalizeYaw d := by
  have hd' : ∀ j : ℤ, d + 2 * Real.pi * k ≠ (2 * j + 1) * Real.pi := by
    intro j he
    apply hd (j - k)
    push_cast
    linarith
  obtain ⟨a, ha⟩ := normalizeYaw_congr d
  obtain ⟨b, hb⟩ := normalizeYaw_congr (d + 2 * Real.pi * k)
  have m1 := normalizeYaw_mem_Ioo d hd
  have m2 := normalizeYaw_mem_Ioo _ hd'
  refine eq_of_mem_Ioo_of_congr m2.1 m2.2 m1.1 m1.2 (b + k - a) ?_
  rw [hb, ha]
  push_cast
  ring

theorem normalizeYaw_neg_pi : normalizeYaw (-Real.pi) = -Real.pi :=
  normalizeYaw_of_mem le_rfl (by linarith [Real.pi_pos])

theorem normalizeYaw_pi : normalizeYaw Real.pi = Real.pi :=
  normalizeYaw_of_mem (by linarith [Real.pi_pos]) le_rfl

theorem zero_ne_odd_mul_pi (j : ℤ) : (0 : ℝ) ≠ (2 * j + 1) * Real.pi := by
  intro h
  rcases mul_eq_zero.mp h.symm with h1 | h1
  · have h2 : (2 * j + 1 : ℤ) = 0 := by exact_mod_cast h1
    omega
  · exact Real.pi_ne_zero h1

/-! ## Moments of the augmented sigma points and the prediction over zero seconds -/

theorem Xsig_aug_weighted_mean (s : UKF) (L : Matrix (Fin 7) (Fin 7) ℝ) (hl : s.lambda_ = -4)
    (r : Fin 7) : ∑ i, setWeights s i * Xsig_aug s L r i = x_aug s r := by
  obtain ⟨c0, c1, c2, c3, c4, c5, c6, c7, c8, c9, c10, c11, c12, c13, c14⟩ := Xsig_aug_col s L r
  rw [sum_univ_fifteen, setWeights_eq s hl]
  simp only [c0, c1, c2, c3, c4, c5, c6, c7, c8, c9, c10, c11, c12, c13, c14,
    Matrix.cons_val_zero, Matrix.cons_val_one, Matrix.cons_val_two, Matrix.cons_val_three,
    Matrix.cons_val_four, Matrix.head_cons, Matrix.tail_cons, vec15_val_five, vec15_val_six,
    vec15_val_seven, vec15_val_eight, vec15_val_nine, vec15_val_ten, vec15_val_eleven,
    vec15_val_twelve, vec15_val_thirteen, vec15_val_fourteen]
  ring

theorem Xsig_aug_weighted_cov (s : UKF) (L : Matrix (Fin 7) (Fin 7) ℝ) (hl : s.lambda_ = -4)
    (a b : Fin 7) :
    ∑ i, setWeights s i * ((Xsig_aug s L a i - x_aug s a) * (Xsig_aug s L b i - x_aug s b)) =
      (L * Lᵀ) a b := by
  obtain ⟨c0, c1, c2, c3, c4, c5, c6, c7, c8, c9, c10, c11, c12, c13, c14⟩ := Xsig_aug_col s L a
  obtain ⟨d0, d1, d2, d3, d4, d5, d6, d7, d8, d9, d10, d11, d12, d13, d14⟩ := Xsig_aug_col s L b
  have h3 : Real.sqrt 3 ^ 2 = 3 := Real.sq_sqrt (by norm_num)
  rw [sum_univ_fifteen, setWeights_eq s hl, Matrix.mul_apply, Fin.sum_univ_seven]
  simp only [c0, c1, c2, c3, c4, c5, c6, c7, c8, c9, c10, c11, c12, c13, c14,
    d0, d1, d2, d3, d4, d5, d6, d7, d8, d9, d10, d11, d12, d13, d14, sqrt_spread s hl,
    Matrix.transpose_apply,
    Matrix.cons_val_zero, Matrix.cons_val_one, Matrix.cons_val_two, Matrix.cons_val_three,
    Matrix.cons_val_four, Matrix.head_cons, Matrix.tail_cons, vec15_val_five, vec15_val_six,
    vec15_val_seven, vec15_val_eight, vec15_val_nine, vec15_val_ten, vec15_val_eleven,
    vec15_val_twelve, vec15_val_thirteen, vec15_val_fourteen]
  linear_combination (1 / 3 * (L a 0 * L b 0 + L a 1 * L b 1 + L a 2 * L b 2 + L a 3 * L b 3
    + L a 4 * L b 4 + L a 5 * L b 5 + L a 6 * L b 6)) * h3

theorem lambda_ctor_eq {s : UKF} (hl : s.lambda_ = 3 - (n_aug_ : ℝ)) : s.lambda_ = -4 := by
  rw [hl]; norm_num

theorem predictSigmaPoint_zero (p : Fin 7 → ℝ) (r : Fin 5) :
    predictSigmaPoint 0 p r = p (Fin.castLE (by norm_num) r) := by
  obtain ⟨h0, h1, h2, h3, h4⟩ := predictSigmaPoint_val 0 p
  fin_cases r
  · show predictSigmaPoint 0 p 0 = p 0
    rw [h0]; simp
  · show predictSigmaPoint 0 p 1 = p 1
    rw [h1]; simp
  · show predictSigmaPoint 0 p 2 = p 2
    rw [h2]; simp
  · show predictSigmaPoint 0 p 3 = p 3
    rw [h3]; simp
  · show predictSigmaPoint 0 p 4 = p 4
    rw [h4]; simp

theorem x_aug_castLE (s : UKF) (r : Fin 5) :
    x_aug s (Fin.castLE (by norm_num) r) = s.x_ r := by
  fin_cases r <;> rfl

theorem P_aug_castLE (s : UKF) (a b : Fin 5) :
    P_aug s (Fin.castLE (by norm_num) a) (Fin.castLE (by norm_num) b) = s.P_ a b := by
  rw [P_aug_eq]
  fin_cases a <;> fin_cases b <;> rfl

theorem Prediction_zero_x (llt : CholeskyRoutine) (s : UKF) (hl : s.lambda_ = -4)
    (hw : s.weights_ = setWeights s) : (UKF.Prediction llt s 0).x_ = s.x_ := by
  funext r
  rw [Prediction_x_apply, hw]
  simp only [Prediction_Xsig_pred_apply, predictSigmaPoint_zero]
  rw [Xsig_aug_weighted_mean s _ hl, x_aug_castLE]

theorem abs_Xsig_aug_sub_le (s : UKF) (L : Matrix (Fin 7) (Fin 7) ℝ) (hl : s.lambda_ = -4)
    (r : Fin 7) (B : ℝ) (hB : 0 ≤ B) (h : ∀ k, Real.sqrt 3 * |L r k| ≤ B) (i : Fin 15) :
    |Xsig_aug s L r i - x_aug s r| ≤ B := by
  obtain ⟨c0, c1, c2, c3, c4, c5, c6, c7, c8, c9, c10, c11, c12, c13, c14⟩ := Xsig_aug_col s L r
  have hs : (0 : ℝ) ≤ Real.sqrt 3 := Real.sqrt_nonneg _
  have hp : ∀ k, |x_aug s r + Real.sqrt 3 * L r k - x_aug s r| ≤ B := fun k => by
    rw [add_sub_cancel_left, abs_mul, abs_of_nonneg hs]; exact h k
  have hm : ∀ k, |x_aug s r - Real.sqrt 3 * L r k - x_aug s r| ≤ B := fun k => by
    rw [sub_sub_cancel_left, abs_neg, abs_mul, abs_of_nonneg hs]; exact h k
  rw [sqrt_spread s hl] at c1 c2 c3 c4 c5 c6 c7 c8 c9 c10 c11 c12 c13 c14
  fin_cases i
  · show |Xsig_aug s L r 0 - x_aug s r| ≤ B
    rw [c0, sub_self, abs_zero]; exact hB
  · show |Xsig_aug s L r 1 - x_aug s r| ≤ B
    rw [c1]; exact hp _
  · show |Xsig_aug s L r 2 - x_aug s r| ≤ B
    rw [c2]; exact hp _
  · show |Xsig_aug s L r 3 - x_aug s r| ≤ B
    rw [c3]; exact hp _
  · show |Xsig_aug s L r 4 - x_aug s r| ≤ B
    rw [c4]; exact hp _
  · show |Xsig_aug s L r 5 - x_aug s r| ≤ B
    rw [c5]; exact hp _
  · show |Xsig_aug s L r 6 - x_aug s r| ≤ B
    rw [c6]; exact hp _
  · show |Xsig_aug s L r 7 - x_aug s r| ≤ B
    rw [c7]; exact hp _
  · show |Xsig_aug s L r 8 - x_aug s r| ≤ B
    rw [c8]; exact hm _
  · show |Xsig_aug s L r 9 - x_aug s r| ≤ B
    rw [c9]; exact hm _
  · show |Xsig_aug s L r 10 - x_aug s r| ≤ B
    rw [c10]; exact hm _
  · show |Xsig_aug s L r 11 - x_aug s r| ≤ B
    rw [c11]; exact hm _
  · show |Xsig_aug s L r 12 - x_aug s r| ≤ B
    rw [c12]; exact hm _
  · show |Xsig_aug s L r 13 - x_aug s r| ≤ B
    rw [c13]; exact hm _
  · show |Xsig_aug s L r 14 - x_aug s r| ≤ B
    rw [c14]; exact hm _

theorem Prediction_zero_x_diff (llt : CholeskyRoutine) (s : UKF) (hl : s.lambda_ = -4)
    (hw : s.weights_ = setWeights s)
    (hwrap : ∀ k, Real.sqrt 3 * |llt (P_aug s) 3 k| ≤ Real.pi) (i : Fin 15) (r : Fin 5) :
    x_diff (UKF.Prediction llt s 0).Xsig_pred_ (UKF.Prediction llt s 0).x_ i r =
      Xsig_aug s (llt (P_aug s)) (Fin.castLE (by norm_num) r) i
        - x_aug s (Fin.castLE (by norm_num) r) := by
  have hX : ∀ r, (UKF.Prediction llt s 0).Xsig_pred_ r i - (UKF.Prediction llt s 0).x_ r =
      Xsig_aug s (llt (P_aug s)) (Fin.castLE (by norm_num) r) i
        - x_aug s (Fin.castLE (by norm_num) r) := by
    intro r
    rw [Prediction_zero_x llt s hl hw, Prediction_Xsig_pred_apply, predictSigmaPoint_zero,
      x_aug_castLE]
  by_cases h : r = 3
  · subst h
    rw [x_diff_apply_yaw, hX]
    have hb := abs_le.mp
      (abs_Xsig_aug_sub_le s (llt (P_aug s)) hl 3 Real.pi Real.pi_pos.le hwrap i)
    exact normalizeYaw_of_mem hb.1 hb.2
  · rw [x_diff_apply_ne _ _ _ _ h, hX]

theorem Prediction_zero_P (llt : CholeskyRoutine) (s : UKF) (hl : s.lambda_ = -4)
    (hw : s.weights_ = setWeights s) (hL : llt (P_aug s) * (llt (P_aug s))ᵀ = P_aug s)
    (hwrap : ∀ k, Real.sqrt 3 * |llt (P_aug s) 3 k| ≤ Real.pi) :
    (UKF.Prediction llt s 0).P_ = s.P_ := by
  ext a b
  rw [Prediction_P_apply]
  simp only [Prediction_zero_x_diff llt s hl hw hwrap]
  rw [hw, Xsig_aug_weighted_cov s _ hl, hL, P_aug_castLE]

theorem cexL_yaw_row_le (i : Fin 7) : Real.sqrt 3 * |cexL 3 i| ≤ Real.pi := by
  have h3 : (0 : ℝ) < Real.sqrt 3 := Real.sqrt_pos.mpr (by norm_num)
  have hp := Real.pi_pos
  have hq : Real.sqrt 3 * |Real.pi / Real.sqrt 3| ≤ Real.pi := by
    rw [abs_of_pos (by positivity)]
    exact le_of_eq (by field_simp)
  have hz : Real.sqrt 3 * |(0 : ℝ)| ≤ Real.pi := by
    rw [abs_zero, mul_zero]; exact hp.le
  fin_cases i
  · exact hq
  · exact hq
  · exact hq
  · exact hq
  · exact hz
  · exact hz
  · exact hz

/-! ## The sum of the weights -/

theorem setWeights_eq_weightsFor (s : UKF) : setWeights s = weightsFor n_aug_ s.lambda_ := rfl

theorem sum_weightsFor (n_aug : ℕ) (lambda : ℝ) :
    ∑ i, weightsFor n_aug lambda i =
      lambda / (lambda + (n_aug : ℝ)) + (2 * (n_aug : ℝ)) * (0.5 / ((n_aug : ℝ) + lambda)) := by
  rw [Fin.sum_univ_succ]
  simp [weightsFor]

theorem sum_weightsFor_of_ne (n_aug : ℕ) (lambda : ℝ) (h : lambda + (n_aug : ℝ) ≠ 0) :
    ∑ i, weightsFor n_aug lambda i = 1 := by
  have h2 : (n_aug : ℝ) + lambda ≠ 0 := by rwa [add_comm]
  rw [sum_weightsFor]
  field_simp
  ring

theorem sum_weightsFor_degenerate (n_aug : ℕ) : ∑ i, weightsFor n_aug (-(n_aug : ℝ)) i = 0 := by
  rw [sum_weightsFor]
  simp

/-! ## The straight-line limit of the turning branch -/

theorem predictSigmaPoint_branches (delta_t : ℝ) (p : Fin 7 → ℝ) :
    predictSigmaPoint delta_t p 0 =
      (if |p 4| > 0.001 then px_p_turning (p 0) (p 2) (p 3) (p 4) delta_t
        else px_p_straight (p 0) (p 2) (p 3) delta_t)
        + 0.5 * p 5 * delta_t * delta_t * Real.cos (p 3) ∧
    predictSigmaPoint delta_t p 1 =
      (if |p 4| > 0.001 then py_p_turning (p 1) (p 2) (p 3) (p 4) delta_t
        else py_p_straight (p 1) (p 2) (p 3) delta_t)
        + 0.5 * p 5 * delta_t * delta_t * Real.sin (p 3) :=
  ⟨rfl, rfl⟩

theorem tendsto_sin_quotient (yaw delta_t : ℝ) :
    Filter.Tendsto (fun yawd => (Real.sin (yaw + yawd * delta_t) - Real.sin yaw) / yawd)
      (nhdsWithin 0 {0}ᶜ) (nhds (delta_t * Real.cos yaw)) := by
  have h1 : HasDerivAt (fun w : ℝ => yaw + w * delta_t) delta_t 0 := by
    simpa using ((hasDerivAt_id (0 : ℝ)).mul_const delta_t).const_add yaw
  have h2 : HasDerivAt (fun w : ℝ => Real.sin (yaw + w * delta_t))
      (Real.cos (yaw + 0 * delta_t) * delta_t) 0 := h1.sin
  have h3 := hasDerivAt_iff_tendsto_slope.mp h2
  have h4 : Real.cos (yaw + 0 * delta_t) * delta_t = delta_t * Real.cos yaw := by
    rw [zero_mul, add_zero, mul_comm]
  rw [h4] at h3
  refine h3.congr (fun w => ?_)
  rw [slope_def_field]
  simp

theorem tendsto_cos_quotient (yaw delta_t : ℝ) :
    Filter.Tendsto (fun yawd => (Real.cos yaw - Real.cos (yaw + yawd * delta_t)) / yawd)
      (nhdsWithin 0 {0}ᶜ) (nhds (delta_t * Real.sin yaw)) := by
  have h1 : HasDerivAt (fun w : ℝ => yaw + w * delta_t) delta_t 0 := by
    simpa using ((hasDerivAt_id (0 : ℝ)).mul_const delta_t).const_add yaw
  have h2 : HasDerivAt (fun w : ℝ => Real.cos (yaw + w * delta_t))
      (-Real.sin (yaw + 0 * delta_t) * delta_t) 0 := h1.cos
  have h3 := (hasDerivAt_iff_tendsto_slope.mp h2).neg
  have h4 : -(-Real.sin (yaw + 0 * delta_t) * delta_t) = delta_t * Real.sin yaw := by
    rw [zero_mul, add_zero]; ring
  rw [h4] at h3
  refine h3.congr (fun w => ?_)
  rw [slope_def_field]
  simp only [zero_mul, add_zero, sub_zero]
  ring

theorem px_p_turning_tendsto (p_x v yaw delta_t : ℝ) :
    Filter.Tendsto (fun yawd => px_p_turning p_x v yaw yawd delta_t)
      (nhdsWithin 0 {0}ᶜ) (nhds (px_p_straight p_x v yaw delta_t)) := by
  have h := ((tendsto_sin_quotient yaw delta_t).const_mul v).const_add p_x
  have e : p_x + v * (delta_t * Real.cos yaw) = px_p_straight p_x v yaw delta_t := by
    unfold px_p_straight; ring
  rw [e] at h
  refine h.congr (fun w => ?_)
  unfold px_p_turning
  ring

theorem py_p_turning_tendsto (p_y v yaw delta_t : ℝ) :
    Filter.Tendsto (fun yawd => py_p_turning p_y v yaw yawd delta_t)
      (nhdsWithin 0 {0}ᶜ) (nhds (py_p_straight p_y v yaw delta_t)) := by
  have h := ((tendsto_cos_quotient yaw delta_t).const_mul v).const_add p_y
  have e : p_y + v * (delta_t * Real.sin yaw) = py_p_straight p_y v yaw delta_t := by
    unfold py_p_straight; ring
  rw [e] at h
  refine h.congr (fun w => ?_)
  unfold py_p_turning
  ring

theorem predictSigmaPoint_of_yawd_zero (delta_t : ℝ) (p : Fin 7 → ℝ) (h : p 4 = 0) :
    predictSigmaPoint delta_t p 0 =
      px_p_straight (p 0) (p 2) (p 3) delta_t + 0.5 * p 5 * delta_t * delta_t * Real.cos (p 3) ∧
    predictSigmaPoint delta_t p 1 =
      py_p_straight (p 1) (p 2) (p 3) delta_t + 0.5 * p 5 * delta_t * delta_t * Real.sin (p 3) := by
  have hz : ¬ (|p 4| > 0.001) := by rw [h, abs_zero]; norm_num
  obtain ⟨h0, h1⟩ := predictSigmaPoint_branches delta_t p
  rw [h0, h1, if_neg hz, if_neg hz]
  exact ⟨rfl, rfl⟩

/-! ## The radar measurement model -/

theorem range_pos_iff (p_x p_y : ℝ) :
    0 < Real.sqrt (p_x * p_x + p_y * p_y) ↔ ¬ (p_x = 0 ∧ p_y = 0) := by
  rw [Real.sqrt_pos]
  constructor
  · rintro h ⟨rfl, rfl⟩
    simp at h
  · intro h
    by_contra hc
    have h0 : p_x * p_x + p_y * p_y = 0 :=
      le_antisymm (not_lt.mp hc) (add_nonneg (mul_self_nonneg _) (mul_self_nonneg _))
    have hx : p_x = 0 := by nlinarith [mul_self_nonneg p_x, mul_self_nonneg p_y]
    have hy : p_y = 0 := by nlinarith [mul_self_nonneg p_x, mul_self_nonneg p_y]
    exact h ⟨hx, hy⟩

theorem range_eq_zero_iff (p_x p_y : ℝ) :
    Real.sqrt (p_x * p_x + p_y * p_y) = 0 ↔ p_x = 0 ∧ p_y = 0 := by
  constructor
  · intro h
    by_contra hc
    exact absurd h (ne_of_gt ((range_pos_iff p_x p_y).mpr hc))
  · rintro ⟨rfl, rfl⟩
    simp

theorem abs_range_rate_le (p_x p_y v yaw : ℝ) (h : ¬ (p_x = 0 ∧ p_y = 0)) :
    |(p_x * (v * Real.cos yaw) + p_y * (v * Real.sin yaw)) / Real.sqrt (p_x * p_x + p_y * p_y)|
      ≤ |v| := by
  have hr := (range_pos_iff p_x p_y).mpr h
  have hsq : Real.sqrt (p_x * p_x + p_y * p_y) ^ 2 = p_x * p_x + p_y * p_y :=
    Real.sq_sqrt (add_nonneg (mul_self_nonneg _) (mul_self_nonneg _))
  have hcs : (p_x * Real.cos yaw + p_y * Real.sin yaw) ^ 2 ≤
      Real.sqrt (p_x * p_x + p_y * p_y) ^ 2 := by
    rw [hsq]
    nlinarith [Real.sin_sq_add_cos_sq yaw, sq_nonneg (p_x * Real.sin yaw - p_y * Real.cos yaw)]
  have habs : |p_x * Real.cos yaw + p_y * Real.sin yaw| ≤ Real.sqrt (p_x * p_x + p_y * p_y) := by
    have := abs_le_of_sq_le_sq hcs hr.le
    exact this
  rw [abs_div, abs_of_pos hr, div_le_iff₀ hr]
  have e : p_x * (v * Real.cos yaw) + p_y * (v * Real.sin yaw)
      = v * (p_x * Real.cos yaw + p_y * Real.sin yaw) := by ring
  rw [e, abs_mul]
  exact mul_le_mul_of_nonneg_left habs (abs_nonneg v)

/-! ## A predicted yaw difference of `-π` -/

set_option maxHeartbeats 1600000 in
theorem Prediction_yaw_row_cex (llt : CholeskyRoutine) (s : UKF) (v0 : ℝ)
    (hx : s.x_ = ![0, 0, v0, 0, 0]) (hl : s.lambda_ = -4) (hL : llt (P_aug s) = cexL) :
    ∀ i, (UKF.Prediction llt s 1).Xsig_pred_ 3 i =
      (![0, Real.pi, Real.pi, Real.pi, Real.pi, 1 / 2000, 0, 0.5 * Real.sqrt 3,
        -Real.pi, -Real.pi, -Real.pi, -Real.pi, -(1 / 2000), 0, -(0.5 * Real.sqrt 3)] :
        Fin 15 → ℝ) i := by
  have hc := sqrt_spread s hl
  have h3 : Real.sqrt 3 ≠ 0 := by
    have : (0 : ℝ) < Real.sqrt 3 := Real.sqrt_pos.mpr (by norm_num)
    exact ne_of_gt this
  have hk : ∀ x : ℝ, Real.sqrt 3 * (x / Real.sqrt 3) = x := fun x => by field_simp
  intro i
  fin_cases i <;>
    simp only [cexL, Prediction_Xsig_pred_apply, predictSigmaPoint_val,
      Xsig_aug_col, x_aug_val, hx, hc, hL, hk, Matrix.cons_val_zero,
      Matrix.cons_val_one, Matrix.cons_val_two, Matrix.cons_val_three, Matrix.cons_val_four,
      Matrix.head_cons, Matrix.tail_cons, Matrix.of_apply, vec7_val_five, vec7_val_six,
      vec15_val_five, vec15_val_six,
      vec15_val_seven, vec15_val_eight, vec15_val_nine, vec15_val_ten, vec15_val_eleven,
      vec15_val_twelve, vec15_val_thirteen, vec15_val_fourteen, Fin.isValue,
      Fin.zero_eta, Fin.mk_one, Fin.reduceFinMk,
      mul_zero, add_zero, zero_add, zero_mul, mul_one, zero_div,
      sub_self, sub_zero, zero_sub, neg_zero]
  all_goals (try ring_nf)

theorem Prediction_yaw_mean_cex (llt : CholeskyRoutine) (s : UKF) (v0 : ℝ)
    (hx : s.x_ = ![0, 0, v0, 0, 0]) (hl : s.lambda_ = -4) (hL : llt (P_aug s) = cexL)
    (hw : s.weights_ = setWeights s) :
    (UKF.Prediction llt s 1).x_ 3 = 0 := by
  have h3 := Prediction_yaw_row_cex llt s v0 hx hl hL
  simp only [Prediction_x_apply, h3, hw, setWeights_eq s hl, sum_univ_fifteen,
    Matrix.cons_val_zero,
    Matrix.cons_val_one, Matrix.cons_val_two, Matrix.cons_val_three, Matrix.cons_val_four,
    Matrix.head_cons, Matrix.tail_cons, vec15_val_five, vec15_val_six,
    vec15_val_seven, vec15_val_eight, vec15_val_nine, vec15_val_ten, vec15_val_eleven,
    vec15_val_twelve, vec15_val_thirteen, vec15_val_fourteen]
  ring

theorem Prediction_x_diff_yaw_cex (llt : CholeskyRoutine) (s : UKF) (v0 : ℝ)
    (hx : s.x_ = ![0, 0, v0, 0, 0]) (hl : s.lambda_ = -4) (hL : llt (P_aug s) = cexL)
    (hw : s.weights_ = setWeights s) :
    (UKF.Prediction llt s 1).Xsig_pred_ 3 8 - (UKF.Prediction llt s 1).x_ 3 = -Real.pi ∧
    x_diff (UKF.Prediction llt s 1).Xsig_pred_ (UKF.Prediction llt s 1).x_ 8 3 = -Real.pi := by
  have h8 : (UKF.Prediction llt s 1).Xsig_pred_ 3 8 = -Real.pi :=
    Prediction_yaw_row_cex llt s v0 hx hl hL 8
  have hm := Prediction_yaw_mean_cex llt s v0 hx hl hL hw
  have hd : (UKF.Prediction llt s 1).Xsig_pred_ 3 8 - (UKF.Prediction llt s 1).x_ 3
      = -Real.pi := by rw [h8, hm, sub_zero]
  refine ⟨hd, ?_⟩
  rw [x_diff_apply_yaw, hd]
  exact normalizeYaw_of_mem le_rfl (by linarith [Real.pi_pos])

/-! ## States on which the amended covariance claim is exercised -/

set_option maxHeartbeats 1600000 in
theorem Prediction_py_at_rest (llt : CholeskyRoutine) (s : UKF) (px py dt : ℝ)
    (ℓ : Fin 7 → ℝ) (hx : s.x_ = ![px, py, 0, 0, 0])
    (hL : llt (P_aug s) = Matrix.diagonal ℓ) (i : Fin 15) :
    (UKF.Prediction llt s dt).Xsig_pred_ 1 i =
      (![py, py, py + Real.sqrt (s.lambda_ + (n_aug_ : ℝ)) * ℓ 1, py, py, py, py, py,
        py, py - Real.sqrt (s.lambda_ + (n_aug_ : ℝ)) * ℓ 1, py, py, py, py, py] :
        Fin 15 → ℝ) i := by
  have hz : ¬ ((0 : ℝ) > 0.001) := by norm_num
  fin_cases i <;>
    simp only [Prediction_Xsig_pred_apply, predictSigmaPoint_val, Xsig_aug_col,
      x_aug_val, hx,
      hL, Matrix.diagonal_apply, Matrix.cons_val_zero,
      Matrix.cons_val_one, Matrix.cons_val_two, Matrix.cons_val_three, Matrix.cons_val_four,
      Matrix.head_cons, Matrix.tail_cons, Matrix.of_apply, vec15_val_five, vec15_val_six,
      vec15_val_seven, vec15_val_eight, vec15_val_nine, vec15_val_ten, vec15_val_eleven,
      vec15_val_twelve, vec15_val_thirteen, vec15_val_fourteen, Fin.isValue, Fin.reduceEq,
      if_true, if_false, ite_true, ite_false, Fin.zero_eta, Fin.mk_one, Fin.reduceFinMk,
      mul_zero, add_zero, zero_add, zero_mul, mul_one, zero_div, abs_zero, hz, Real.sin_zero,
      Real.cos_zero, sub_self, ite_self, sub_zero, zero_sub]

theorem sqrt_seven_lt_three : Real.sqrt 7 < 3 := by
  rw [show (3 : ℝ) = Real.sqrt 9 by
    rw [show (9 : ℝ) = 3 ^ 2 by norm_num, Real.sqrt_sq (by norm_num)]]
  exact Real.sqrt_lt_sqrt (by norm_num) (by norm_num)

theorem nonnegWeightState_no_origin (dt : ℝ) (i : Fin 15) :
    ¬ ((UKF.Prediction cholDiag
          { nonnegWeightState with weights_ := setWeights nonnegWeightState } dt).Xsig_pred_ 0 i = 0 ∧
       (UKF.Prediction cholDiag
          { nonnegWeightState with weights_ := setWeights nonnegWeightState } dt).Xsig_pred_ 1 i = 0) := by
  rintro ⟨-, h⟩
  have h7 := sqrt_seven_lt_three
  have h0 : (0 : ℝ) ≤ Real.sqrt 7 := Real.sqrt_nonneg _
  have hc : Real.sqrt ((0 : ℝ) + (n_aug_ : ℝ)) = Real.sqrt 7 := by norm_num
  have hl : Real.sqrt (P_aug nonnegWeightState 1 1) = 1 := by
    have : P_aug nonnegWeightState 1 1 = 1 := by
      rw [P_aug_eq]
      show (1 : Matrix (Fin 5) (Fin 5) ℝ) 1 1 = 1
      simp
    rw [this, Real.sqrt_one]
  have hrow := Prediction_py_at_rest cholDiag
    { nonnegWeightState with weights_ := setWeights nonnegWeightState } 1 10 dt
    (fun k => Real.sqrt (P_aug nonnegWeightState k k)) rfl rfl i
  rw [hrow] at h
  have e : ({ nonnegWeightState with weights_ := setWeights nonnegWeightState } : UKF).lambda_
      = 0 := rfl
  rw [e, hc, hl] at h
  fin_cases i <;>
    simp only [Matrix.cons_val_zero,
      Matrix.cons_val_one, Matrix.cons_val_two, Matrix.cons_val_three, Matrix.cons_val_four,
      Matrix.head_cons, Matrix.tail_cons, vec15_val_five, vec15_val_six,
      vec15_val_seven, vec15_val_eight, vec15_val_nine, vec15_val_ten, vec15_val_eleven,
      vec15_val_twelve, vec15_val_thirteen, vec15_val_fourteen, Fin.isValue, Fin.zero_eta,
      Fin.mk_one, Fin.reduceFinMk] at h <;>
    linarith

theorem sqrt_three_le_pi : Real.sqrt 3 ≤ Real.pi := by
  have h : Real.sqrt 3 ≤ 3 := by
    rw [Real.sqrt_le_left (by norm_num)]
    norm_num
  linarith [Real.pi_gt_three]

theorem seed_Prediction_zero_P :
    (UKF.Prediction cholDiag
      { radarScenarioSeed with weights_ := setWeights radarScenarioSeed } 0).P_ =
      Matrix.diagonal ![(0.15 : ℝ) ^ 2, (0.15 : ℝ) ^ 2, 5, 1, 1] := by
  have hseed := laserSeed_fields cholDiag 0 0 0 0 0 0 1 0
  have hllt : IsCholeskyFactor
      (cholDiag (P_aug (UKF.ProcessMeasurement cholDiag (UKF.ctor 0 0 0 0 0) (laserRecord 0 1 0))))
      (P_aug (UKF.ProcessMeasurement cholDiag (UKF.ctor 0 0 0 0 0) (laserRecord 0 1 0))) := by
    rw [P_aug_laserSeed]
    refine cholDiag_isCholeskyFactor _ (fun i => ?_)
    fin_cases i <;> simp [vec7_val_five, vec7_val_six] <;> norm_num
  have hL := llt_laserSeed cholDiag 0 0 0 0 0 0 1 0 hllt
  have hlam : radarScenarioSeed.lambda_ = -4 := by
    unfold radarScenarioSeed; rw [hseed]; norm_num [UKF.ctor]
  have hP : radarScenarioSeed.P_ = Matrix.diagonal ![(0.15 : ℝ) ^ 2, (0.15 : ℝ) ^ 2, 5, 1, 1] := by
    unfold radarScenarioSeed; rw [hseed]
  have hwrap : ∀ k, Real.sqrt 3 *
      |cholDiag (P_aug (UKF.ProcessMeasurement cholDiag (UKF.ctor 0 0 0 0 0)
        (laserRecord 0 1 0))) 3 k| ≤ Real.pi := by
    intro k
    rw [hL]
    have h3 := sqrt_three_le_pi
    have hp := Real.pi_pos
    fin_cases k <;> simp [Matrix.diagonal_apply] <;> linarith
  have h := Prediction_zero_P cholDiag
    { radarScenarioSeed with weights_ := setWeights radarScenarioSeed } hlam rfl hllt.2.2 hwrap
  rw [h]
  exact hP

theorem seed_Prediction_zero_P_posSemidef :
    (UKF.Prediction cholDiag
      { radarScenarioSeed with weights_ := setWeights radarScenarioSeed } 0).P_.PosSemidef := by
  rw [seed_Prediction_zero_P]
  refine Matrix.PosSemidef.diagonal (fun i => ?_)
  fin_cases i <;> simp <;> norm_num

theorem radarScenarioSeed_config :
    radarScenarioSeed.lambda_ = 3 - (n_aug_ : ℝ) ∧
    radarScenarioSeed.std_laspx_ = 0.15 ∧ radarScenarioSeed.std_laspy_ = 0.15 ∧
    radarScenarioSeed.std_radr_ = 0.3 ∧ radarScenarioSeed.std_radphi_ = 0.03 ∧
    radarScenarioSeed.std_radrd_ = 0.3 := by
  have hseed := laserSeed_fields cholDiag 0 0 0 0 0 0 1 0
  unfold radarScenarioSeed
  rw [hseed]
  exact ⟨rfl, rfl, rfl, rfl, rfl, rfl⟩

/-! ## Claims on initialization -/

/-- C1. On a filter that is not initialized and has `use_radar_` set, a RADAR
measurement `(rho, phi, rho_dot)` with time stamp `t` seeds
`x_ = [rho cos phi, rho sin phi, |rho_dot|, 0, 0]`, `P_ = I`, `previousTimestamp = t`
and `is_initialized_ = true`; the measurement `(5, 0, 0)` gives `x_ = [5, 0, 0, 0, 0]`
and `P_ = I`. -/
theorem ProcessMeasurement_radar_seed (llt : CholeskyRoutine) (s : UKF) (m : MeasurementPackage)
    (hs : s.is_initialized_ = false) (hr : s.use_radar_ = true)
    (hm : m.sensor_type_ = SensorType.RADAR) :
    (UKF.ProcessMeasurement llt s m).x_ =
        ![m.raw_measurements_ 0 * Real.cos (m.raw_measurements_ 1),
          m.raw_measurements_ 0 * Real.sin (m.raw_measurements_ 1),
          |m.raw_measurements_ 2|, 0, 0] ∧
      (UKF.ProcessMeasurement llt s m).P_ = 1 ∧
      (UKF.ProcessMeasurement llt s m).previousTimestamp = m.timestamp_ ∧
      (UKF.ProcessMeasurement llt s m).is_initialized_ = true ∧
      (m.raw_measurements_ = ![5, 0, 0] →
        (UKF.ProcessMeasurement llt s m).x_ = ![5, 0, 0, 0, 0] ∧
        (UKF.ProcessMeasurement llt s m).P_ = 1) := by
  have hx : (UKF.ProcessMeasurement llt s m).x_ =
        ![m.raw_measurements_ 0 * Real.cos (m.raw_measurements_ 1),
          m.raw_measurements_ 0 * Real.sin (m.raw_measurements_ 1),
          |m.raw_measurements_ 2|, 0, 0] := by
    simp [UKF.ProcessMeasurement, hs, hr, hm, radar_speed_seed]
  have hP : (UKF.ProcessMeasurement llt s m).P_ = 1 := by
    simp only [UKF.ProcessMeasurement, hs, hr, hm]
    simpa using identity_literal
  refine ⟨hx, hP, ?_, ?_, ?_⟩
  · simp [UKF.ProcessMeasurement, hs, hr, hm]
  · simp [UKF.ProcessMeasurement, hs, hr, hm]
  · intro hz
    refine ⟨?_, hP⟩
    rw [hx, hz]
    simp

/-- Witness for C1: the freshly constructed filter and the radar record `(5, 0, 0)`. -/
theorem ProcessMeasurement_radar_seed_witness :
    (UKF.ProcessMeasurement id (UKF.ctor 0 0 0 0 0) ⟨7, SensorType.RADAR, ![5, 0, 0]⟩).x_
        = ![5, 0, 0, 0, 0] ∧
      (UKF.ProcessMeasurement id (UKF.ctor 0 0 0 0 0) ⟨7, SensorType.RADAR, ![5, 0, 0]⟩).P_ = 1 :=
  (ProcessMeasurement_radar_seed id (UKF.ctor 0 0 0 0 0) ⟨7, SensorType.RADAR, ![5, 0, 0]⟩
    rfl rfl rfl).2.2.2.2 rfl

/-- C2. On a filter that is not initialized and has `use_laser_` set, a LASER
measurement `(px, py)` with time stamp `t` seeds `x_ = [px, py, 0, 0, 0]`,
`P_ = diag(std_laspx_^2, std_laspy_^2, 5, 1, 1)`, `previousTimestamp = t` and
`is_initialized_ = true`; the measurement `(1, 2)` gives `x_ = [1, 2, 0, 0, 0]`. -/
theorem ProcessMeasurement_laser_seed (llt : CholeskyRoutine) (s : UKF) (m : MeasurementPackage)
    (hs : s.is_initialized_ = false) (hl : s.use_laser_ = true)
    (hm : m.sensor_type_ = SensorType.LASER) :
    (UKF.ProcessMeasurement llt s m).x_ =
        ![m.raw_measurements_ 0, m.raw_measurements_ 1, 0, 0, 0] ∧
      (UKF.ProcessMeasurement llt s m).P_ =
        Matrix.diagonal ![s.std_laspx_ ^ 2, s.std_laspy_ ^ 2, 5, 1, 1] ∧
      (UKF.ProcessMeasurement llt s m).previousTimestamp = m.timestamp_ ∧
      (UKF.ProcessMeasurement llt s m).is_initialized_ = true ∧
      (m.raw_measurements_ 0 = 1 → m.raw_measurements_ 1 = 2 →
        (UKF.ProcessMeasurement llt s m).x_ = ![1, 2, 0, 0, 0]) := by
  have hx : (UKF.ProcessMeasurement llt s m).x_ =
        ![m.raw_measurements_ 0, m.raw_measurements_ 1, 0, 0, 0] := by
    simp [UKF.ProcessMeasurement, hs, hl, hm]
  refine ⟨hx, ?_, ?_, ?_, ?_⟩
  · simp only [UKF.ProcessMeasurement, hs, hl, hm]
    simpa using laser_seed_covariance s.std_laspx_ s.std_laspy_
  · simp [UKF.ProcessMeasurement, hs, hl, hm]
  · simp [UKF.ProcessMeasurement, hs, hl, hm]
  · intro h0 h1
    rw [hx, h0, h1]

/-- Witness for C2: the freshly constructed filter and the laser record `(1, 2)`. -/
theorem ProcessMeasurement_laser_seed_witness :
    (UKF.ProcessMeasurement id (UKF.ctor 0 0 0 0 0) ⟨7, SensorType.LASER, ![1, 2, 0]⟩).x_
        = ![1, 2, 0, 0, 0] :=
  (ProcessMeasurement_laser_seed id (UKF.ctor 0 0 0 0 0) ⟨7, SensorType.LASER, ![1, 2, 0]⟩
    rfl rfl rfl).2.2.2.2 rfl rfl

/-! ## Claims on the covariance -/

/-- C5. When `P_` is symmetric positive semi-definite and the laser noise
standard deviations are positive, the lidar innovation covariance
`S = H P_ Hᵀ + R` is positive definite and invertible, and the covariance
`(I - K H) P_` that `UpdateLidar` stores is symmetric positive semi-definite, for
every state and measurement. -/
theorem UpdateLidar_P_posSemidef (s : UKF) (m : MeasurementPackage) (hP : s.P_.PosSemidef)
    (hx : 0 < s.std_laspx_) (hy : 0 < s.std_laspy_) :
    (lidarS s).PosDef ∧ IsUnit (lidarS s) ∧
      (UKF.UpdateLidar s m).P_ = (1 - lidarK s * lidarH) * s.P_ ∧
      (UKF.UpdateLidar s m).P_.IsSymm ∧ (UKF.UpdateLidar s m).P_.PosSemidef := by
  have hS := lidarS_posDef s hP hx hy
  have hpsd : (UKF.UpdateLidar s m).P_.PosSemidef :=
    UpdateLidar_posSemidef_of_posSemidef s m hP hx hy
  have hsym : (UKF.UpdateLidar s m).P_.IsSymm := by
    have := hpsd.isHermitian
    unfold Matrix.IsHermitian at this
    rwa [Matrix.conjTranspose_eq_transpose_of_trivial] at this
  exact ⟨hS, hS.isUnit, rfl, hsym, hpsd⟩

/-- Witness for C5: the constructed filter with `P_ = I` and the laser record `(1, 2)`. -/
theorem UpdateLidar_P_posSemidef_witness :
    (UKF.ctor 0 1 0 0 0).P_.PosSemidef ∧
      (UKF.UpdateLidar (UKF.ctor 0 1 0 0 0) ⟨7, SensorType.LASER, ![1, 2, 0]⟩).P_.PosSemidef :=
  ⟨Matrix.PosSemidef.one,
    (UpdateLidar_P_posSemidef (UKF.ctor 0 1 0 0 0) ⟨7, SensorType.LASER, ![1, 2, 0]⟩
      Matrix.PosSemidef.one (by norm_num [UKF.ctor]) (by norm_num [UKF.ctor])).2.2.2.2⟩

/-! ## Claims on disabled sensors and on the first measurement -/

/-- C9. On a filter that is not initialized, a measurement whose sensor modality
is disabled seeds nothing: `is_initialized_` stays false and `x_`, `P_`,
`previousTimestamp`, `Xsig_pred_` and `weights_` are unchanged (the whole state is). -/
theorem ProcessMeasurement_disabled_uninitialized (llt : CholeskyRoutine) (s : UKF)
    (m : MeasurementPackage) (hs : s.is_initialized_ = false) (hd : sensorDisabled s m) :
    (UKF.ProcessMeasurement llt s m).is_initialized_ = false ∧
      (UKF.ProcessMeasurement llt s m).x_ = s.x_ ∧
      (UKF.ProcessMeasurement llt s m).P_ = s.P_ ∧
      (UKF.ProcessMeasurement llt s m).previousTimestamp = s.previousTimestamp ∧
      (UKF.ProcessMeasurement llt s m).Xsig_pred_ = s.Xsig_pred_ ∧
      (UKF.ProcessMeasurement llt s m).weights_ = s.weights_ ∧
      UKF.ProcessMeasurement llt s m = s := by
  have h : UKF.ProcessMeasurement llt s m = s := by
    rcases hd with ⟨hm, hl⟩ | ⟨hm, hr⟩
    · simp [UKF.ProcessMeasurement, hs, hm, hl]
    · simp [UKF.ProcessMeasurement, hs, hm, hr]
  rw [h]
  exact ⟨hs, rfl, rfl, rfl, rfl, rfl, rfl⟩

/-- Witness for C9: a filter with the laser switched off receives a laser record. -/
theorem ProcessMeasurement_disabled_uninitialized_witness :
    sensorDisabled { UKF.ctor 0 0 0 0 0 with use_laser_ := false }
        ⟨7, SensorType.LASER, ![1, 2, 0]⟩ ∧
      UKF.ProcessMeasurement id { UKF.ctor 0 0 0 0 0 with use_laser_ := false }
        ⟨7, SensorType.LASER, ![1, 2, 0]⟩ = { UKF.ctor 0 0 0 0 0 with use_laser_ := false } :=
  ⟨Or.inl ⟨rfl, rfl⟩,
    (ProcessMeasurement_disabled_uninitialized id { UKF.ctor 0 0 0 0 0 with use_laser_ := false }
      ⟨7, SensorType.LASER, ![1, 2, 0]⟩ rfl (Or.inl ⟨rfl, rfl⟩)).2.2.2.2.2.2⟩

/-- C10. Two filters that are not initialized and have the same configuration,
whatever their `x_`, `P_` and `previousTimestamp`, are left with the same `x_`,
`P_` and `previousTimestamp` by the same measurement of an enabled sensor, and
each keeps its `Xsig_pred_` and `weights_` (no prediction and no update runs). -/
theorem ProcessMeasurement_first_measurement_determines_seed (llt : CholeskyRoutine) (s t : UKF)
    (m : MeasurementPackage) (hs : s.is_initialized_ = false) (ht : t.is_initialized_ = false)
    (hc : sameConfiguration s t) (he : sensorEnabled s m) :
    (UKF.ProcessMeasurement llt s m).x_ = (UKF.ProcessMeasurement llt t m).x_ ∧
      (UKF.ProcessMeasurement llt s m).P_ = (UKF.ProcessMeasurement llt t m).P_ ∧
      (UKF.ProcessMeasurement llt s m).previousTimestamp =
        (UKF.ProcessMeasurement llt t m).previousTimestamp ∧
      (UKF.ProcessMeasurement llt s m).Xsig_pred_ = s.Xsig_pred_ ∧
      (UKF.ProcessMeasurement llt s m).weights_ = s.weights_ ∧
      (UKF.ProcessMeasurement llt t m).Xsig_pred_ = t.Xsig_pred_ ∧
      (UKF.ProcessMeasurement llt t m).weights_ = t.weights_ := by
  obtain ⟨hl, hr, -, -, hpx, hpy, -, -, -⟩ := hc
  rcases he with ⟨hm, hu⟩ | ⟨hm, hu⟩
  · have hu2 : t.use_laser_ = true := by rw [← hl]; exact hu
    simp [UKF.ProcessMeasurement, hs, ht, hm, hu, hu2, hpx, hpy]
  · have hu2 : t.use_radar_ = true := by rw [← hr]; exact hu
    simp [UKF.ProcessMeasurement, hs, ht, hm, hu, hu2]

/-- Witness for C10: two constructed filters with different `x_`, `P_` and
`previousTimestamp` receive the same laser record. -/
theorem ProcessMeasurement_first_measurement_determines_seed_witness :
    (UKF.ProcessMeasurement id (UKF.ctor 0 0 0 0 0) ⟨7, SensorType.LASER, ![1, 2, 0]⟩).x_ =
      (UKF.ProcessMeasurement id (UKF.ctor 1 1 0 0 3) ⟨7, SensorType.LASER, ![1, 2, 0]⟩).x_ :=
  (ProcessMeasurement_first_measurement_determines_seed id (UKF.ctor 0 0 0 0 0)
    (UKF.ctor 1 1 0 0 3) ⟨7, SensorType.LASER, ![1, 2, 0]⟩ rfl rfl
    ⟨rfl, rfl, rfl, rfl, rfl, rfl, rfl, rfl, rfl⟩ (Or.inl ⟨rfl, rfl⟩)).1
/-! ## Claims on the end-to-end laser scenario and on disabled sensors after initialization -/

/-- C7. With the constructor's configuration, a laser record `(0, 0)` at time 0
followed by a laser record `(1, 0)` at time 1,000,000 gives a predicted speed
`x_[2]` of exactly 0 after the prediction step of the second call, and a posterior
`px = x_[0] = 2909/2918` after the lidar update, so `0 < px ≤ 1`. The Cholesky
routine is any routine that returns a Cholesky factor of the seeded augmented
covariance. -/
theorem laser_then_laser_scenario (llt : CholeskyRoutine) (x0 : Fin 5 → ℝ)
    (P0 : Matrix (Fin 5) (Fin 5) ℝ)
    (X0 : Matrix (Fin 5) (Fin 15) ℝ) (w0 : Fin 15 → ℝ) (t0 : ℤ)
    (hllt : IsCholeskyFactor
      (llt (P_aug (UKF.ProcessMeasurement llt (UKF.ctor x0 P0 X0 w0 t0) (laserRecord 0 0 0))))
      (P_aug (UKF.ProcessMeasurement llt (UKF.ctor x0 P0 X0 w0 t0) (laserRecord 0 0 0)))) :
    (UKF.predictStep llt
        (UKF.ProcessMeasurement llt (UKF.ctor x0 P0 X0 w0 t0) (laserRecord 0 0 0))
        (laserRecord 1000000 1 0)).x_ 2 = 0 ∧
      (UKF.ProcessMeasurement llt
        (UKF.ProcessMeasurement llt (UKF.ctor x0 P0 X0 w0 t0) (laserRecord 0 0 0))
        (laserRecord 1000000 1 0)).x_ 0 = 2909 / 2918 ∧
      0 < (UKF.ProcessMeasurement llt
        (UKF.ProcessMeasurement llt (UKF.ctor x0 P0 X0 w0 t0) (laserRecord 0 0 0))
        (laserRecord 1000000 1 0)).x_ 0 ∧
      (UKF.ProcessMeasurement llt
        (UKF.ProcessMeasurement llt (UKF.ctor x0 P0 X0 w0 t0) (laserRecord 0 0 0))
        (laserRecord 1000000 1 0)).x_ 0 ≤ 1 := by
  have hseed := laserSeed_fields llt x0 P0 X0 w0 t0 0 0 0
  have hL := llt_laserSeed llt x0 P0 X0 w0 t0 0 0 0 hllt
  generalize UKF.ProcessMeasurement llt (UKF.ctor x0 P0 X0 w0 t0) (laserRecord 0 0 0) = s1
    at hseed hL ⊢
  have hx1 : s1.x_ = ![0, 0, 0, 0, 0] := by rw [hseed]
  have hlam : s1.lambda_ = -4 := by rw [hseed]; norm_num [UKF.ctor]
  have hinit : s1.is_initialized_ = true := by rw [hseed]
  have hlas : s1.use_laser_ = true := by rw [hseed]; rfl
  have hprev : s1.previousTimestamp = 0 := by rw [hseed]
  have hsx : s1.std_laspx_ = 0.15 := by rw [hseed]; rfl
  have hsy : s1.std_laspy_ = 0.15 := by rw [hseed]; rfl
  have hdt : (((laserRecord 1000000 1 0).timestamp_ - s1.previousTimestamp : ℤ) : ℝ) / 1000000.0
      = 1 := by
    rw [hprev]; norm_num [laserRecord]
  have hps := predictStep_eq llt s1 (laserRecord 1000000 1 0)
  rw [hdt] at hps
  have hmean := Prediction_x_at_rest llt
    { s1 with weights_ := setWeights s1, previousTimestamp := (laserRecord 1000000 1 0).timestamp_ }
    0 0 1 _ hx1 hlam hL rfl
  have hcov := Prediction_P_at_rest llt
    { s1 with weights_ := setWeights s1, previousTimestamp := (laserRecord 1000000 1 0).timestamp_ }
    0 0 1 _ hx1 hlam hL rfl
  rw [← hps] at hmean hcov
  obtain ⟨h00, h01, h10, h11, -⟩ := hcov
  have hx2 : (UKF.predictStep llt s1 (laserRecord 1000000 1 0)).x_ 2 = 0 := by
    rw [hmean]; rfl
  have hpx : (UKF.predictStep llt s1 (laserRecord 1000000 1 0)).std_laspx_ = 0.15 := hsx
  have hpy : (UKF.predictStep llt s1 (laserRecord 1000000 1 0)).std_laspy_ = 0.15 := hsy
  have hP00 : (UKF.predictStep llt s1 (laserRecord 1000000 1 0)).P_ 0 0 = 7.2725 := by
    rw [h00]
    simp only [Matrix.cons_val_zero, Matrix.cons_val_two, Matrix.head_cons, Matrix.tail_cons,
      vec7_val_five]
    rw [Real.sq_sqrt (by norm_num)]
    norm_num
  have hP11 : (UKF.predictStep llt s1 (laserRecord 1000000 1 0)).P_ 1 1 = 0.0225 := by
    rw [h11]
    simp only [Matrix.cons_val_one, Matrix.head_cons]
    norm_num
  have hval : (UKF.ProcessMeasurement llt s1 (laserRecord 1000000 1 0)).x_ 0 = 2909 / 2918 := by
    rw [ProcessMeasurement_laser_initialized llt s1 _ hinit hlas rfl,
      UpdateLidar_x0_of_decoupled _ _ h01 h10 (by rw [hP00, hpx]; norm_num)
        (by rw [hP11, hpy]; norm_num), hP00, hpx, hmean]
    norm_num [laserRecord]
  refine ⟨hx2, hval, ?_, ?_⟩ <;> rw [hval] <;> norm_num

/-- Witness for C7: the routine `cholDiag` on the freshly constructed filter. -/
theorem laser_then_laser_scenario_witness :
    0 < (UKF.ProcessMeasurement cholDiag
        (UKF.ProcessMeasurement cholDiag (UKF.ctor 0 0 0 0 0) (laserRecord 0 0 0))
        (laserRecord 1000000 1 0)).x_ 0 ∧
      (UKF.ProcessMeasurement cholDiag
        (UKF.ProcessMeasurement cholDiag (UKF.ctor 0 0 0 0 0) (laserRecord 0 0 0))
        (laserRecord 1000000 1 0)).x_ 0 ≤ 1 :=
  (laser_then_laser_scenario cholDiag 0 0 0 0 0 (by
    rw [P_aug_laserSeed]
    refine cholDiag_isCholeskyFactor _ (fun i => ?_)
    fin_cases i <;> simp [vec7_val_five, vec7_val_six] <;> norm_num)).2.2

/-- C8, evaluated on the code. The filter `radarOnlySeeded` is initialized and has
the laser switched off; a laser record one second later is a measurement of a
disabled sensor, and `ProcessMeasurement` still runs `Prediction`: the speed
variance `P_[2][2]` goes from 1 to 10. -/
theorem ProcessMeasurement_disabled_sensor_predicts :
    radarOnlySeeded.is_initialized_ = true ∧
      sensorDisabled radarOnlySeeded (laserRecord 1000000 1 0) ∧
      radarOnlySeeded.P_ 2 2 = 1 ∧
      (UKF.ProcessMeasurement cholDiag radarOnlySeeded (laserRecord 1000000 1 0)).P_ 2 2 = 10 := by
  have hf := radarOnlySeeded_fields
  have hi : radarOnlySeeded.is_initialized_ = true := by rw [hf]
  have hd : sensorDisabled radarOnlySeeded (laserRecord 1000000 1 0) := by
    refine Or.inl ⟨rfl, ?_⟩
    rw [hf]
  have hP : radarOnlySeeded.P_ = Matrix.diagonal ![1, 1, 1, 1, 1] := by rw [hf]
  have hx : radarOnlySeeded.x_ = ![1, 0, 0, 0, 0] := by rw [hf]
  have hlam : radarOnlySeeded.lambda_ = -4 := by rw [hf]; norm_num [UKF.ctor]
  have hprev : radarOnlySeeded.previousTimestamp = 0 := by rw [hf]
  have hsa : radarOnlySeeded.std_a_ = 3 := by rw [hf]; norm_num [UKF.ctor]
  have hsy : radarOnlySeeded.std_yawdd_ = 1 := by rw [hf]; norm_num [UKF.ctor]
  have hPa : P_aug radarOnlySeeded = Matrix.diagonal ![1, 1, 1, 1, 1, 3 * 3, 1 * 1] := by
    rw [P_aug_of_diagonal _ _ hP, hsa, hsy]
    rfl
  have hL : cholDiag (P_aug radarOnlySeeded) = Matrix.diagonal ![1, 1, 1, 1, 1, 3, 1] := by
    rw [hPa]
    simp only [cholDiag, Matrix.diagonal_apply_eq]
    refine congrArg Matrix.diagonal (funext fun i => ?_)
    fin_cases i
    · show Real.sqrt 1 = 1
      exact Real.sqrt_one
    · show Real.sqrt 1 = 1
      exact Real.sqrt_one
    · show Real.sqrt 1 = 1
      exact Real.sqrt_one
    · show Real.sqrt 1 = 1
      exact Real.sqrt_one
    · show Real.sqrt 1 = 1
      exact Real.sqrt_one
    · show Real.sqrt (3 * 3) = 3
      exact Real.sqrt_mul_self (by norm_num)
    · show Real.sqrt (1 * 1) = 1
      exact Real.sqrt_mul_self (by norm_num)
  have hdt : (((laserRecord 1000000 1 0).timestamp_ - radarOnlySeeded.previousTimestamp : ℤ) : ℝ)
      / 1000000.0 = 1 := by
    rw [hprev]; norm_num [laserRecord]
  have hps := predictStep_eq cholDiag radarOnlySeeded (laserRecord 1000000 1 0)
  rw [hdt] at hps
  have hcov := Prediction_P_at_rest cholDiag
    { radarOnlySeeded with
      weights_ := setWeights radarOnlySeeded
      previousTimestamp := (laserRecord 1000000 1 0).timestamp_ }
    1 0 1 _ hx hlam hL rfl
  rw [← hps] at hcov
  refine ⟨hi, hd, ?_, ?_⟩
  · rw [hP]; rfl
  · rw [ProcessMeasurement_disabled_initialized _ _ _ hi hd, hcov.2.2.2.2]
    simp only [Matrix.cons_val_two, Matrix.head_cons, Matrix.tail_cons, vec7_val_five]
    norm_num
/-! ## Claim on positive semi-definiteness after a predict and update cycle -/

/-- C6 fails as stated. The state `cexState` has the constructor's configuration
(`lambda_ = -4`, so the centre weight is `-4/3`), a positive semi-definite `P_`
with Cholesky factor `cexL` of its augmented covariance, and is processed with a
laser record one second later (`delta_t = 1`): `ProcessMeasurement` runs
`Prediction` with the weights it sets and then `UpdateLidar`, and the resulting
`P_` has the diagonal entry `-1143/16700`, so it is symmetric, not positive
semi-definite, and has a negative eigenvalue. -/
theorem predict_update_posSemidef_counterexample :
    cexState.P_.PosSemidef ∧ IsCholeskyFactor cexL (P_aug cexState) ∧
      (UKF.ProcessMeasurement (fun _ => cexL) cexState (laserRecord 1000000 0 0)).P_ =
        (UKF.UpdateLidar (UKF.Prediction (fun _ => cexL)
          { cexState with weights_ := setWeights cexState, previousTimestamp := 1000000 } 1)
          (laserRecord 1000000 0 0)).P_ ∧
      (UKF.ProcessMeasurement (fun _ => cexL) cexState (laserRecord 1000000 0 0)).P_ 0 0
        = -(1143 / 16700) ∧
      ¬ (UKF.ProcessMeasurement (fun _ => cexL) cexState
          (laserRecord 1000000 0 0)).P_.PosSemidef ∧
      ∃ (hM : (UKF.ProcessMeasurement (fun _ => cexL) cexState
          (laserRecord 1000000 0 0)).P_.IsHermitian) (j : Fin 5), hM.eigenvalues j < 0 := by
  have hx : cexState.x_ = ![0, 0, 117 / 100, 0, 0] := rfl
  have hlam : cexState.lambda_ = -4 := by norm_num [cexState, UKF.ctor]
  have hsx : cexState.std_laspx_ = 0.15 := rfl
  have hsy : cexState.std_laspy_ = 0.15 := rfl
  have hdt : (((laserRecord 1000000 0 0).timestamp_ - cexState.previousTimestamp : ℤ) : ℝ)
      / 1000000.0 = 1 := by
    norm_num [laserRecord, cexState]
  have hps := predictStep_eq (fun _ => cexL) cexState (laserRecord 1000000 0 0)
  rw [hdt] at hps
  have hcov := Prediction_P_cex (fun _ => cexL)
    { cexState with
      weights_ := setWeights cexState
      previousTimestamp := (laserRecord 1000000 0 0).timestamp_ }
    (117 / 100) hx hlam rfl rfl
  rw [← hps] at hcov
  obtain ⟨h00, h01, h10, h11⟩ := hcov
  have hpx : (UKF.predictStep (fun _ => cexL) cexState (laserRecord 1000000 0 0)).std_laspx_
      = 0.15 := hsx
  have hpy : (UKF.predictStep (fun _ => cexL) cexState (laserRecord 1000000 0 0)).std_laspy_
      = 0.15 := hsy
  have hPM : UKF.ProcessMeasurement (fun _ => cexL) cexState (laserRecord 1000000 0 0) =
      UKF.UpdateLidar (UKF.predictStep (fun _ => cexL) cexState (laserRecord 1000000 0 0))
        (laserRecord 1000000 0 0) :=
    ProcessMeasurement_laser_initialized _ _ _ rfl rfl rfl
  have hval : (UKF.ProcessMeasurement (fun _ => cexL) cexState (laserRecord 1000000 0 0)).P_ 0 0
      = -(1143 / 16700) := by
    rw [hPM, UpdateLidar_P00_of_decoupled _ _ h01 h10 (by rw [h00, hpx]; norm_num)
        (by rw [h11, hpy]; norm_num), h00, hpx]
    norm_num
  have hsym : (UKF.ProcessMeasurement (fun _ => cexL) cexState
      (laserRecord 1000000 0 0)).P_.IsHermitian := by
    rw [hPM, hps]
    exact UpdateLidar_P_isSymm _ _ (Prediction_P_isSymm _ _ _)
  refine ⟨cexState_P_posSemidef, cexL_isCholeskyFactor, ?_, hval, ?_, hsym, ?_⟩
  · rw [hPM, hps]
    rfl
  · exact not_posSemidef_of_neg_diag _ 0 (by rw [hval]; norm_num)
  · exact exists_neg_eigenvalue_of_neg_diag _ hsym 0 (by rw [hval]; norm_num)


/-- C6 as amended. Let the noise standard deviations be positive and let `Prediction`
run with the weights set by `ProcessMeasurement`, for any state, `P_`, `delta_t`,
Cholesky routine and measurement. If `lambda_ ≥ 0`, so that every weight is
non-negative, the `P_` left by `UpdateLidar` is positive semi-definite, and so is the
`P_` left by `UpdateRadar` when no predicted sigma point has `p_x = p_y = 0` (where
line 279 divides by zero). With the constructor's `lambda_ = 3 - n_aug_` the `P_` left
by `UpdateLidar` is positive semi-definite whenever the predicted `P_` is. -/
theorem predict_update_P_posSemidef_of_nonneg_lambda (llt : CholeskyRoutine) (s : UKF)
    (delta_t : ℝ) (m : MeasurementPackage)
    (hx : 0 < s.std_laspx_) (hy : 0 < s.std_laspy_)
    (h1 : 0 < s.std_radr_) (h2 : 0 < s.std_radphi_) (h3 : 0 < s.std_radrd_) :
    (0 ≤ s.lambda_ →
      (UKF.UpdateLidar (UKF.Prediction llt { s with weights_ := setWeights s } delta_t)
        m).P_.PosSemidef ∧
      ((∀ i, ¬ ((UKF.Prediction llt { s with weights_ := setWeights s } delta_t).Xsig_pred_ 0 i = 0
            ∧ (UKF.Prediction llt { s with weights_ := setWeights s } delta_t).Xsig_pred_ 1 i = 0)) →
        (UKF.UpdateRadar (UKF.Prediction llt { s with weights_ := setWeights s } delta_t)
          m).P_.PosSemidef)) ∧
    (s.lambda_ = 3 - (n_aug_ : ℝ) →
      (UKF.Prediction llt { s with weights_ := setWeights s } delta_t).P_.PosSemidef →
      (UKF.UpdateLidar (UKF.Prediction llt { s with weights_ := setWeights s } delta_t)
        m).P_.PosSemidef) := by
  refine ⟨fun hlam => ?_, fun _ hpsd => UpdateLidar_posSemidef_of_posSemidef _ m hpsd hx hy⟩
  have hw : ∀ i, 0 ≤ (UKF.Prediction llt { s with weights_ := setWeights s } delta_t).weights_ i :=
    fun i => setWeights_nonneg s hlam i
  have hP := Prediction_P_eq llt { s with weights_ := setWeights s } delta_t
  constructor
  · have hpsd : (UKF.Prediction llt { s with weights_ := setWeights s } delta_t).P_.PosSemidef := by
      rw [hP]
      exact posSemidef_weighted_outer _ hw _
    exact UpdateLidar_posSemidef_of_posSemidef _ m hpsd hx hy
  · exact fun _ => UpdateRadar_P_posSemidef_of_nonneg _ m hw hP h1 h2 h3

/-- Witness for C6 as amended. With `lambda_ = 0`, state `[1, 10, 0, 0, 0]`, `P_ = I`
and `delta_t = 1` every predicted sigma point has `p_y ≥ 10 - sqrt 7 > 0`, and the
radar update leaves a positive semi-definite `P_`. With the constructor's
configuration, the filter seeded by the laser record `(1, 0)` and predicted over
`delta_t = 0` has the positive semi-definite `P_ = diag(0.15², 0.15², 5, 1, 1)`, and
the laser update leaves a positive semi-definite `P_`. -/
theorem predict_update_P_posSemidef_of_nonneg_lambda_witness :
    (0 ≤ nonnegWeightState.lambda_ ∧
      (∀ i, ¬ ((UKF.Prediction cholDiag
            { nonnegWeightState with weights_ := setWeights nonnegWeightState } 1).Xsig_pred_ 0 i = 0
          ∧ (UKF.Prediction cholDiag
            { nonnegWeightState with weights_ := setWeights nonnegWeightState } 1).Xsig_pred_ 1 i = 0))
      ∧ (UKF.UpdateRadar (UKF.Prediction cholDiag
          { nonnegWeightState with weights_ := setWeights nonnegWeightState } 1)
          (radarRecord 1000000 10 0 0)).P_.PosSemidef) ∧
    (radarScenarioSeed.lambda_ = 3 - (n_aug_ : ℝ) ∧
      (UKF.Prediction cholDiag
        { radarScenarioSeed with weights_ := setWeights radarScenarioSeed } 0).P_.PosSemidef ∧
      (UKF.UpdateLidar (UKF.Prediction cholDiag
        { radarScenarioSeed with weights_ := setWeights radarScenarioSeed } 0)
        (laserRecord 0 1 0)).P_.PosSemidef) :=
  ⟨⟨le_refl _, nonnegWeightState_no_origin 1,
    ((predict_update_P_posSemidef_of_nonneg_lambda cholDiag nonnegWeightState 1
      (radarRecord 1000000 10 0 0) (by norm_num [nonnegWeightState, UKF.ctor])
      (by norm_num [nonnegWeightState, UKF.ctor]) (by norm_num [nonnegWeightState, UKF.ctor])
      (by norm_num [nonnegWeightState, UKF.ctor])
      (by norm_num [nonnegWeightState, UKF.ctor])).1 (le_refl _)).2
      (nonnegWeightState_no_origin 1)⟩,
   ⟨radarScenarioSeed_config.1, seed_Prediction_zero_P_posSemidef,
    (predict_update_P_posSemidef_of_nonneg_lambda cholDiag radarScenarioSeed 0
      (laserRecord 0 1 0)
      (by rw [radarScenarioSeed_config.2.1]; norm_num)
      (by rw [radarScenarioSeed_config.2.2.1]; norm_num)
      (by rw [radarScenarioSeed_config.2.2.2.1]; norm_num)
      (by rw [radarScenarioSeed_config.2.2.2.2.1]; norm_num)
      (by rw [radarScenarioSeed_config.2.2.2.2.2]; norm_num)).2
      radarScenarioSeed_config.1 seed_Prediction_zero_P_posSemidef⟩⟩

/-! ## Claim on the radar update -/

/-- C3, evaluated on the code. The constructed filter is seeded by the laser record
`(1, 0)` and then receives the radar record `(rho, phi, rho_dot) = (1, 0, 0)` with
the same time stamp. `ProcessMeasurement` runs `UpdateRadar` on the predicted state;
the bearing component of `z - z_pred` is 0, which lies in `(-π, π]`, but the two
loops of lines 330-331 leave `2π` in the residual, and the posterior `x_[1]` is
`2π * K[1][1]` away from the value `x_ + K (z - z_pred)` that the claim gives,
with `K[1][1] > 0`. -/
theorem UpdateRadar_bearing_residual_shifted :
    radarScenarioSeed.is_initialized_ = true ∧
      UKF.ProcessMeasurement cholDiag radarScenarioSeed (radarRecord 0 1 0 0) =
        UKF.UpdateRadar radarScenarioPredicted (radarRecord 0 1 0 0) ∧
      (radarRecord 0 1 0 0).raw_measurements_ 1 - z_pred radarScenarioPredicted 1 = 0 ∧
      radarResidual radarScenarioPredicted (radarRecord 0 1 0 0) 1 = 2 * Real.pi ∧
      (UKF.UpdateRadar radarScenarioPredicted (radarRecord 0 1 0 0)).x_ 1 =
        (radarScenarioPredicted.x_ + radarK radarScenarioPredicted *ᵥ
          ((radarRecord 0 1 0 0).raw_measurements_ - z_pred radarScenarioPredicted)) 1
          + 2 * Real.pi * radarK radarScenarioPredicted 1 1 ∧
      (UKF.UpdateRadar radarScenarioPredicted (radarRecord 0 1 0 0)).x_ 1 ≠
        (radarScenarioPredicted.x_ + radarK radarScenarioPredicted *ᵥ
          ((radarRecord 0 1 0 0).raw_measurements_ - z_pred radarScenarioPredicted)) 1 := by
  obtain ⟨hX, hw, hx, h1, h2, h3⟩ := radarScenarioPredicted_fields
  obtain ⟨p0, p1, p2⟩ := radar_scenario_z_pred _ hX hw
  obtain ⟨k0, k1, k2⟩ := radar_scenario_K _ hX hw hx h1 h2 h3
  have hpi := Real.pi_pos
  have hseed := laserSeed_fields cholDiag 0 0 0 0 0 0 1 0
  have hi : radarScenarioSeed.is_initialized_ = true := by
    unfold radarScenarioSeed; rw [hseed]
  have hr : radarScenarioSeed.use_radar_ = true := by
    unfold radarScenarioSeed; rw [hseed]; rfl
  have hb : (radarRecord 0 1 0 0).raw_measurements_ 1 - z_pred radarScenarioPredicted 1 = 0 := by
    rw [p1]; simp [radarRecord]
  have hres : radarResidual radarScenarioPredicted (radarRecord 0 1 0 0) 1 = 2 * Real.pi := by
    simp only [radarResidual, Function.update_same]
    rw [hb, normalizeBearing_of_mem (by linarith) hpi, zero_add]
  have hres0 : radarResidual radarScenarioPredicted (radarRecord 0 1 0 0) 0 =
      (radarRecord 0 1 0 0).raw_measurements_ 0 - z_pred radarScenarioPredicted 0 := by
    simp [radarResidual]
  have hres2 : radarResidual radarScenarioPredicted (radarRecord 0 1 0 0) 2 =
      (radarRecord 0 1 0 0).raw_measurements_ 2 - z_pred radarScenarioPredicted 2 := by
    simp [radarResidual]
  have hcode : (UKF.UpdateRadar radarScenarioPredicted (radarRecord 0 1 0 0)).x_ 1 =
      2 * Real.pi * radarK radarScenarioPredicted 1 1 := by
    simp only [UKF.UpdateRadar, Pi.add_apply, Matrix.mulVec, Matrix.dotProduct,
      Fin.sum_univ_three, hres, hres0, hres2, k0, k2, hx]
    simp
    ring
  have hclaim : (radarScenarioPredicted.x_ + radarK radarScenarioPredicted *ᵥ
      ((radarRecord 0 1 0 0).raw_measurements_ - z_pred radarScenarioPredicted)) 1 = 0 := by
    simp only [Pi.add_apply, Matrix.mulVec, Matrix.dotProduct, Fin.sum_univ_three, Pi.sub_apply,
      hb, k0, k2, hx]
    simp
  refine ⟨hi, ProcessMeasurement_radar_initialized _ _ _ hi hr rfl, hb, hres, ?_, ?_⟩
  · rw [hcode, hclaim, zero_add]
  · rw [hcode, hclaim]
    have : 0 < 2 * Real.pi * radarK radarScenarioPredicted 1 1 := by positivity
    exact ne_of_gt this

/-! ## Claim on the sum of the weights -/

/-- The claim C11 as stated fails for `lambda = -n_aug`: with `n_aug = 7` and
`lambda = -7` both quotients of lines 104-108 divide by `lambda + n_aug = 0`. Over the
reals with `x / 0 = 0` every weight is 0 and the sum is 0; in the source the quotients
are `-inf` and `+inf` and their sum is not a number. In neither reading is the sum 1. -/
theorem weights_sum_counterexample :
    ∑ i, weightsFor 7 (-7) i = 0 ∧ ∑ i, weightsFor 7 (-7) i ≠ 1 ∧
    ∑ i, setWeights { UKF.ctor 0 0 0 0 0 with lambda_ := -7 } i ≠ 1 := by
  have h := sum_weightsFor_degenerate 7
  have e : (-((7 : ℕ) : ℝ)) = -7 := by norm_num
  rw [e] at h
  refine ⟨h, by rw [h]; norm_num, ?_⟩
  rw [setWeights_eq_weightsFor]
  show ∑ i, weightsFor 7 (-7) i ≠ 1
  rw [h]; norm_num

/-- C11 (amended). For every `n_aug` and every `lambda` with `lambda + n_aug ≠ 0` the
`2*n_aug+1` weights of lines 102-109 sum to 1; this covers the constructor's
`lambda = 3 - n_aug` for every `n_aug`, and the weights `ProcessMeasurement` sets on
a constructed filter (`n_aug_ = 7`, `lambda_ = -4`) sum to 1. -/
theorem weights_sum_eq_one (n_aug : ℕ) (lambda : ℝ) (x0 : Fin 5 → ℝ)
    (P0 : Matrix (Fin 5) (Fin 5) ℝ) (X0 : Matrix (Fin 5) (Fin 15) ℝ) (w0 : Fin 15 → ℝ) (t0 : ℤ) :
    (lambda + (n_aug : ℝ) ≠ 0 → ∑ i, weightsFor n_aug lambda i = 1) ∧
    ∑ i, weightsFor n_aug (3 - (n_aug : ℝ)) i = 1 ∧
    setWeights (UKF.ctor x0 P0 X0 w0 t0) = weightsFor 7 (3 - 7) ∧
    ∑ i, setWeights (UKF.ctor x0 P0 X0 w0 t0) i = 1 := by
  refine ⟨sum_weightsFor_of_ne n_aug lambda, sum_weightsFor_of_ne n_aug _ (by norm_num), ?_, ?_⟩
  · rw [setWeights_eq_weightsFor]
    simp [UKF.ctor]
  · rw [setWeights_eq_weightsFor]
    exact sum_weightsFor_of_ne 7 _ (by norm_num [UKF.ctor])

theorem weights_sum_eq_one_witness :
    (-4 : ℝ) + ((7 : ℕ) : ℝ) ≠ 0 ∧ ∑ i, weightsFor 7 (-4) i = 1 :=
  ⟨by norm_num, (weights_sum_eq_one 7 (-4) 0 0 0 0 0).1 (by norm_num)⟩

/-! ## Claim on the two branches of the motion model -/

/-- C12. For every `p_x`, `p_y`, `v`, `yaw` and `delta_t`, as `yawd` tends to 0 through
non-zero values the turning-branch values of lines 166-167 converge to the values of
lines 171-172, and on a sigma point with `yawd = 0` the code takes the branch of lines
171-172. -/
theorem turning_branch_tendsto_straight (p_x p_y v yaw delta_t : ℝ) (p : Fin 7 → ℝ) :
    Filter.Tendsto (fun yawd => px_p_turning p_x v yaw yawd delta_t)
      (nhdsWithin 0 {0}ᶜ) (nhds (px_p_straight p_x v yaw delta_t)) ∧
    Filter.Tendsto (fun yawd => py_p_turning p_y v yaw yawd delta_t)
      (nhdsWithin 0 {0}ᶜ) (nhds (py_p_straight p_y v yaw delta_t)) ∧
    (p 4 = 0 →
      predictSigmaPoint delta_t p 0 =
        px_p_straight (p 0) (p 2) (p 3) delta_t
          + 0.5 * p 5 * delta_t * delta_t * Real.cos (p 3) ∧
      predictSigmaPoint delta_t p 1 =
        py_p_straight (p 1) (p 2) (p 3) delta_t
          + 0.5 * p 5 * delta_t * delta_t * Real.sin (p 3)) :=
  ⟨px_p_turning_tendsto p_x v yaw delta_t, py_p_turning_tendsto p_y v yaw delta_t,
    predictSigmaPoint_of_yawd_zero delta_t p⟩

theorem turning_branch_tendsto_straight_witness :
    (![1, 2, 3, 0.5, 0, 0, 0] : Fin 7 → ℝ) 4 = 0 ∧
    predictSigmaPoint 1 ![1, 2, 3, 0.5, 0, 0, 0] 0 =
      px_p_straight 1 3 0.5 1 + 0.5 * 0 * 1 * 1 * Real.cos 0.5 ∧
    predictSigmaPoint 1 ![1, 2, 3, 0.5, 0, 0, 0] 1 =
      py_p_straight 2 3 0.5 1 + 0.5 * 0 * 1 * 1 * Real.sin 0.5 :=
  ⟨rfl, (turning_branch_tendsto_straight 0 0 0 0 1 ![1, 2, 3, 0.5, 0, 0, 0]).2.2 rfl⟩

/-! ## Claims on the wrap-around of the yaw and of the bearing -/

/-- C13. The yaw normalization of `Prediction` (lines 211-212, again at lines 321-322 of
`UpdateRadar`) is idempotent: for every real `d`, normalizing the normalized value
returns it unchanged; the same holds for the yaw component of `x_diff`. -/
theorem normalizeYaw_idempotent (d : ℝ) (Xsig_pred : Matrix (Fin 5) (Fin 15) ℝ)
    (x : Fin 5 → ℝ) (i : Fin 15) :
    normalizeYaw (normalizeYaw d) = normalizeYaw d ∧
    normalizeYaw (x_diff Xsig_pred x i 3) = x_diff Xsig_pred x i 3 := by
  refine ⟨normalizeYaw_idem d, ?_⟩
  rw [x_diff_apply_yaw]
  exact normalizeYaw_idem _

/-- The claim C14 as stated fails at `d = π`, `k = -1`: `π` is left at `π`, and
`π + 2π·(-1) = -π` is left at `-π`. -/
theorem normalizeYaw_add_period_counterexample :
    normalizeYaw (Real.pi + 2 * Real.pi * ((-1 : ℤ) : ℝ)) ≠ normalizeYaw Real.pi := by
  have h : Real.pi + 2 * Real.pi * ((-1 : ℤ) : ℝ) = -Real.pi := by push_cast; ring
  rw [h, normalizeYaw_neg_pi, normalizeYaw_pi]
  linarith [Real.pi_pos]

/-- C14 (amended). For every real `d` and integer `k` the normalized values of
`d + 2πk` and of `d` differ by an integer multiple of `2π`, and they are equal
whenever `d` is not an odd multiple of `π`. -/
theorem normalizeYaw_add_period (d : ℝ) (k : ℤ) :
    (∃ j : ℤ, normalizeYaw (d + 2 * Real.pi * k) = normalizeYaw d + 2 * Real.pi * j) ∧
    ((∀ j : ℤ, d ≠ (2 * j + 1) * Real.pi) →
      normalizeYaw (d + 2 * Real.pi * k) = normalizeYaw d) := by
  refine ⟨?_, normalizeYaw_add_of_not_odd d k⟩
  obtain ⟨a, ha⟩ := normalizeYaw_congr d
  obtain ⟨b, hb⟩ := normalizeYaw_congr (d + 2 * Real.pi * k)
  refine ⟨b + k - a, ?_⟩
  rw [hb, ha]
  push_cast
  ring

theorem normalizeYaw_add_period_witness :
    (∀ j : ℤ, (0 : ℝ) ≠ (2 * j + 1) * Real.pi) ∧
    normalizeYaw (0 + 2 * Real.pi * ((1 : ℤ) : ℝ)) = normalizeYaw 0 :=
  ⟨zero_ne_odd_mul_pi, (normalizeYaw_add_period 0 1).2 zero_ne_odd_mul_pi⟩

/-- C15, evaluated on the code. The bearing loops of `UpdateRadar` (lines 295-296,
315-316 and 330-331) test `> M_PI` and then `< M_PI`, so for every state, sigma point
and record the bearing component after the loops is at least `π`, and it differs from
the unnormalized value by an integer multiple of `2π`. On the state predicted from the
laser seed `(1, 0)` the unnormalized bearing difference of sigma point 0 and of the
record `(1, 0, 0)` is 0, which lies in `(-π, π]`, and the loops leave `2π`, outside
`(-π, π]`. -/
theorem UpdateRadar_bearing_not_wrapped (s : UKF) (i : Fin 15)
    (meas_package : MeasurementPackage) :
    Real.pi ≤ z_diff s i 1 ∧ Real.pi ≤ radarResidual s meas_package 1 ∧
    (∃ k : ℤ, z_diff s i 1 = Zsig s 1 i - z_pred s 1 + 2 * Real.pi * k) ∧
    (∃ k : ℤ, radarResidual s meas_package 1 =
      meas_package.raw_measurements_ 1 - z_pred s 1 + 2 * Real.pi * k) ∧
    Zsig radarScenarioPredicted 1 0 - z_pred radarScenarioPredicted 1 = 0 ∧
    z_diff radarScenarioPredicted 0 1 = 2 * Real.pi ∧
    z_diff radarScenarioPredicted 0 1 ∉ Set.Ioc (-Real.pi) Real.pi ∧
    radarResidual radarScenarioPredicted (radarRecord 0 1 0 0) 1 = 2 * Real.pi ∧
    radarResidual radarScenarioPredicted (radarRecord 0 1 0 0) 1
      ∉ Set.Ioc (-Real.pi) Real.pi := by
  obtain ⟨hX, hw, -, -, -, -⟩ := radarScenarioPredicted_fields
  obtain ⟨-, z1, -⟩ := radar_scenario_Zsig _ hX
  obtain ⟨-, p1, -⟩ := radar_scenario_z_pred _ hX hw
  have hpi := Real.pi_pos
  have hr : ∀ (t : UKF) (m : MeasurementPackage), radarResidual t m 1 =
      normalizeBearing (m.raw_measurements_ 1 - z_pred t 1) := fun t m => by
    simp [radarResidual]
  have hZ : Zsig radarScenarioPredicted 1 0 = 0 := congrFun z1 0
  have hd : Zsig radarScenarioPredicted 1 0 - z_pred radarScenarioPredicted 1 = 0 := by
    rw [hZ, p1, sub_zero]
  have hn : normalizeBearing 0 = 2 * Real.pi := by
    rw [normalizeBearing_of_mem (by linarith) hpi, zero_add]
  have hz : z_diff radarScenarioPredicted 0 1 = 2 * Real.pi := by
    rw [z_diff_apply_bearing, hd, hn]
  have hm : (radarRecord 0 1 0 0).raw_measurements_ 1 - z_pred radarScenarioPredicted 1 = 0 := by
    rw [p1]; simp [radarRecord]
  have hres : radarResidual radarScenarioPredicted (radarRecord 0 1 0 0) 1 = 2 * Real.pi := by
    rw [hr, hm, hn]
  refine ⟨?_, ?_, ?_, ?_, hd, hz, ?_, hres, ?_⟩
  · rw [z_diff_apply_bearing]; exact (normalizeBearing_mem _).1
  · rw [hr]; exact (normalizeBearing_mem _).1
  · rw [z_diff_apply_bearing]; exact normalizeBearing_congr _
  · rw [hr]; exact normalizeBearing_congr _
  · rw [hz]; intro h; linarith [h.2]
  · rw [hres]; intro h; linarith [h.2]

/-- The claim C16 as stated fails on the yaw difference `-π`. The state `cexState` with
the weights of `ProcessMeasurement` and the factor `cexL` is predicted over one second:
sigma point 8 has the predicted yaw `-π`, the predicted mean yaw is 0, and the two loops
of lines 211-212 leave the difference `-π` in place, which is not in `(-π, π]`. -/
theorem Prediction_yaw_wrap_counterexample :
    IsCholeskyFactor cexL (P_aug cexState) ∧
    (UKF.Prediction (fun _ => cexL) { cexState with weights_ := setWeights cexState } 1).Xsig_pred_
        3 8 -
      (UKF.Prediction (fun _ => cexL) { cexState with weights_ := setWeights cexState } 1).x_ 3
        = -Real.pi ∧
    x_diff
      (UKF.Prediction (fun _ => cexL) { cexState with weights_ := setWeights cexState } 1).Xsig_pred_
      (UKF.Prediction (fun _ => cexL) { cexState with weights_ := setWeights cexState } 1).x_
      8 3 = -Real.pi ∧
    x_diff
      (UKF.Prediction (fun _ => cexL) { cexState with weights_ := setWeights cexState } 1).Xsig_pred_
      (UKF.Prediction (fun _ => cexL) { cexState with weights_ := setWeights cexState } 1).x_
      8 3 ∉ Set.Ioc (-Real.pi) Real.pi ∧
    normalizeYaw (-Real.pi) = -Real.pi := by
  have hlam : cexState.lambda_ = -4 := by norm_num [cexState, UKF.ctor]
  obtain ⟨h1, h2⟩ := Prediction_x_diff_yaw_cex (fun _ => cexL)
    { cexState with weights_ := setWeights cexState } (117 / 100) rfl hlam rfl rfl
  refine ⟨cexL_isCholeskyFactor, h1, h2, ?_, normalizeYaw_neg_pi⟩
  rw [h2]
  intro h
  exact lt_irrefl _ h.1

/-- C16 (amended). In `Prediction` the two loops of lines 211-212 terminate on every
real yaw difference (the loops are total functions) and leave a value in the closed
interval `[-π, π]` that differs from the original by an integer multiple of `2π`. -/
theorem Prediction_yaw_wrap (d : ℝ) (Xsig_pred : Matrix (Fin 5) (Fin 15) ℝ)
    (x : Fin 5 → ℝ) (i : Fin 15) :
    (-Real.pi ≤ normalizeYaw d ∧ normalizeYaw d ≤ Real.pi) ∧
    (∃ k : ℤ, normalizeYaw d = d + 2 * Real.pi * k) ∧
    x_diff Xsig_pred x i 3 = normalizeYaw (Xsig_pred 3 i - x 3) ∧
    (-Real.pi ≤ x_diff Xsig_pred x i 3 ∧ x_diff Xsig_pred x i 3 ≤ Real.pi) ∧
    ∃ k : ℤ, x_diff Xsig_pred x i 3 = Xsig_pred 3 i - x 3 + 2 * Real.pi * k := by
  refine ⟨normalizeYaw_mem d, normalizeYaw_congr d, x_diff_apply_yaw _ _ _, ?_, ?_⟩
  · rw [x_diff_apply_yaw]; exact normalizeYaw_mem _
  · rw [x_diff_apply_yaw]; exact normalizeYaw_congr _

/-! ## Claims on the sigma points, the prediction over zero seconds and the radar model -/

/-- C17. For every state `x_`, covariance `P_` and matrix `L` with `L * Lᵀ = P_aug`,
with the weights of `ProcessMeasurement` for `n_aug_ = 7`, `lambda_ = 3 - n_aug_ = -4`,
the fifteen augmented sigma points have weighted mean `x_aug` and weighted covariance
`P_aug`. -/
theorem Xsig_aug_reproduces_moments (s : UKF) (L : Matrix (Fin 7) (Fin 7) ℝ)
    (hl : s.lambda_ = 3 - (n_aug_ : ℝ)) (hL : L * Lᵀ = P_aug s) :
    accumulate 15 (fun i => setWeights s i • (fun r => Xsig_aug s L r i)) = x_aug s ∧
    accumulate 15 (fun i => setWeights s i •
      vecMulVec (fun r => Xsig_aug s L r i - x_aug s r)
        (fun r => Xsig_aug s L r i - x_aug s r)) = P_aug s := by
  have hl4 := lambda_ctor_eq hl
  constructor
  · funext r
    simp only [accumulate_eq_sum, Finset.sum_apply, Pi.smul_apply, smul_eq_mul]
    exact Xsig_aug_weighted_mean s L hl4 r
  · ext a b
    simp only [accumulate_eq_sum, Matrix.sum_apply, Matrix.smul_apply, vecMulVec_apply,
      smul_eq_mul]
    rw [Xsig_aug_weighted_cov s L hl4, hL]

theorem Xsig_aug_reproduces_moments_witness :
    cexState.lambda_ = 3 - (n_aug_ : ℝ) ∧ cexL * cexLᵀ = P_aug cexState ∧
    accumulate 15 (fun i => setWeights cexState i • (fun r => Xsig_aug cexState cexL r i))
      = x_aug cexState ∧
    accumulate 15 (fun i => setWeights cexState i •
      vecMulVec (fun r => Xsig_aug cexState cexL r i - x_aug cexState r)
        (fun r => Xsig_aug cexState cexL r i - x_aug cexState r)) = P_aug cexState :=
  ⟨rfl, cexL_mul_transpose, Xsig_aug_reproduces_moments cexState cexL rfl cexL_mul_transpose⟩

/-- C18. The bearing loops of `UpdateRadar` as coded (`> M_PI`, then `< M_PI`)
terminate on every real `d` with a value in `[π, 3π)` that differs from `d` by an
integer multiple of `2π`; a bearing difference in `(-π, π)` is shifted by exactly
`+2π`; this is the value used in `S`, in `Tc` and in the state update. -/
theorem normalizeBearing_as_coded (d : ℝ) (s : UKF) (i : Fin 15)
    (meas_package : MeasurementPackage) :
    (Real.pi ≤ normalizeBearing d ∧ normalizeBearing d < 3 * Real.pi) ∧
    (∃ k : ℤ, normalizeBearing d = d + 2 * Real.pi * k) ∧
    (-Real.pi < d → d < Real.pi → normalizeBearing d = d + 2 * Real.pi) ∧
    z_diff s i 1 = normalizeBearing (Zsig s 1 i - z_pred s 1) ∧
    radarResidual s meas_package 1 =
      normalizeBearing (meas_package.raw_measurements_ 1 - z_pred s 1) := by
  refine ⟨normalizeBearing_mem d, normalizeBearing_congr d,
    fun h1 h2 => normalizeBearing_of_mem h1.le h2, z_diff_apply_bearing s i, ?_⟩
  simp [radarResidual]

theorem normalizeBearing_as_coded_witness :
    -Real.pi < (0 : ℝ) ∧ (0 : ℝ) < Real.pi ∧ normalizeBearing 0 = 0 + 2 * Real.pi :=
  ⟨by linarith [Real.pi_pos], Real.pi_pos,
    (normalizeBearing_as_coded 0 radarScenarioPredicted 0 (radarRecord 0 1 0 0)).2.2.1
      (by linarith [Real.pi_pos]) Real.pi_pos⟩

/-- C19. With the weights set by `ProcessMeasurement` for the constructor's
`lambda_ = 3 - n_aug_` and a factor `L = llt(P_aug)` with `L * Lᵀ = P_aug` (which makes
`P_` symmetric), `Prediction(0)` leaves `x_` unchanged, and it leaves `P_` unchanged
whenever `sqrt 3 * |L(3, i)| ≤ π` for every column `i`. -/
theorem Prediction_zero_is_identity (llt : CholeskyRoutine) (s : UKF)
    (hl : s.lambda_ = 3 - (n_aug_ : ℝ)) (hw : s.weights_ = setWeights s)
    (hL : llt (P_aug s) * (llt (P_aug s))ᵀ = P_aug s) :
    (UKF.Prediction llt s 0).x_ = s.x_ ∧
    ((∀ i, Real.sqrt 3 * |llt (P_aug s) 3 i| ≤ Real.pi) →
      (UKF.Prediction llt s 0).P_ = s.P_) :=
  ⟨Prediction_zero_x llt s (lambda_ctor_eq hl) hw,
    fun hwrap => Prediction_zero_P llt s (lambda_ctor_eq hl) hw hL hwrap⟩

theorem Prediction_zero_is_identity_witness :
    (∀ i, Real.sqrt 3 * |cexL 3 i| ≤ Real.pi) ∧
    (UKF.Prediction (fun _ => cexL) { cexState with weights_ := setWeights cexState } 0).x_
      = cexState.x_ ∧
    (UKF.Prediction (fun _ => cexL) { cexState with weights_ := setWeights cexState } 0).P_
      = cexState.P_ :=
  ⟨cexL_yaw_row_le,
    (Prediction_zero_is_identity (fun _ => cexL)
      { cexState with weights_ := setWeights cexState } rfl rfl cexL_mul_transpose).1,
    (Prediction_zero_is_identity (fun _ => cexL)
      { cexState with weights_ := setWeights cexState } rfl rfl cexL_mul_transpose).2
      cexL_yaw_row_le⟩

/-- C20. For every predicted sigma point with `(p_x, p_y) ≠ (0, 0)` the transformed
point has `rho > 0` and `|rho_dot| ≤ |v|`; `rho_dot` is a quotient by `rho`, and `rho`
is zero only when `p_x = p_y = 0`. -/
theorem Zsig_range_rate_le_speed (s : UKF) (i : Fin 15) :
    (¬ (s.Xsig_pred_ 0 i = 0 ∧ s.Xsig_pred_ 1 i = 0) →
      0 < Zsig s 0 i ∧ |Zsig s 2 i| ≤ |s.Xsig_pred_ 2 i|) ∧
    Zsig s 2 i =
      (s.Xsig_pred_ 0 i * (s.Xsig_pred_ 2 i * Real.cos (s.Xsig_pred_ 3 i))
        + s.Xsig_pred_ 1 i * (s.Xsig_pred_ 2 i * Real.sin (s.Xsig_pred_ 3 i))) / Zsig s 0 i ∧
    (Zsig s 0 i = 0 ↔ s.Xsig_pred_ 0 i = 0 ∧ s.Xsig_pred_ 1 i = 0) := by
  obtain ⟨h0, -, h2⟩ := Zsig_val s i
  refine ⟨fun h => ⟨?_, ?_⟩, ?_, ?_⟩
  · rw [h0]; exact (range_pos_iff _ _).mpr h
  · rw [h2]; exact abs_range_rate_le _ _ _ _ h
  · rw [h2, h0]
  · rw [h0]; exact range_eq_zero_iff _ _

theorem Zsig_range_rate_le_speed_witness :
    ¬ ((UKF.ctor 0 0 (fun _ _ => 1) 0 0).Xsig_pred_ 0 0 = 0 ∧
      (UKF.ctor 0 0 (fun _ _ => 1) 0 0).Xsig_pred_ 1 0 = 0) ∧
    0 < Zsig (UKF.ctor 0 0 (fun _ _ => 1) 0 0) 0 0 ∧
    |Zsig (UKF.ctor 0 0 (fun _ _ => 1) 0 0) 2 0| ≤
      |(UKF.ctor 0 0 (fun _ _ => 1) 0 0).Xsig_pred_ 2 0| :=
  ⟨fun h => one_ne_zero h.1,
    (Zsig_range_rate_le_speed (UKF.ctor 0 0 (fun _ _ => 1) 0 0) 0).1
      (fun h => one_ne_zero h.1)⟩

